import Mathlib

/-!
# RTT estimators of `rtt-estimator.cc`

A shallow embedding of the two round-trip-time estimators of
`src/code/sourcecode/rtt-estimator.cc` (`RttMeanDeviation` and `RttFixedShare`,
both derived from `RttEstimator`) and theorems about them.

Conventions of the embedding:

* an ns-3 `Time` is its `int64_t` tick count, an `Int`; arithmetic that the
  code performs on `int64_t` is wrapped to the 64-bit two's complement range
  with `wrap64`, and `m_nSamples` (a `uint32_t`) is incremented modulo `2^32`;
* `double` arithmetic is arithmetic in a linearly ordered field `K`
  (`ℚ` for evaluation, `ℝ` for the real-valued reading of the code); a decimal
  literal is the rational it spells (`0.4` is `2/5`, `0.08` is `2/25`, `1e-6`
  is `1/1000000`);
* the class declarations (`rtt-estimator.h`) are not at hand: the data members
  are the ones the member functions read and write;
* what the file uses but does not define is a parameter: the unit conversions
  of `Time` (`TimeUnits`) and the C library calls `exp`, `pow`, `abs` (`Libm`);
* a `std::vector` is a `List`; `v[i]` reads with `List.getD` and writes with
  `List.set`; a counting `for` loop is `forLoop`;
* a theorem about `IntegerUpdate` states the range in which its `int64_t`
  operations do not overflow (`InInt64`), and a theorem about the learning
  update states what it uses of `exp`, `pow` and `abs` (single hypotheses, or
  `Libm.Exact`, which the real functions satisfy).
-/

namespace ns3

/-! ## Machine integers and `Time` -/

/-- Two's complement wrap of an integer to the `int64_t` range. -/
def wrap64 (x : Int) : Int := (x + 2 ^ 63) % 2 ^ 64 - 2 ^ 63

/-- The increment `m_nSamples++` of a `uint32_t`. -/
def incr32 (n : Nat) : Nat := (n + 1) % 2 ^ 32

/-- Left shift `x << k` of an `int64_t`. -/
def shl64 (x : Int) (k : Nat) : Int := wrap64 (x * 2 ^ k)

/-- Right shift `x >> k` of an `int64_t` (arithmetic shift: rounds down). -/
def shr64 (x : Int) (k : Nat) : Int := x / 2 ^ k

/-- The unit conversions of the ns-3 `Time` class that the estimators call.
`Time` is supplied by ns-3, so they are parameters of the model:
`ToDouble` is `Time::ToDouble (Time::S)` (also `Time::GetSeconds`),
`FromDouble` is `Time::FromDouble (·, Time::S)` read as a tick count, and
`GetMilliSeconds` is `Time::GetMilliSeconds`. -/
structure TimeUnits (K : Type) where
  ToDouble : Int → K
  FromDouble : K → Int
  GetMilliSeconds : Int → Int

/-- The C library functions called without qualification in `RttFixedShare`:
`exp`, `pow` and the `abs` of line 453 (whose overload is chosen by the headers
in scope at the call). -/
structure Libm (K : Type) where
  exp : K → K
  pow : K → K → K
  abs : K → K

/-- Modelled from the spec: the ns-3 `Time` conversions at the default nanosecond
resolution (ns-3 itself is not part of the repository): one second is `10^9`
ticks, a real number of seconds is converted to the tick count at or below it,
and whole milliseconds are the tick count divided by `10^6`, truncated. -/
def TimeNS (K : Type) [LinearOrderedField K] [FloorRing K] : TimeUnits K where
  ToDouble := fun t => (t : K) / 1000000000
  FromDouble := fun x => ⌊x * 1000000000⌋
  GetMilliSeconds := fun t => Int.tdiv t 1000000

/-- `Time operator- (lhs, rhs)` on tick counts. -/
def Time.sub (a b : Int) : Int := wrap64 (a - b)

/-- `Time operator+ (lhs, rhs)` and `operator+=` on tick counts. -/
def Time.add (a b : Int) : Int := wrap64 (a + b)

/-- `Time operator/ (Time, int64_t)`: C++ integer division of the tick count. -/
def Time.div (a k : Int) : Int := Int.tdiv a k

/-- `Abs (Time)`: negates a negative tick count. -/
def Time.Abs (a : Int) : Int := if a < 0 then wrap64 (-a) else a

/-- A counting loop `for (i = 0; i < n; i++) body`. -/
def forLoop {σ : Type} (n : Nat) (body : Nat → σ → σ) (s : σ) : σ :=
  match n with
  | 0 => s
  | k + 1 => body k (forLoop k body s)

/-- Tolerance used to check reciprocal of two numbers (`1e-6`). -/
def TOLERANCE (K : Type) [LinearOrderedField K] : K := 1 / 1000000

/-! ## Base class `RttEstimator` -/

/-- The data members of `RttEstimator`. -/
structure RttEstimator where
  m_initialEstimatedRtt : Int
  m_estimatedRtt : Int
  m_estimatedVariation : Int
  m_nSamples : Nat
  deriving DecidableEq, Repr

namespace RttEstimator

/-- `RttEstimator::RttEstimator ()`; the attribute `InitialEstimation` is the
argument. -/
def ctor (initial : Int) : RttEstimator :=
  { m_initialEstimatedRtt := initial
    m_estimatedRtt := initial
    m_estimatedVariation := 0
    m_nSamples := 0 }

/-- `RttEstimator::RttEstimator (const RttEstimator& c)`. -/
def copyCtor (c : RttEstimator) : RttEstimator :=
  { m_initialEstimatedRtt := c.m_initialEstimatedRtt
    m_estimatedRtt := c.m_estimatedRtt
    m_estimatedVariation := c.m_estimatedVariation
    m_nSamples := c.m_nSamples }

/-- `RttEstimator::GetEstimate`. -/
def GetEstimate (s : RttEstimator) : Int := s.m_estimatedRtt

/-- `RttEstimator::GetVariation`. -/
def GetVariation (s : RttEstimator) : Int := s.m_estimatedVariation

/-- `RttEstimator::GetNSamples`. -/
def GetNSamples (s : RttEstimator) : Nat := s.m_nSamples

/-- `RttEstimator::Reset`. -/
def Reset (s : RttEstimator) : RttEstimator :=
  { s with
    m_estimatedRtt := s.m_initialEstimatedRtt
    m_estimatedVariation := 0
    m_nSamples := 0 }

end RttEstimator

/-! ## `RttMeanDeviation` -/

/-- The data members of `RttMeanDeviation`: the base class, the two gains and
the two diagnostic vectors `m_estimates`, `m_actuals`. -/
structure RttMeanDeviation (K : Type) extends RttEstimator where
  m_alpha : K
  m_beta : K
  m_estimates : List Int
  m_actuals : List Int

namespace RttMeanDeviation

variable {K : Type} [LinearOrderedField K]

/-- `RttMeanDeviation::RttMeanDeviation ()`; the attributes `InitialEstimation`,
`Alpha` and `Beta` are the arguments. -/
def ctor (initial : Int) (alpha beta : K) : RttMeanDeviation K :=
  { toRttEstimator := RttEstimator.ctor initial
    m_alpha := alpha
    m_beta := beta
    m_estimates := []
    m_actuals := [] }

/-- `RttMeanDeviation::RttMeanDeviation (const RttMeanDeviation& c)`: the base
copy constructor and the two gains; the vectors are not copied. -/
def copyCtor (c : RttMeanDeviation K) : RttMeanDeviation K :=
  { toRttEstimator := RttEstimator.copyCtor c.toRttEstimator
    m_alpha := c.m_alpha
    m_beta := c.m_beta
    m_estimates := []
    m_actuals := [] }

/-- `RttMeanDeviation::Copy`. -/
def Copy (s : RttMeanDeviation K) : RttMeanDeviation K := copyCtor s

/-- `RttMeanDeviation::Reset`. -/
def Reset (s : RttMeanDeviation K) : RttMeanDeviation K :=
  { s with toRttEstimator := RttEstimator.Reset s.toRttEstimator }

/-- `RttMeanDeviation::CheckForReciprocalPowerOfTwo`. -/
def CheckForReciprocalPowerOfTwo (val : K) : Nat :=
  if val < TOLERANCE K then 0
  else if |1 / val - 8| < TOLERANCE K then 3
  else if |1 / val - 4| < TOLERANCE K then 2
  else if |1 / val - 32| < TOLERANCE K then 5
  else if |1 / val - 16| < TOLERANCE K then 4
  else if |1 / val - 2| < TOLERANCE K then 1
  else 0

/-- `RttMeanDeviation::FloatingPointUpdate`. -/
def FloatingPointUpdate (T : TimeUnits K) (s : RttMeanDeviation K) (m : Int) :
    RttMeanDeviation K :=
  let err := Time.sub m s.m_estimatedRtt
  let gErr := T.ToDouble err * s.m_alpha
  let estimatedRtt := Time.add s.m_estimatedRtt (T.FromDouble gErr)
  let difference := Time.sub (Time.Abs err) s.m_estimatedVariation
  let estimatedVariation :=
    Time.add s.m_estimatedVariation (T.FromDouble (T.ToDouble difference * s.m_beta))
  { s with
    m_estimatedRtt := estimatedRtt
    m_estimatedVariation := estimatedVariation }

/-- `RttMeanDeviation::IntegerUpdate`. -/
def IntegerUpdate (s : RttMeanDeviation K) (m : Int) (rttShift variationShift : Nat) :
    RttMeanDeviation K :=
  let meas := m
  let delta := wrap64 (meas - s.m_estimatedRtt)
  let srtt := wrap64 (shl64 s.m_estimatedRtt rttShift + delta)
  let estimatedRtt := shr64 srtt rttShift
  let delta := if delta < 0 then wrap64 (-delta) else delta
  let delta := wrap64 (delta - s.m_estimatedVariation)
  let rttvar := shl64 s.m_estimatedVariation variationShift
  let rttvar := wrap64 (rttvar + delta)
  { s with
    m_estimatedRtt := estimatedRtt
    m_estimatedVariation := shr64 rttvar variationShift }

/-- `RttMeanDeviation::Measurement`. -/
def Measurement (T : TimeUnits K) (s : RttMeanDeviation K) (m : Int) :
    RttMeanDeviation K :=
  let s1 : RttMeanDeviation K :=
    { s with
      m_estimates := s.m_estimates ++ [T.GetMilliSeconds s.m_estimatedRtt]
      m_actuals := s.m_actuals ++ [T.GetMilliSeconds m] }
  let s2 : RttMeanDeviation K :=
    if s1.m_nSamples ≠ 0 then
      let rttShift := CheckForReciprocalPowerOfTwo s1.m_alpha
      let variationShift := CheckForReciprocalPowerOfTwo s1.m_beta
      if rttShift ≠ 0 ∧ variationShift ≠ 0 then
        IntegerUpdate s1 m rttShift variationShift
      else
        FloatingPointUpdate T s1 m
    else
      { s1 with
        m_estimatedRtt := m
        m_estimatedVariation := Time.div m 2 }
  { s2 with m_nSamples := incr32 s2.m_nSamples }

/-- A call made on an estimator by its owner. -/
inductive Call where
  | measurement (m : Int)
  | reset
  deriving DecidableEq, Repr

/-- One call applied to a Mean-Deviation estimator. -/
def step (T : TimeUnits K) (s : RttMeanDeviation K) : Call → RttMeanDeviation K
  | Call.measurement m => Measurement T s m
  | Call.reset => Reset s

/-- A sequence of calls applied in order. -/
def run (T : TimeUnits K) (s : RttMeanDeviation K) (cs : List Call) : RttMeanDeviation K :=
  cs.foldl (step T) s

/-- Whether a call is a `Measurement`. -/
def Call.isMeasurement : Call → Bool
  | Call.measurement _ => true
  | Call.reset => false

/-- Number of `Measurement` calls of a call sequence. -/
def measurementCount (cs : List Call) : Nat := cs.countP Call.isMeasurement

/-- Number of `Measurement` calls made after the last `Reset` of a call
sequence (all of its calls when it has no `Reset`): the length of the longest
suffix made of `Measurement` calls only. -/
def sinceReset (cs : List Call) : Nat := (cs.reverse.takeWhile Call.isMeasurement).length

end RttMeanDeviation

/-! ## `RttFixedShare` -/

/-- The data members of `RttFixedShare`: the base class, the four parameters,
the expert, weight and loss vectors and the two diagnostic vectors. -/
structure RttFixedShare (K : Type) extends RttEstimator where
  m_numExperts : Int
  m_alpha : K
  m_beta : K
  m_lr : K
  m_experts : List K
  m_weights : List K
  m_losses : List K
  m_estimates : List Int
  m_actuals : List Int

namespace RttFixedShare

variable {K : Type} [LinearOrderedField K]

/-- `RttFixedShare::InitializeVectors`: one `push_back` on each of the three
vectors for `i = 1 .. m_numExperts`. -/
def InitializeVectors (L : Libm K) (s : RttFixedShare K) : RttFixedShare K :=
  let initialWeight : K := 1 / (s.m_numExperts : K)
  let rttMin : K := 0
  let rttMax : K := 2 / 5
  forLoop s.m_numExperts.toNat
    (fun j (t : RttFixedShare K) =>
      let i : Int := (j : Int) + 1
      { t with
        m_experts := t.m_experts ++ [rttMin + rttMax * L.pow 2 (((i - s.m_numExperts : Int) : K) / 4)]
        m_weights := t.m_weights ++ [initialWeight]
        m_losses := t.m_losses ++ [0] })
    s

/-- `RttFixedShare::RttFixedShare ()`: the base constructor (attribute
`InitialEstimation` as argument), the four hard-coded parameters, then
`InitializeVectors` on the empty vectors. -/
def ctor (L : Libm K) (initial : Int) : RttFixedShare K :=
  InitializeVectors L
    { toRttEstimator := RttEstimator.ctor initial
      m_numExperts := 100
      m_alpha := 2 / 25
      m_beta := 1 / 4
      m_lr := 2
      m_experts := []
      m_weights := []
      m_losses := []
      m_estimates := []
      m_actuals := [] }

/-- `RttFixedShare::RttFixedShare (const RttFixedShare& c)`: the base copy
constructor and the four parameters are copied, the vectors start empty, then
`InitializeVectors`. -/
def copyCtor (L : Libm K) (c : RttFixedShare K) : RttFixedShare K :=
  InitializeVectors L
    { toRttEstimator := RttEstimator.copyCtor c.toRttEstimator
      m_numExperts := c.m_numExperts
      m_alpha := c.m_alpha
      m_beta := c.m_beta
      m_lr := c.m_lr
      m_experts := []
      m_weights := []
      m_losses := []
      m_estimates := []
      m_actuals := [] }

/-- `RttFixedShare::Copy`. -/
def Copy (L : Libm K) (s : RttFixedShare K) : RttFixedShare K := copyCtor L s

/-- `RttFixedShare::Reset`: the body is empty (the call to the base class is
commented out). -/
def Reset (s : RttFixedShare K) : RttFixedShare K := s

/-- Step 1 of `Measurement`: the loop accumulating `numeratorSum` and
`denominatorSum`, returned as a pair. -/
def predictionSums (s : RttFixedShare K) : K × K :=
  forLoop s.m_numExperts.toNat
    (fun i (acc : K × K) =>
      (acc.1 + s.m_weights.getD i 0 * s.m_experts.getD i 0, acc.2 + s.m_weights.getD i 0))
    (0, 0)

/-- Step 2 of `Measurement`: the loop writing `m_losses`. -/
def newLosses (L : Libm K) (s : RttFixedShare K) (actualRtt : K) : List K :=
  forLoop s.m_numExperts.toNat
    (fun i (losses : List K) =>
      if s.m_experts.getD i 0 ≥ actualRtt then
        losses.set i (L.pow (s.m_experts.getD i 0 - actualRtt) 2)
      else
        losses.set i (2 * actualRtt))
    s.m_losses

/-- Step 3 of `Measurement`: the loop multiplying each weight by
`exp (-m_lr * m_losses[i])`. -/
def expUpdate (L : Libm K) (n : Nat) (lr : K) (losses weights : List K) : List K :=
  forLoop n
    (fun i (w : List K) => w.set i (w.getD i 0 * L.exp (-lr * losses.getD i 0)))
    weights

/-- Step 4 of `Measurement`, first loop and the division: `pool`. -/
def sharePool (numExperts : Int) (alpha : K) (weights : List K) : K :=
  forLoop numExperts.toNat (fun i (pool : K) => pool + alpha * weights.getD i 0) 0
    / (numExperts : K)

/-- Step 4 of `Measurement`, second loop: every weight keeps `1 - alpha` of
itself and receives `pool`. -/
def shareWeights (n : Nat) (alpha pool : K) (weights : List K) : List K :=
  forLoop n (fun i (w : List K) => w.set i ((1 - alpha) * w.getD i 0 + pool)) weights

/-- `RttFixedShare::Measurement`. -/
def Measurement (L : Libm K) (T : TimeUnits K) (s : RttFixedShare K) (measure : Int) :
    RttFixedShare K :=
  if s.m_nSamples > 0 then
    { s with
      m_estimatedRtt := measure
      m_estimatedVariation := Time.div measure 2 }
  else
    let estimates := s.m_estimates ++ [T.GetMilliSeconds s.m_estimatedRtt]
    let actuals := s.m_actuals ++ [T.GetMilliSeconds measure]
    let actualRtt := T.ToDouble measure
    let sums := predictionSums s
    let yPredicted := sums.1 / sums.2
    let oldEstimatedRtt := T.ToDouble s.m_estimatedRtt
    let estimatedRtt := T.FromDouble yPredicted
    let losses := newLosses L s actualRtt
    let weights := expUpdate L s.m_numExperts.toNat s.m_lr losses s.m_weights
    let pool := sharePool s.m_numExperts s.m_alpha weights
    let weights := shareWeights s.m_numExperts.toNat s.m_alpha pool weights
    let oldRttVar := T.ToDouble s.m_estimatedVariation
    let newRttVar :=
      (1 - s.m_beta) * oldRttVar + s.m_beta * L.abs (T.ToDouble measure - oldEstimatedRtt)
    { s with
      m_estimatedRtt := estimatedRtt
      m_estimatedVariation := T.FromDouble newRttVar
      m_losses := losses
      m_weights := weights
      m_estimates := estimates
      m_actuals := actuals }

end RttFixedShare

/-! ## Specification-side definitions -/

/-- Whether an integer is an `int64_t` value. -/
def InInt64 (x : Int) : Prop := -2 ^ 63 ≤ x ∧ x < 2 ^ 63

/-- Membership in the `int64_t` range is decidable. -/
instance InInt64.decidable (x : Int) : Decidable (InInt64 x) := by
  unfold InInt64
  infer_instance

/-- The EWMA estimate of the specification, evaluated exactly:
`estimated_rtt + alpha * (m - estimated_rtt)` on tick counts. -/
def specEwmaEstimate {K : Type} [LinearOrderedField K] (alpha : K) (est m : Int) : K :=
  (est : K) + alpha * ((m : K) - (est : K))

/-- The EWMA variation of the specification, evaluated exactly:
`estimated_variation + beta * (|m - estimated_rtt| - estimated_variation)` on
tick counts. -/
def specEwmaVariation {K : Type} [LinearOrderedField K] (beta : K) (est var m : Int) : K :=
  (var : K) + beta * (|(m : K) - (est : K)| - (var : K))

/-! ## `RttFixedShare`: call sequences, well-formed states, laws of exact arithmetic -/

namespace RttFixedShare

variable {K : Type} [LinearOrderedField K]

/-- One call applied to a Fixed-Share estimator. -/
def step (L : Libm K) (T : TimeUnits K) (s : RttFixedShare K) :
    RttMeanDeviation.Call → RttFixedShare K
  | RttMeanDeviation.Call.measurement m => Measurement L T s m
  | RttMeanDeviation.Call.reset => Reset s

/-- A sequence of calls applied in order. -/
def run (L : Libm K) (T : TimeUnits K) (s : RttFixedShare K)
    (cs : List RttMeanDeviation.Call) : RttFixedShare K :=
  cs.foldl (step L T) s

/-- The three vectors hold an entry for each of the `m_numExperts` experts, as
they do after `InitializeVectors`, so that no loop of `Measurement` indexes a
vector out of its bounds. -/
def WellFormed (s : RttFixedShare K) : Prop :=
  s.m_numExperts.toNat ≤ s.m_experts.length ∧
  s.m_numExperts.toNat ≤ s.m_weights.length ∧
  s.m_numExperts.toNat ≤ s.m_losses.length

/-- Well-formedness is decidable. -/
instance WellFormed.decidable (s : RttFixedShare K) : Decidable (WellFormed s) := by
  unfold WellFormed
  infer_instance

/-- The loss of the specification for an expert `e` and a sample `a`, in
seconds: `(e - a)^2` when `e ≥ a`, and `2 * a` when the expert underestimates. -/
def specLoss (e a : K) : K := if e ≥ a then (e - a) ^ 2 else 2 * a

end RttFixedShare

/-- The properties of the exact functions that the theorems on the learning
update use of `exp`, `pow` and `abs`. -/
structure Libm.Exact {K : Type} [LinearOrderedField K] (L : Libm K) : Prop where
  exp_pos : ∀ x, 0 < L.exp x
  exp_zero : L.exp 0 = 1
  exp_lt_one : ∀ x, x < 0 → L.exp x < 1
  pow_sq : ∀ x, L.pow x 2 = x ^ 2
  pow_two_pos : ∀ y, 0 < L.pow 2 y
  pow_two_lt : ∀ y z, y < z → L.pow 2 y < L.pow 2 z
  abs_eq : ∀ x, L.abs x = |x|

/-! ## Theorems: machine integers and `Time` -/

/-- C++ division by two of a non-negative tick count is the floor of its half. -/
theorem Time.div_two_of_nonneg (m : Int) (hm : 0 ≤ m) : Time.div m 2 = m / 2 := by
  unfold Time.div
  exact Int.tdiv_eq_ediv hm (by decide)

/-- Below `2^32 - 1` the increment of `m_nSamples` does not wrap. -/
theorem incr32_of_lt (n : Nat) (h : n + 1 < 2 ^ 32) : incr32 n = n + 1 := by
  unfold incr32
  exact Nat.mod_eq_of_lt h

/-- A tick count in the `int64_t` range is left alone by the wrap. -/
theorem wrap64_of_range (x : Int) (hlo : -2 ^ 63 ≤ x) (hhi : x < 2 ^ 63) : wrap64 x = x := by
  unfold wrap64
  omega

/-! ## Theorems: `RttMeanDeviation` -/

namespace RttMeanDeviation

variable {K : Type} [LinearOrderedField K]

/-- The seeding branch of `Measurement`: with no sample recorded the estimate
becomes the sample, the variation its half (C++ division) and the count one;
the configuration is kept and one diagnostics entry is appended. -/
theorem Measurement_of_nSamples_eq_zero (T : TimeUnits K) (s : RttMeanDeviation K) (m : Int)
    (h : s.m_nSamples = 0) :
    Measurement T s m =
      { s with
        m_estimatedRtt := m
        m_estimatedVariation := Time.div m 2
        m_nSamples := 1
        m_estimates := s.m_estimates ++ [T.GetMilliSeconds s.m_estimatedRtt]
        m_actuals := s.m_actuals ++ [T.GetMilliSeconds m] } := by
  simp [Measurement, h, incr32]

/-- `Measurement` adds one to `m_nSamples`, modulo `2^32`, on every branch. -/
theorem Measurement_nSamples (T : TimeUnits K) (s : RttMeanDeviation K) (m : Int) :
    (Measurement T s m).m_nSamples = incr32 s.m_nSamples := by
  unfold Measurement
  by_cases h : s.m_nSamples = 0
  · simp [h]
  · by_cases hs : CheckForReciprocalPowerOfTwo s.m_alpha ≠ 0 ∧
        CheckForReciprocalPowerOfTwo s.m_beta ≠ 0
    · simp [h, hs, IntegerUpdate]
    · simp [h, hs, FloatingPointUpdate]

/-- `Measurement` appends exactly one entry to each diagnostics vector, on
every branch. -/
theorem Measurement_diagnostics (T : TimeUnits K) (s : RttMeanDeviation K) (m : Int) :
    (Measurement T s m).m_estimates = s.m_estimates ++ [T.GetMilliSeconds s.m_estimatedRtt] ∧
    (Measurement T s m).m_actuals = s.m_actuals ++ [T.GetMilliSeconds m] := by
  unfold Measurement
  by_cases h : s.m_nSamples = 0
  · simp [h]
  · by_cases hs : CheckForReciprocalPowerOfTwo s.m_alpha ≠ 0 ∧
        CheckForReciprocalPowerOfTwo s.m_beta ≠ 0
    · simp [h, hs, IntegerUpdate]
    · simp [h, hs, FloatingPointUpdate]

/-- The gain `1/8` is recognised with shift 3. -/
theorem CheckForReciprocalPowerOfTwo_eighth :
    CheckForReciprocalPowerOfTwo (1 / 8 : K) = 3 := by
  unfold CheckForReciprocalPowerOfTwo TOLERANCE
  norm_num

/-- The gain `1/4` is recognised with shift 2. -/
theorem CheckForReciprocalPowerOfTwo_quarter :
    CheckForReciprocalPowerOfTwo (1 / 4 : K) = 2 := by
  unfold CheckForReciprocalPowerOfTwo TOLERANCE
  norm_num

/-- C1: on a Mean-Deviation estimator that has recorded no sample
(`m_nSamples = 0`), whatever its gains and initial estimate, `Measurement (m)`
with a non-negative `m` leaves `GetEstimate () = m`, `GetVariation () = m / 2`
(the tick count halved) and `GetNSamples () = 1`. -/
theorem first_measurement_seeds (T : TimeUnits K) (s : RttMeanDeviation K) (m : Int)
    (hfresh : s.m_nSamples = 0) (hm : 0 ≤ m) :
    (Measurement T s m).GetEstimate = m ∧
    (Measurement T s m).GetVariation = m / 2 ∧
    (Measurement T s m).GetNSamples = 1 := by
  rw [Measurement_of_nSamples_eq_zero T s m hfresh]
  refine ⟨rfl, ?_, rfl⟩
  exact Time.div_two_of_nonneg m hm

/-- Witness of C1: a newly constructed estimator with gains `1/8`, `1/4` and
initial estimate 1 s, fed the sample 7 ticks. -/
theorem first_measurement_seeds_witness :
    (Measurement (TimeNS ℚ) (ctor 1000000000 (1 / 8) (1 / 4)) 7).GetEstimate = 7 ∧
    (Measurement (TimeNS ℚ) (ctor 1000000000 (1 / 8) (1 / 4)) 7).GetVariation = 7 / 2 ∧
    (Measurement (TimeNS ℚ) (ctor 1000000000 (1 / 8) (1 / 4)) 7).GetNSamples = 1 :=
  first_measurement_seeds (TimeNS ℚ) (ctor 1000000000 (1 / 8) (1 / 4)) 7 rfl (by decide)

/-- C4: `Reset` on a Mean-Deviation estimator restores the estimate to the
initial estimate, the variation to zero and the sample count to zero, and keeps
the initial estimate, both gains and both diagnostics vectors; the next
`Measurement (m)` then seeds again: the estimate is `m` and the variation is
`m / 2` (C++ division, the floor of the half for a non-negative `m`). -/
theorem reset_restores (T : TimeUnits K) (s : RttMeanDeviation K) (m : Int) :
    (Reset s).GetEstimate = s.m_initialEstimatedRtt ∧
    (Reset s).GetVariation = 0 ∧
    (Reset s).GetNSamples = 0 ∧
    (Reset s).m_initialEstimatedRtt = s.m_initialEstimatedRtt ∧
    (Reset s).m_alpha = s.m_alpha ∧
    (Reset s).m_beta = s.m_beta ∧
    (Reset s).m_estimates = s.m_estimates ∧
    (Reset s).m_actuals = s.m_actuals ∧
    (Measurement T (Reset s) m).GetEstimate = m ∧
    (Measurement T (Reset s) m).GetVariation = Time.div m 2 ∧
    (0 ≤ m → (Measurement T (Reset s) m).GetVariation = m / 2) ∧
    (Measurement T (Reset s) m).GetNSamples = 1 := by
  have h0 : (Reset s).m_nSamples = 0 := rfl
  rw [Measurement_of_nSamples_eq_zero T (Reset s) m h0]
  refine ⟨rfl, rfl, rfl, rfl, rfl, rfl, rfl, rfl, rfl, rfl, ?_, rfl⟩
  intro hm
  exact Time.div_two_of_nonneg m hm

/-- C6: with `alpha = 0.125`, `beta = 0.25`, an initial estimate of 1 s and
nanosecond ticks, the samples 0.1 s, 0.1 s give estimate 0.1 s and variation
0.05 s after the first, and estimate 0.1 s and variation 0.0375 s after the
second; the second call is not a first sample, both gains pass the
power-of-two check (shifts 3 and 2), and its result is that of
`IntegerUpdate` with these shifts. -/
theorem end_to_end_scenario :
    (Measurement (TimeNS ℚ) (ctor 1000000000 (1 / 8) (1 / 4)) 100000000).GetEstimate
      = 100000000 ∧
    (Measurement (TimeNS ℚ) (ctor 1000000000 (1 / 8) (1 / 4)) 100000000).GetVariation
      = 50000000 ∧
    (Measurement (TimeNS ℚ)
      (Measurement (TimeNS ℚ) (ctor 1000000000 (1 / 8) (1 / 4)) 100000000)
      100000000).GetEstimate = 100000000 ∧
    (Measurement (TimeNS ℚ)
      (Measurement (TimeNS ℚ) (ctor 1000000000 (1 / 8) (1 / 4)) 100000000)
      100000000).GetVariation = 37500000 ∧
    (Measurement (TimeNS ℚ) (ctor 1000000000 (1 / 8) (1 / 4)) 100000000).m_nSamples ≠ 0 ∧
    CheckForReciprocalPowerOfTwo (1 / 8 : ℚ) = 3 ∧
    CheckForReciprocalPowerOfTwo (1 / 4 : ℚ) = 2 ∧
    (Measurement (TimeNS ℚ)
      (Measurement (TimeNS ℚ) (ctor 1000000000 (1 / 8) (1 / 4)) 100000000)
      100000000).toRttEstimator =
      { (IntegerUpdate
          (Measurement (TimeNS ℚ) (ctor 1000000000 (1 / 8) (1 / 4)) 100000000)
          100000000 3 2).toRttEstimator with m_nSamples := 2 } := by
  have h1 := Measurement_of_nSamples_eq_zero (TimeNS ℚ)
    (ctor 1000000000 (1 / 8) (1 / 4)) 100000000 rfl
  have ha := CheckForReciprocalPowerOfTwo_eighth (K := ℚ)
  have hb := CheckForReciprocalPowerOfTwo_quarter (K := ℚ)
  rw [h1]
  refine ⟨rfl, by decide, ?_, ?_, by decide, ha, hb, ?_⟩
  all_goals
    simp only [Measurement, ctor, RttEstimator.ctor, ha, hb]
    decide

/-- Appending a `Measurement` call adds one to `sinceReset`. -/
theorem sinceReset_append_measurement (cs : List Call) (m : Int) :
    sinceReset (cs ++ [Call.measurement m]) = sinceReset cs + 1 := by
  simp [sinceReset, List.takeWhile_cons, Call.isMeasurement]

/-- Appending a `Reset` call brings `sinceReset` to zero. -/
theorem sinceReset_append_reset (cs : List Call) :
    sinceReset (cs ++ [Call.reset]) = 0 := by
  simp [sinceReset, List.takeWhile_cons, Call.isMeasurement]

/-- The calls since the last `Reset` are among all `Measurement` calls. -/
theorem sinceReset_le_measurementCount (cs : List Call) :
    sinceReset cs ≤ measurementCount cs := by
  induction cs using List.reverseRecOn with
  | nil => simp [sinceReset, measurementCount]
  | append_singleton cs c ih =>
    cases c with
    | measurement m =>
      rw [sinceReset_append_measurement]
      simp only [measurementCount, List.countP_append, List.countP_singleton,
        Call.isMeasurement] at ih ⊢
      simpa using ih
    | reset =>
      rw [sinceReset_append_reset]
      exact Nat.zero_le _

/-- A run followed by one more call. -/
theorem run_append_singleton (T : TimeUnits K) (s : RttMeanDeviation K) (cs : List Call)
    (c : Call) : run T s (cs ++ [c]) = step T (run T s cs) c := by
  simp [run, List.foldl_append]

/-- C7: on a newly constructed Mean-Deviation estimator, after every sequence
of `Measurement` and `Reset` calls holding fewer than `2^32` measurements,
`GetNSamples ()` is the number of `Measurement` calls made since the last
`Reset` (since construction when there was none); and a single `Measurement`
adds exactly one to the count, from every state whose count is below
`2^32 - 1`, on the seeding branch and on the update branch alike. -/
theorem sample_count_since_reset (T : TimeUnits K) (initial : Int) (alpha beta : K)
    (cs : List Call) (hcs : measurementCount cs < 2 ^ 32) :
    (run T (ctor initial alpha beta) cs).GetNSamples = sinceReset cs ∧
    ∀ (s : RttMeanDeviation K) (m : Int), s.m_nSamples + 1 < 2 ^ 32 →
      (Measurement T s m).GetNSamples = s.GetNSamples + 1 := by
  constructor
  · induction cs using List.reverseRecOn with
    | nil => rfl
    | append_singleton cs c ih =>
      rw [run_append_singleton]
      cases c with
      | measurement m =>
        have hcount : measurementCount (cs ++ [Call.measurement m])
            = measurementCount cs + 1 := by
          simp [measurementCount, List.countP_append, Call.isMeasurement]
        have hlt : measurementCount cs < 2 ^ 32 := by omega
        have hle := sinceReset_le_measurementCount cs
        have ih' : (run T (ctor initial alpha beta) cs).m_nSamples = sinceReset cs := ih hlt
        rw [sinceReset_append_measurement]
        show (Measurement T _ m).m_nSamples = _
        rw [Measurement_nSamples, ih', incr32_of_lt]
        omega
      | reset =>
        rw [sinceReset_append_reset]
        rfl
  · intro s m hs
    show (Measurement T s m).m_nSamples = s.m_nSamples + 1
    rw [Measurement_nSamples, incr32_of_lt _ hs]

/-- Witness of C7: two measurements, a reset, then one measurement leave the
count at one. -/
theorem sample_count_since_reset_witness :
    measurementCount
      [Call.measurement 5, Call.measurement 9, Call.reset, Call.measurement 4] < 2 ^ 32 ∧
    sinceReset [Call.measurement 5, Call.measurement 9, Call.reset, Call.measurement 4] = 1 ∧
    (run (TimeNS ℚ) (ctor 1000000000 (1 / 8) (1 / 4))
      [Call.measurement 5, Call.measurement 9, Call.reset, Call.measurement 4]).GetNSamples
      = sinceReset [Call.measurement 5, Call.measurement 9, Call.reset, Call.measurement 4] :=
  ⟨by decide, by decide,
    (sample_count_since_reset (TimeNS ℚ) 1000000000 (1 / 8) (1 / 4)
      [Call.measurement 5, Call.measurement 9, Call.reset, Call.measurement 4]
      (by decide)).1⟩

end RttMeanDeviation

/-! ## Theorems: loops over vectors -/

section Loops

variable {K : Type} [LinearOrderedField K]

/-- A loop that only writes `v[i]` keeps the length of the vector. -/
theorem forLoop_set_length {α : Type} (f : Nat → List α → α) (n : Nat) (w : List α) :
    (forLoop n (fun i (v : List α) => v.set i (f i v)) w).length = w.length := by
  induction n with
  | zero => rfl
  | succ k ih => simp [forLoop, ih]

/-- Reading a vector after a write, with the default of an out-of-range read. -/
theorem getD_set_eq (w : List K) (i j : Nat) (x : K) :
    (w.set i x).getD j 0 = if i = j ∧ j < w.length then x else w.getD j 0 := by
  simp only [List.getD_eq_getElem?_getD, List.getElem?_set]
  by_cases hij : i = j
  · subst hij
    by_cases hl : i < w.length
    · simp [hl]
    · simp [hl, List.getElem?_eq_none (Nat.le_of_not_lt hl)]
  · simp [hij]

/-- A loop `for i < n: v[i] = g i v[i]` replaces entry `j < n` of the vector by
`g j` of its old value and leaves the entries from `n` on alone. -/
theorem forLoop_set_getD (g : Nat → K → K) (n : Nat) (w : List K) (j : Nat) :
    (forLoop n (fun i (v : List K) => v.set i (g i (v.getD i 0))) w).getD j 0
      = if j < n ∧ j < w.length then g j (w.getD j 0) else w.getD j 0 := by
  induction n with
  | zero => simp [forLoop]
  | succ k ih =>
    have hlen := forLoop_set_length (fun i v => g i (v.getD i 0)) k w
    simp only [forLoop, getD_set_eq]
    rw [hlen]
    by_cases hkj : k = j
    · subst hkj
      have hk : (forLoop k (fun i (v : List K) => v.set i (g i (v.getD i 0))) w).getD k 0
          = w.getD k 0 := by
        rw [ih, if_neg (fun h => Nat.lt_irrefl k h.1)]
      rw [hk]
      by_cases hl : k < w.length
      · rw [if_pos ⟨rfl, hl⟩, if_pos ⟨Nat.lt_succ_self k, hl⟩]
      · rw [if_neg (fun h => hl h.2), if_neg (fun h => hl h.2)]
    · rw [if_neg (fun h => hkj h.1), ih]
      by_cases hc : j < k ∧ j < w.length
      · rw [if_pos hc, if_pos ⟨Nat.lt_succ_of_lt hc.1, hc.2⟩]
      · rw [if_neg hc, if_neg]
        intro h
        exact hc ⟨by omega, h.2⟩

/-- A loop accumulating two sums at once returns the two finite sums. -/
theorem forLoop_sums (g h : Nat → K) (n : Nat) (a b : K) :
    forLoop n (fun i (acc : K × K) => (acc.1 + g i, acc.2 + h i)) (a, b)
      = (a + ∑ i in Finset.range n, g i, b + ∑ i in Finset.range n, h i) := by
  induction n with
  | zero => simp [forLoop]
  | succ k ih => simp [forLoop, ih, Finset.sum_range_succ, add_assoc]

/-- A loop accumulating one sum returns the finite sum. -/
theorem forLoop_sum (g : Nat → K) (n : Nat) (a : K) :
    forLoop n (fun i (acc : K) => acc + g i) a = a + ∑ i in Finset.range n, g i := by
  induction n with
  | zero => simp [forLoop]
  | succ k ih => simp [forLoop, ih, Finset.sum_range_succ, add_assoc]

end Loops

/-! ## Theorems: `RttFixedShare` -/

namespace RttFixedShare

variable {K : Type} [LinearOrderedField K]

/-- `InitializeVectors` appends `m_numExperts` entries to each vector: expert
`j` (loop index `i = j + 1`) is `0.4 * pow (2, (i - m_numExperts) / 4.0)`, every
weight is `1 / m_numExperts` and every loss is zero; nothing else changes. -/
theorem InitializeVectors_eq (L : Libm K) (s : RttFixedShare K) :
    InitializeVectors L s =
      { s with
        m_experts := s.m_experts ++ (List.range s.m_numExperts.toNat).map
          (fun (j : Nat) => 0 + 2 / 5 * L.pow 2 (((((j : Int) + 1 - s.m_numExperts : Int)) : K) / 4))
        m_weights := s.m_weights ++
          List.replicate s.m_numExperts.toNat (1 / (s.m_numExperts : K))
        m_losses := s.m_losses ++ List.replicate s.m_numExperts.toNat 0 } := by
  unfold InitializeVectors
  generalize s.m_numExperts.toNat = n
  induction n with
  | zero => simp [forLoop]
  | succ k ih =>
    simp only [forLoop] at ih ⊢
    rw [ih]
    simp [List.range_succ, List.replicate_succ', List.append_assoc]

/-- The reading of a vector out of its range is the default. -/
theorem lt_length_of_getD_pos (w : List K) (i : Nat) (h : 0 < w.getD i 0) : i < w.length := by
  by_contra hl
  rw [List.getD_eq_getElem?_getD, List.getElem?_eq_none (Nat.le_of_not_lt hl)] at h
  exact lt_irrefl (0 : K) h

/-- Entry `j` after the exponential update. -/
theorem expUpdate_getD (L : Libm K) (n : Nat) (lr : K) (losses w : List K) (j : Nat) :
    (expUpdate L n lr losses w).getD j 0
      = if j < n ∧ j < w.length then w.getD j 0 * L.exp (-lr * losses.getD j 0)
        else w.getD j 0 :=
  forLoop_set_getD (fun i x => x * L.exp (-lr * losses.getD i 0)) n w j

/-- The exponential update keeps the length of the weight vector. -/
theorem expUpdate_length (L : Libm K) (n : Nat) (lr : K) (losses w : List K) :
    (expUpdate L n lr losses w).length = w.length :=
  forLoop_set_length (fun i v => v.getD i 0 * L.exp (-lr * losses.getD i 0)) n w

/-- Entry `j` after the sharing loop. -/
theorem shareWeights_getD (n : Nat) (alpha pool : K) (w : List K) (j : Nat) :
    (shareWeights n alpha pool w).getD j 0
      = if j < n ∧ j < w.length then (1 - alpha) * w.getD j 0 + pool else w.getD j 0 :=
  forLoop_set_getD (fun _ x => (1 - alpha) * x + pool) n w j

/-- The sharing loop keeps the length of the weight vector. -/
theorem shareWeights_length (n : Nat) (alpha pool : K) (w : List K) :
    (shareWeights n alpha pool w).length = w.length :=
  forLoop_set_length (fun i v => (1 - alpha) * v.getD i 0 + pool) n w

/-- The pool is the `alpha`-weighted sum of the weights divided by the number of
experts. -/
theorem sharePool_eq (numExperts : Int) (alpha : K) (w : List K) :
    sharePool numExperts alpha w
      = (∑ i in Finset.range numExperts.toNat, alpha * w.getD i 0) / (numExperts : K) := by
  unfold sharePool
  rw [forLoop_sum, zero_add]

/-- The two sums of the prediction loop. -/
theorem predictionSums_eq (s : RttFixedShare K) :
    predictionSums s =
      (∑ i in Finset.range s.m_numExperts.toNat, s.m_weights.getD i 0 * s.m_experts.getD i 0,
       ∑ i in Finset.range s.m_numExperts.toNat, s.m_weights.getD i 0) := by
  unfold predictionSums
  rw [forLoop_sums, zero_add, zero_add]

/-- The weight vector after `Measurement`: untouched on the reseed branch,
exponentially updated then shared on the learning branch. -/
theorem Measurement_weights (L : Libm K) (T : TimeUnits K) (s : RttFixedShare K) (m : Int) :
    (Measurement L T s m).m_weights =
      if s.m_nSamples > 0 then s.m_weights
      else
        shareWeights s.m_numExperts.toNat s.m_alpha
          (sharePool s.m_numExperts s.m_alpha
            (expUpdate L s.m_numExperts.toNat s.m_lr (newLosses L s (T.ToDouble m)) s.m_weights))
          (expUpdate L s.m_numExperts.toNat s.m_lr (newLosses L s (T.ToDouble m)) s.m_weights) := by
  unfold Measurement
  by_cases h : s.m_nSamples > 0
  · simp [h]
  · simp [h]

/-- `Measurement` never writes the parameters, the experts, the initial
estimate or `m_nSamples`. -/
theorem Measurement_frame (L : Libm K) (T : TimeUnits K) (s : RttFixedShare K) (m : Int) :
    (Measurement L T s m).m_numExperts = s.m_numExperts ∧
    (Measurement L T s m).m_alpha = s.m_alpha ∧
    (Measurement L T s m).m_beta = s.m_beta ∧
    (Measurement L T s m).m_lr = s.m_lr ∧
    (Measurement L T s m).m_experts = s.m_experts ∧
    (Measurement L T s m).m_initialEstimatedRtt = s.m_initialEstimatedRtt ∧
    (Measurement L T s m).m_nSamples = s.m_nSamples := by
  unfold Measurement
  by_cases h : s.m_nSamples > 0
  · simp [h]
  · simp [h]

/-- One `Measurement` keeps the first `m_numExperts` weights strictly positive,
when `exp` is positive, there is at least one expert and `alpha` is in `[0, 1]`. -/
theorem Measurement_weights_pos (L : Libm K) (T : TimeUnits K) (hexp : ∀ x, 0 < L.exp x)
    (s : RttFixedShare K) (m : Int) (hN : 0 < s.m_numExperts)
    (h0 : 0 ≤ s.m_alpha) (h1 : s.m_alpha ≤ 1)
    (hpos : ∀ i, i < s.m_numExperts.toNat → 0 < s.m_weights.getD i 0) :
    ∀ i, i < s.m_numExperts.toNat → 0 < (Measurement L T s m).m_weights.getD i 0 := by
  intro i hi
  rw [Measurement_weights]
  by_cases h : s.m_nSamples > 0
  · rw [if_pos h]
    exact hpos i hi
  · rw [if_neg h]
    have hlen : ∀ j, j < s.m_numExperts.toNat → j < s.m_weights.length :=
      fun j hj => lt_length_of_getD_pos _ _ (hpos j hj)
    have hw1 : ∀ j, j < s.m_numExperts.toNat →
        0 < (expUpdate L s.m_numExperts.toNat s.m_lr (newLosses L s (T.ToDouble m))
          s.m_weights).getD j 0 := by
      intro j hj
      rw [expUpdate_getD, if_pos ⟨hj, hlen j hj⟩]
      exact mul_pos (hpos j hj) (hexp _)
    have hNK : (0 : K) < (s.m_numExperts : K) := Int.cast_pos.mpr hN
    rw [shareWeights_getD, expUpdate_length, if_pos ⟨hi, hlen i hi⟩, sharePool_eq]
    rcases lt_or_eq_of_le h1 with hlt | heq
    · have hpool : 0 ≤ (∑ j in Finset.range s.m_numExperts.toNat, s.m_alpha *
          (expUpdate L s.m_numExperts.toNat s.m_lr (newLosses L s (T.ToDouble m))
            s.m_weights).getD j 0) / (s.m_numExperts : K) := by
        apply div_nonneg _ hNK.le
        apply Finset.sum_nonneg
        intro j hj
        exact mul_nonneg h0 (hw1 j (Finset.mem_range.mp hj)).le
      have hkeep := mul_pos (sub_pos.mpr hlt) (hw1 i hi)
      exact add_pos_of_pos_of_nonneg hkeep hpool
    · have hpool : 0 < (∑ j in Finset.range s.m_numExperts.toNat, s.m_alpha *
          (expUpdate L s.m_numExperts.toNat s.m_lr (newLosses L s (T.ToDouble m))
            s.m_weights).getD j 0) / (s.m_numExperts : K) := by
        apply div_pos _ hNK
        apply Finset.sum_pos
        · intro j hj
          rw [heq, one_mul]
          exact hw1 j (Finset.mem_range.mp hj)
        · exact ⟨i, Finset.mem_range.mpr hi⟩
      rw [heq] at hpool ⊢
      rw [sub_self, zero_mul, zero_add]
      exact hpool

/-- The fields of a copy: the base members and the four parameters are those
of the source, the diagnostics vectors are empty, and the three vectors are
the ones `InitializeVectors` builds for the source's `m_numExperts`. -/
theorem Copy_eq (L : Libm K) (c : RttFixedShare K) :
    Copy L c =
      { toRttEstimator := c.toRttEstimator
        m_numExperts := c.m_numExperts
        m_alpha := c.m_alpha
        m_beta := c.m_beta
        m_lr := c.m_lr
        m_experts := (List.range c.m_numExperts.toNat).map
          (fun (j : Nat) => 0 + 2 / 5 * L.pow 2 (((((j : Int) + 1 - c.m_numExperts : Int)) : K) / 4))
        m_weights := List.replicate c.m_numExperts.toNat (1 / (c.m_numExperts : K))
        m_losses := List.replicate c.m_numExperts.toNat 0
        m_estimates := []
        m_actuals := [] } := by
  unfold Copy copyCtor
  rw [InitializeVectors_eq]
  simp [RttEstimator.copyCtor]

/-- Over a sequence of `Measurement` calls the number of experts and `alpha`
stay the same and the first `m_numExperts` weights stay strictly positive. -/
theorem foldl_Measurement_weights_pos (L : Libm K) (T : TimeUnits K)
    (hexp : ∀ x, 0 < L.exp x) (ms : List Int) (s : RttFixedShare K)
    (hN : 0 < s.m_numExperts) (h0 : 0 ≤ s.m_alpha) (h1 : s.m_alpha ≤ 1)
    (hpos : ∀ i, i < s.m_numExperts.toNat → 0 < s.m_weights.getD i 0) :
    (ms.foldl (Measurement L T) s).m_numExperts = s.m_numExperts ∧
    ∀ i, i < s.m_numExperts.toNat → 0 < (ms.foldl (Measurement L T) s).m_weights.getD i 0 := by
  induction ms generalizing s with
  | nil => exact ⟨rfl, hpos⟩
  | cons m ms ih =>
    have hf := Measurement_frame L T s m
    have hp := Measurement_weights_pos L T hexp s m hN h0 h1 hpos
    have := ih (Measurement L T s m) (by rw [hf.1]; exact hN) (by rw [hf.2.1]; exact h0)
      (by rw [hf.2.1]; exact h1) (by rw [hf.1]; exact hp)
    rw [hf.1] at this
    exact this

/-- C10: with at least one expert, `alpha` in `[0, 1]` and a positive `exp`
(exact arithmetic in an ordered field), a new Fixed-Share estimator has every
weight equal to `1 / N`, and after every finite sequence of `Measurement` calls
each of the `N` weights is non-negative and `denominatorSum`, the divisor of
the prediction, is strictly positive. The new estimator is `Copy L c`, whose
vectors `InitializeVectors` builds for the configuration of `c`; the result of
the default constructor is one (`ctor_eq_Copy`). -/
theorem weights_nonneg_sum_pos (L : Libm K) (T : TimeUnits K) (hexp : ∀ x, 0 < L.exp x)
    (c : RttFixedShare K) (hN : 0 < c.m_numExperts)
    (h0 : 0 ≤ c.m_alpha) (h1 : c.m_alpha ≤ 1) (ms : List Int) :
    (Copy L c).m_weights = List.replicate c.m_numExperts.toNat (1 / (c.m_numExperts : K)) ∧
    (∀ i, i < c.m_numExperts.toNat →
      0 ≤ (ms.foldl (Measurement L T) (Copy L c)).m_weights.getD i 0) ∧
    0 < (predictionSums (ms.foldl (Measurement L T) (Copy L c))).2 := by
  have hc := Copy_eq L c
  have hcN : (Copy L c).m_numExperts = c.m_numExperts := by rw [hc]
  have hcA : (Copy L c).m_alpha = c.m_alpha := by rw [hc]
  have hcW : (Copy L c).m_weights
      = List.replicate c.m_numExperts.toNat (1 / (c.m_numExperts : K)) := by rw [hc]
  have hNK : (0 : K) < (c.m_numExperts : K) := Int.cast_pos.mpr hN
  have hstart : ∀ i, i < (Copy L c).m_numExperts.toNat → 0 < (Copy L c).m_weights.getD i 0 := by
    intro i hi
    rw [hcN] at hi
    rw [hcW, List.getD_eq_getElem?_getD, List.getElem?_replicate, if_pos hi]
    exact one_div_pos.mpr hNK
  have hrun := foldl_Measurement_weights_pos L T hexp ms (Copy L c)
    (by rw [hcN]; exact hN) (by rw [hcA]; exact h0) (by rw [hcA]; exact h1) hstart
  rw [hcN] at hrun
  refine ⟨hcW, fun i hi => (hrun.2 i hi).le, ?_⟩
  rw [predictionSums_eq, hrun.1]
  show 0 < ∑ i in Finset.range c.m_numExperts.toNat, _
  apply Finset.sum_pos
  · intro i hi
    exact hrun.2 i (Finset.mem_range.mp hi)
  · exact ⟨0, Finset.mem_range.mpr (by omega)⟩

/-- Witness of C10: real arithmetic with the real exponential, two experts,
`alpha = 0.08`, and the samples 0.1 s and 0.12 s at nanosecond resolution. -/
theorem weights_nonneg_sum_pos_witness :
    (0 : Int) < 2 ∧ (0 : ℝ) ≤ 2 / 25 ∧ (2 / 25 : ℝ) ≤ 1 ∧
    0 < (predictionSums (List.foldl
      (Measurement (⟨Real.exp, fun x y => x ^ y, fun x => |x|⟩ : Libm ℝ) (TimeNS ℝ))
      (Copy (⟨Real.exp, fun x y => x ^ y, fun x => |x|⟩ : Libm ℝ)
        { toRttEstimator := RttEstimator.ctor 1000000000
          m_numExperts := 2
          m_alpha := 2 / 25
          m_beta := 1 / 4
          m_lr := 2
          m_experts := []
          m_weights := []
          m_losses := []
          m_estimates := []
          m_actuals := [] })
      [100000000, 120000000])).2 :=
  ⟨by decide, by norm_num, by norm_num,
    (weights_nonneg_sum_pos (⟨Real.exp, fun x y => x ^ y, fun x => |x|⟩ : Libm ℝ) (TimeNS ℝ)
      (fun x => Real.exp_pos x)
      { toRttEstimator := RttEstimator.ctor 1000000000
        m_numExperts := 2
        m_alpha := 2 / 25
        m_beta := 1 / 4
        m_lr := 2
        m_experts := []
        m_weights := []
        m_losses := []
        m_estimates := []
        m_actuals := [] }
      (by decide) (by norm_num) (by norm_num) [100000000, 120000000]).2.2⟩

end RttFixedShare

namespace RttFixedShare

/-- C5: `Reset` on a Fixed-Share estimator changes nothing: the state after
the call is the state before it, in every field. -/
theorem reset_is_noop {K : Type} (s : RttFixedShare K) : Reset s = s := rfl

variable {K : Type} [LinearOrderedField K]

/-- The fields of a default-constructed estimator. -/
theorem ctor_eq (L : Libm K) (initial : Int) :
    ctor L initial =
      { toRttEstimator := RttEstimator.ctor initial
        m_numExperts := 100
        m_alpha := 2 / 25
        m_beta := 1 / 4
        m_lr := 2
        m_experts := (List.range 100).map
          (fun (j : Nat) => 0 + 2 / 5 * L.pow 2 (((((j : Int) + 1 - 100 : Int)) : K) / 4))
        m_weights := List.replicate 100 (1 / ((100 : Int) : K))
        m_losses := List.replicate 100 0
        m_estimates := []
        m_actuals := [] } := by
  unfold ctor
  rw [InitializeVectors_eq]
  simp

/-- The learning branch of `Measurement` (`m_nSamples = 0`): the new estimate
is the weighted prediction computed from the weights held before the call, the
new variation is computed from the estimate and variation held before the
call, and one entry is appended to each diagnostics vector. -/
theorem Measurement_of_nSamples_eq_zero_learns (L : Libm K) (T : TimeUnits K)
    (s : RttFixedShare K) (m : Int) (h : s.m_nSamples = 0) :
    (Measurement L T s m).m_estimatedRtt
      = T.FromDouble ((predictionSums s).1 / (predictionSums s).2) ∧
    (Measurement L T s m).m_estimatedVariation
      = T.FromDouble ((1 - s.m_beta) * T.ToDouble s.m_estimatedVariation
          + s.m_beta * L.abs (T.ToDouble m - T.ToDouble s.m_estimatedRtt)) ∧
    (Measurement L T s m).m_estimates
      = s.m_estimates ++ [T.GetMilliSeconds s.m_estimatedRtt] ∧
    (Measurement L T s m).m_actuals = s.m_actuals ++ [T.GetMilliSeconds m] := by
  simp [Measurement, h]

/-- The reseed branch of `Measurement` (`m_nSamples > 0`). -/
theorem Measurement_of_nSamples_pos_reseeds (L : Libm K) (T : TimeUnits K)
    (s : RttFixedShare K) (m : Int) (h : 0 < s.m_nSamples) :
    Measurement L T s m =
      { s with m_estimatedRtt := m, m_estimatedVariation := Time.div m 2 } := by
  simp [Measurement, h]

/-- The numerator of the prediction is at most a bound on the experts times
the denominator, when the weights are non-negative. -/
theorem predictionSums_fst_le (s : RttFixedShare K) (B : K)
    (hw : ∀ i, i < s.m_numExperts.toNat → 0 ≤ s.m_weights.getD i 0)
    (he : ∀ i, i < s.m_numExperts.toNat → s.m_experts.getD i 0 ≤ B) :
    (predictionSums s).1 ≤ B * (predictionSums s).2 := by
  rw [predictionSums_eq]
  show (∑ i in Finset.range s.m_numExperts.toNat, s.m_weights.getD i 0 * s.m_experts.getD i 0)
    ≤ B * ∑ i in Finset.range s.m_numExperts.toNat, s.m_weights.getD i 0
  rw [Finset.mul_sum]
  apply Finset.sum_le_sum
  intro i hi
  have hi' := Finset.mem_range.mp hi
  calc s.m_weights.getD i 0 * s.m_experts.getD i 0
      ≤ s.m_weights.getD i 0 * B := mul_le_mul_of_nonneg_left (he i hi') (hw i hi')
    _ = B * s.m_weights.getD i 0 := mul_comm _ _

/-- C8: `RttFixedShare::Measurement` never writes `m_nSamples`: after the call
(on the learning branch and on the reseed branch alike) `GetNSamples ()` is what
it was before, and after the first `Measurement` on a default-constructed
estimator it is 0, not 1. -/
theorem measurement_keeps_sample_count (L : Libm K) (T : TimeUnits K) (s : RttFixedShare K)
    (initial m : Int) :
    (Measurement L T s m).GetNSamples = s.GetNSamples ∧
    (ctor L initial).GetNSamples = 0 ∧
    (Measurement L T (ctor L initial) m).GetNSamples = 0 := by
  have h1 : ∀ t : RttFixedShare K, (Measurement L T t m).GetNSamples = t.GetNSamples :=
    fun t => (Measurement_frame L T t m).2.2.2.2.2.2
  have h2 : (ctor L initial).GetNSamples = 0 := by rw [ctor_eq]; rfl
  exact ⟨h1 s, h2, by rw [h1, h2]⟩

end RttFixedShare

/-! ## Theorems: claims about both estimators -/

section Both

variable {K : Type} [LinearOrderedField K]

/-- Counterexample to C3: a Mean-Deviation estimator (gains `1/8`, `1/4`,
initial estimate 1 s) that has recorded the sample 0.1 s is copied; the copy
reports one sample, the estimate 0.1 s (its initial estimate is 1 s) and the
variation 0.05 s, not 0, the initial estimate and 0. -/
theorem copy_not_reset_counterexample :
    (RttMeanDeviation.Copy (RttMeanDeviation.Measurement (TimeNS ℚ)
      (RttMeanDeviation.ctor 1000000000 (1 / 8) (1 / 4)) 100000000)).GetNSamples = 1 ∧
    (RttMeanDeviation.Copy (RttMeanDeviation.Measurement (TimeNS ℚ)
      (RttMeanDeviation.ctor 1000000000 (1 / 8) (1 / 4)) 100000000)).GetEstimate = 100000000 ∧
    (RttMeanDeviation.Copy (RttMeanDeviation.Measurement (TimeNS ℚ)
      (RttMeanDeviation.ctor 1000000000 (1 / 8) (1 / 4)) 100000000)).m_initialEstimatedRtt
      = 1000000000 ∧
    (RttMeanDeviation.Copy (RttMeanDeviation.Measurement (TimeNS ℚ)
      (RttMeanDeviation.ctor 1000000000 (1 / 8) (1 / 4)) 100000000)).GetVariation
      = 50000000 := by
  rw [RttMeanDeviation.Measurement_of_nSamples_eq_zero (TimeNS ℚ)
    (RttMeanDeviation.ctor 1000000000 (1 / 8) (1 / 4)) 100000000 rfl]
  exact ⟨rfl, rfl, rfl, by decide⟩

/-- C3, amended: `Copy` returns an estimator with the configuration of the
source (initial estimate and algorithm parameters) and empty diagnostics
vectors, whose sample count, estimate and variation are those of the source
(copied, not reset); for Fixed-Share the experts, weights (`1 / N` each) and
losses (zero) are the newly initialised ones. -/
theorem copy_keeps_state (L : Libm K) (s : RttMeanDeviation K) (c : RttFixedShare K) :
    ((RttMeanDeviation.Copy s).m_initialEstimatedRtt = s.m_initialEstimatedRtt ∧
      (RttMeanDeviation.Copy s).m_alpha = s.m_alpha ∧
      (RttMeanDeviation.Copy s).m_beta = s.m_beta ∧
      (RttMeanDeviation.Copy s).GetNSamples = s.GetNSamples ∧
      (RttMeanDeviation.Copy s).GetEstimate = s.GetEstimate ∧
      (RttMeanDeviation.Copy s).GetVariation = s.GetVariation ∧
      (RttMeanDeviation.Copy s).m_estimates = [] ∧
      (RttMeanDeviation.Copy s).m_actuals = []) ∧
    ((RttFixedShare.Copy L c).m_initialEstimatedRtt = c.m_initialEstimatedRtt ∧
      (RttFixedShare.Copy L c).m_numExperts = c.m_numExperts ∧
      (RttFixedShare.Copy L c).m_alpha = c.m_alpha ∧
      (RttFixedShare.Copy L c).m_beta = c.m_beta ∧
      (RttFixedShare.Copy L c).m_lr = c.m_lr ∧
      (RttFixedShare.Copy L c).GetNSamples = c.GetNSamples ∧
      (RttFixedShare.Copy L c).GetEstimate = c.GetEstimate ∧
      (RttFixedShare.Copy L c).GetVariation = c.GetVariation ∧
      (RttFixedShare.Copy L c).m_estimates = [] ∧
      (RttFixedShare.Copy L c).m_actuals = [] ∧
      (RttFixedShare.Copy L c).m_weights
        = List.replicate c.m_numExperts.toNat (1 / (c.m_numExperts : K)) ∧
      (RttFixedShare.Copy L c).m_losses = List.replicate c.m_numExperts.toNat 0 ∧
      (RttFixedShare.Copy L c).m_experts = (List.range c.m_numExperts.toNat).map
        (fun (j : Nat) => 0 + 2 / 5 * L.pow 2 (((((j : Int) + 1 - c.m_numExperts : Int)) : K) / 4))) := by
  constructor
  · exact ⟨rfl, rfl, rfl, rfl, rfl, rfl, rfl, rfl⟩
  · rw [RttFixedShare.Copy_eq]
    exact ⟨rfl, rfl, rfl, rfl, rfl, rfl, rfl, rfl, rfl, rfl, rfl, rfl, rfl⟩

/-- Counterexample to C9: a new Mean-Deviation estimator (gains `1/8`, `1/4`,
initial estimate 1 s, no sample, empty diagnostics) is given the sample of -2
ticks; the call returns a state with estimate -2, variation -1, one sample and
one diagnostics entry, so the state has changed. -/
theorem negative_sample_counterexample :
    (RttMeanDeviation.ctor 1000000000 (1 / 8 : ℚ) (1 / 4)).GetEstimate = 1000000000 ∧
    (RttMeanDeviation.ctor 1000000000 (1 / 8 : ℚ) (1 / 4)).GetVariation = 0 ∧
    (RttMeanDeviation.ctor 1000000000 (1 / 8 : ℚ) (1 / 4)).GetNSamples = 0 ∧
    (RttMeanDeviation.ctor 1000000000 (1 / 8 : ℚ) (1 / 4)).m_actuals = [] ∧
    (RttMeanDeviation.Measurement (TimeNS ℚ)
      (RttMeanDeviation.ctor 1000000000 (1 / 8) (1 / 4)) (-2)).GetEstimate = -2 ∧
    (RttMeanDeviation.Measurement (TimeNS ℚ)
      (RttMeanDeviation.ctor 1000000000 (1 / 8) (1 / 4)) (-2)).GetVariation = -1 ∧
    (RttMeanDeviation.Measurement (TimeNS ℚ)
      (RttMeanDeviation.ctor 1000000000 (1 / 8) (1 / 4)) (-2)).GetNSamples = 1 ∧
    (RttMeanDeviation.Measurement (TimeNS ℚ)
      (RttMeanDeviation.ctor 1000000000 (1 / 8) (1 / 4)) (-2)).m_actuals = [0] := by
  rw [RttMeanDeviation.Measurement_of_nSamples_eq_zero (TimeNS ℚ)
    (RttMeanDeviation.ctor 1000000000 (1 / 8) (1 / 4)) (-2) rfl]
  exact ⟨rfl, rfl, rfl, rfl, rfl, by decide, rfl, by decide⟩

/-- C9, amended: `Measurement` has no sign check and no error result; a
negative sample is processed like any other. Mean-Deviation appends one
diagnostics entry and increments the sample count (modulo `2^32`) in every
state, and with no sample recorded it takes the negative sample as the
estimate and its half (C++ division) as the variation. Fixed-Share with
`m_nSamples = 0` appends one diagnostics entry, and with `m_nSamples > 0` takes
the negative sample as the estimate and its half as the variation. -/
theorem negative_sample_processed (L : Libm K) (T : TimeUnits K) (s : RttMeanDeviation K)
    (c : RttFixedShare K) (m : Int) (hm : m < 0) :
    ((RttMeanDeviation.Measurement T s m).m_nSamples = incr32 s.m_nSamples ∧
      (RttMeanDeviation.Measurement T s m).m_actuals = s.m_actuals ++ [T.GetMilliSeconds m] ∧
      (RttMeanDeviation.Measurement T s m).m_estimates
        = s.m_estimates ++ [T.GetMilliSeconds s.m_estimatedRtt] ∧
      (s.m_nSamples = 0 →
        (RttMeanDeviation.Measurement T s m).GetEstimate = m ∧
        (RttMeanDeviation.Measurement T s m).GetEstimate < 0 ∧
        (RttMeanDeviation.Measurement T s m).GetVariation = Time.div m 2)) ∧
    ((c.m_nSamples = 0 →
        (RttFixedShare.Measurement L T c m).m_actuals = c.m_actuals ++ [T.GetMilliSeconds m] ∧
        (RttFixedShare.Measurement L T c m).m_estimates
          = c.m_estimates ++ [T.GetMilliSeconds c.m_estimatedRtt]) ∧
      (0 < c.m_nSamples →
        (RttFixedShare.Measurement L T c m).GetEstimate = m ∧
        (RttFixedShare.Measurement L T c m).GetEstimate < 0 ∧
        (RttFixedShare.Measurement L T c m).GetVariation = Time.div m 2)) := by
  refine ⟨⟨RttMeanDeviation.Measurement_nSamples T s m,
    (RttMeanDeviation.Measurement_diagnostics T s m).2,
    (RttMeanDeviation.Measurement_diagnostics T s m).1, ?_⟩, ?_, ?_⟩
  · intro h0
    rw [RttMeanDeviation.Measurement_of_nSamples_eq_zero T s m h0]
    exact ⟨rfl, hm, rfl⟩
  · intro h0
    have h := RttFixedShare.Measurement_of_nSamples_eq_zero_learns L T c m h0
    exact ⟨h.2.2.2, h.2.2.1⟩
  · intro hpos
    rw [RttFixedShare.Measurement_of_nSamples_pos_reseeds L T c m hpos]
    exact ⟨rfl, hm, rfl⟩

/-- Witness of C9, amended: the sample of -2 ticks given to a new
Mean-Deviation estimator and to a Fixed-Share estimator holding one expert. -/
theorem negative_sample_processed_witness :
    (-2 : Int) < 0 ∧
    (RttMeanDeviation.Measurement (TimeNS ℝ)
      (RttMeanDeviation.ctor 1000000000 (1 / 8) (1 / 4)) (-2)).m_nSamples
      = incr32 (RttMeanDeviation.ctor 1000000000 (1 / 8 : ℝ) (1 / 4)).m_nSamples :=
  ⟨by decide,
    (negative_sample_processed (⟨Real.exp, fun x y => x ^ y, fun x => |x|⟩ : Libm ℝ) (TimeNS ℝ)
      (RttMeanDeviation.ctor 1000000000 (1 / 8) (1 / 4))
      { toRttEstimator := RttEstimator.ctor 1000000000
        m_numExperts := 1
        m_alpha := 2 / 25
        m_beta := 1 / 4
        m_lr := 2
        m_experts := [2 / 5]
        m_weights := [1]
        m_losses := [0]
        m_estimates := []
        m_actuals := [] }
      (-2) (by decide)).1.1⟩

end Both

namespace RttFixedShare

/-- The denominator of the prediction is the sum of the first `m_numExperts`
weights. -/
theorem predictionSums_snd {K : Type} [LinearOrderedField K] (s : RttFixedShare K) :
    (predictionSums s).2 = ∑ i in Finset.range s.m_numExperts.toNat, s.m_weights.getD i 0 := by
  rw [predictionSums_eq]

/-- C2: on a default-constructed Fixed-Share estimator (100 experts, initial
estimate 1 s), in real arithmetic at nanosecond resolution, the first
`Measurement` of a 1 s sample does not seed: the estimate becomes the weighted
prediction, at most 0.4 s (the largest expert), not 1 s; the variation becomes
0, not 0.5 s; and the sample count stays 0. -/
theorem first_measurement_does_not_seed :
    (Measurement (⟨Real.exp, fun x y => x ^ y, fun x => |x|⟩ : Libm ℝ) (TimeNS ℝ)
      (ctor (⟨Real.exp, fun x y => x ^ y, fun x => |x|⟩ : Libm ℝ) 1000000000)
      1000000000).GetEstimate ≤ 400000000 ∧
    (Measurement (⟨Real.exp, fun x y => x ^ y, fun x => |x|⟩ : Libm ℝ) (TimeNS ℝ)
      (ctor (⟨Real.exp, fun x y => x ^ y, fun x => |x|⟩ : Libm ℝ) 1000000000)
      1000000000).GetVariation = 0 ∧
    (Measurement (⟨Real.exp, fun x y => x ^ y, fun x => |x|⟩ : Libm ℝ) (TimeNS ℝ)
      (ctor (⟨Real.exp, fun x y => x ^ y, fun x => |x|⟩ : Libm ℝ) 1000000000)
      1000000000).GetNSamples = 0 := by
  generalize hL : (⟨Real.exp, fun x y => x ^ y, fun x => |x|⟩ : Libm ℝ) = L
  have hpow : ∀ x y : ℝ, L.pow x y = x ^ y := by intro x y; rw [← hL]
  have habs : ∀ x : ℝ, L.abs x = |x| := by intro x; rw [← hL]
  have hs := ctor_eq L 1000000000
  have hn : (ctor L 1000000000).m_nSamples = 0 := by rw [hs]; rfl
  have hN : (ctor L 1000000000).m_numExperts.toNat = 100 := by rw [hs]; rfl
  have hl := Measurement_of_nSamples_eq_zero_learns L (TimeNS ℝ) (ctor L 1000000000)
    1000000000 hn
  have hw : ∀ i, i < 100 → (ctor L 1000000000).m_weights.getD i 0 = 1 / 100 := by
    intro i hi
    rw [hs]
    show (List.replicate 100 (1 / ((100 : Int) : ℝ))).getD i 0 = 1 / 100
    rw [List.getD_eq_getElem?_getD, List.getElem?_replicate, if_pos hi]
    norm_num
  have he : ∀ i, i < 100 → (ctor L 1000000000).m_experts.getD i 0 ≤ 2 / 5 := by
    intro i hi
    rw [hs]
    show (List.map (fun (j : Nat) => 0 + 2 / 5 * L.pow 2 (((((j : Int) + 1 - 100 : Int)) : ℝ) / 4))
      (List.range 100)).getD i 0 ≤ 2 / 5
    rw [List.getD_eq_getElem?_getD, List.getElem?_map, List.getElem?_range hi]
    show 0 + 2 / 5 * L.pow 2 (((((i : Int) + 1 - 100 : Int)) : ℝ) / 4) ≤ 2 / 5
    rw [hpow]
    have hexpo : ((((i : Int) + 1 - 100 : Int)) : ℝ) / 4 ≤ 0 := by
      have : ((i : Int) + 1 - 100 : Int) ≤ 0 := by omega
      have h' : ((((i : Int) + 1 - 100 : Int)) : ℝ) ≤ 0 := by exact_mod_cast this
      linarith
    have hle : (2 : ℝ) ^ (((((i : Int) + 1 - 100 : Int)) : ℝ) / 4) ≤ 1 :=
      Real.rpow_le_one_of_one_le_of_nonpos (by norm_num) hexpo
    linarith
  have hden : 0 < (predictionSums (ctor L 1000000000)).2 := by
    rw [predictionSums_snd, hN]
    apply Finset.sum_pos
    · intro i hi
      rw [hw i (Finset.mem_range.mp hi)]
      norm_num
    · exact ⟨0, Finset.mem_range.mpr (by decide)⟩
  have hnum := predictionSums_fst_le (ctor L 1000000000) (2 / 5)
    (by intro i hi; rw [hN] at hi; rw [hw i hi]; norm_num)
    (by intro i hi; rw [hN] at hi; exact he i hi)
  have hratio : (predictionSums (ctor L 1000000000)).1 / (predictionSums (ctor L 1000000000)).2
      ≤ 2 / 5 := (div_le_iff₀ hden).mpr hnum
  refine ⟨?_, ?_, ?_⟩
  · show (Measurement L (TimeNS ℝ) (ctor L 1000000000) 1000000000).m_estimatedRtt ≤ 400000000
    rw [hl.1]
    show ⌊(predictionSums (ctor L 1000000000)).1 / (predictionSums (ctor L 1000000000)).2
      * 1000000000⌋ ≤ 400000000
    have hlt : ⌊(predictionSums (ctor L 1000000000)).1 / (predictionSums (ctor L 1000000000)).2
        * 1000000000⌋ < 400000001 := by
      rw [Int.floor_lt]
      push_cast
      linarith
    omega
  · show (Measurement L (TimeNS ℝ) (ctor L 1000000000) 1000000000).m_estimatedVariation = 0
    rw [hl.2.1, habs, hs]
    show ⌊((1 - (1 / 4 : ℝ)) * (((0 : Int) : ℝ) / 1000000000)
      + 1 / 4 * |((1000000000 : Int) : ℝ) / 1000000000 - ((1000000000 : Int) : ℝ) / 1000000000|)
      * 1000000000⌋ = 0
    norm_num
  · show (Measurement L (TimeNS ℝ) (ctor L 1000000000) 1000000000).m_nSamples = 0
    rw [(Measurement_frame L (TimeNS ℝ) (ctor L 1000000000) 1000000000).2.2.2.2.2.2, hn]

end RttFixedShare

/-! ## Theorems: the integer update of `RttMeanDeviation` -/

namespace RttMeanDeviation

section IntegerPath

variable {K : Type}

/-- When none of its `int64_t` operations overflows, `IntegerUpdate` computes
the two floors of the Jacobson/Karels recurrences; the variation uses the
estimate held before the call. -/
theorem IntegerUpdate_of_noOverflow (s : RttMeanDeviation K) (m : Int) (r v : Nat)
    (hd : InInt64 |m - s.m_estimatedRtt|)
    (hs : InInt64 (s.m_estimatedRtt * 2 ^ r))
    (hsum : InInt64 (s.m_estimatedRtt * 2 ^ r + (m - s.m_estimatedRtt)))
    (hdv : InInt64 (|m - s.m_estimatedRtt| - s.m_estimatedVariation))
    (hv : InInt64 (s.m_estimatedVariation * 2 ^ v))
    (hvsum : InInt64 (s.m_estimatedVariation * 2 ^ v
      + (|m - s.m_estimatedRtt| - s.m_estimatedVariation))) :
    (IntegerUpdate s m r v).m_estimatedRtt
      = ((2 ^ r - 1) * s.m_estimatedRtt + m) / 2 ^ r ∧
    (IntegerUpdate s m r v).m_estimatedVariation
      = ((2 ^ v - 1) * s.m_estimatedVariation + |m - s.m_estimatedRtt|) / 2 ^ v := by
  unfold InInt64 at hd hs hsum hdv hv hvsum
  have hdelta : wrap64 (m - s.m_estimatedRtt) = m - s.m_estimatedRtt := by
    apply wrap64_of_range
    · have := neg_abs_le (m - s.m_estimatedRtt); omega
    · have := le_abs_self (m - s.m_estimatedRtt); omega
  have habs : (if m - s.m_estimatedRtt < 0 then wrap64 (-(m - s.m_estimatedRtt))
      else m - s.m_estimatedRtt) = |m - s.m_estimatedRtt| := by
    by_cases hneg : m - s.m_estimatedRtt < 0
    · rw [if_pos hneg, abs_of_neg hneg]
      rw [abs_of_neg hneg] at hd
      exact wrap64_of_range _ hd.1 hd.2
    · rw [if_neg hneg, abs_of_nonneg (not_lt.mp hneg)]
  constructor
  · show shr64 (wrap64 (shl64 s.m_estimatedRtt r + wrap64 (m - s.m_estimatedRtt))) r = _
    rw [hdelta]
    unfold shl64 shr64
    rw [wrap64_of_range _ hs.1 hs.2, wrap64_of_range _ hsum.1 hsum.2]
    congr 1
    ring
  · show shr64 (wrap64 (shl64 s.m_estimatedVariation v
      + wrap64 ((if wrap64 (m - s.m_estimatedRtt) < 0 then wrap64 (-wrap64 (m - s.m_estimatedRtt))
          else wrap64 (m - s.m_estimatedRtt)) - s.m_estimatedVariation))) v = _
    rw [hdelta, habs]
    unfold shl64 shr64
    rw [wrap64_of_range _ hdv.1 hdv.2, wrap64_of_range _ hv.1 hv.2,
      wrap64_of_range _ hvsum.1 hvsum.2]
    congr 1
    ring

/-- Tick counts below `2^57` in magnitude and shifts of at most 5 bits keep
every `int64_t` operation of `IntegerUpdate` in range. -/
theorem noOverflow_of_bounds (est var m : Int) (r v : Nat) (hr : r ≤ 5) (hv : v ≤ 5)
    (hest : |est| < 2 ^ 57) (hvar : |var| < 2 ^ 57) (hm : |m| < 2 ^ 57) :
    InInt64 |m - est| ∧ InInt64 (est * 2 ^ r) ∧ InInt64 (est * 2 ^ r + (m - est)) ∧
    InInt64 (|m - est| - var) ∧ InInt64 (var * 2 ^ v) ∧
    InInt64 (var * 2 ^ v + (|m - est| - var)) := by
  unfold InInt64
  have h1 := abs_lt.mp hest
  have h2 := abs_lt.mp hvar
  have h3 := abs_lt.mp hm
  have h4 : |m - est| < 2 ^ 58 := by
    rw [abs_lt]; constructor <;> omega
  have h5 := abs_nonneg (m - est)
  have h6 := abs_lt.mp h4
  interval_cases r <;> interval_cases v <;> omega

/-- C14, amended: for shifts `r`, `v` (in particular those in `{1,..,5}`),
pre-update tick values `est`, `var` and sample tick value `m` for which none
of the `int64_t` operations of `IntegerUpdate` overflows, `IntegerUpdate` sets
the estimate to `floor (((2^r - 1) * est + m) / 2^r)` and the variation to
`floor (((2^v - 1) * var + |m - est|) / 2^v)`, `est` being the estimate held
before the call. -/
theorem integer_update_rule (s : RttMeanDeviation K) (m : Int) (r v : Nat)
    (hd : InInt64 |m - s.m_estimatedRtt|)
    (hs : InInt64 (s.m_estimatedRtt * 2 ^ r))
    (hsum : InInt64 (s.m_estimatedRtt * 2 ^ r + (m - s.m_estimatedRtt)))
    (hdv : InInt64 (|m - s.m_estimatedRtt| - s.m_estimatedVariation))
    (hvar : InInt64 (s.m_estimatedVariation * 2 ^ v))
    (hvsum : InInt64 (s.m_estimatedVariation * 2 ^ v
      + (|m - s.m_estimatedRtt| - s.m_estimatedVariation))) :
    (IntegerUpdate s m r v).GetEstimate
      = ((2 ^ r - 1) * s.m_estimatedRtt + m) / 2 ^ r ∧
    (IntegerUpdate s m r v).GetVariation
      = ((2 ^ v - 1) * s.m_estimatedVariation + |m - s.m_estimatedRtt|) / 2 ^ v :=
  IntegerUpdate_of_noOverflow s m r v hd hs hsum hdv hvar hvsum

/-- Witness of C14, amended: estimate 1000, variation 500, sample 1100,
shifts 3 and 2. -/
theorem integer_update_rule_witness :
    (IntegerUpdate
      ({ toRttEstimator := ⟨1000000000, 1000, 500, 1⟩
         m_alpha := 1 / 8, m_beta := 1 / 4, m_estimates := [], m_actuals := [] } :
        RttMeanDeviation ℚ) 1100 3 2).GetEstimate = 1012 ∧
    (IntegerUpdate
      ({ toRttEstimator := ⟨1000000000, 1000, 500, 1⟩
         m_alpha := 1 / 8, m_beta := 1 / 4, m_estimates := [], m_actuals := [] } :
        RttMeanDeviation ℚ) 1100 3 2).GetVariation = 400 :=
  integer_update_rule
    ({ toRttEstimator := ⟨1000000000, 1000, 500, 1⟩
       m_alpha := 1 / 8, m_beta := 1 / 4, m_estimates := [], m_actuals := [] } :
      RttMeanDeviation ℚ) 1100 3 2
    (by decide) (by decide) (by decide) (by decide) (by decide) (by decide)

/-- Counterexample to C14: estimate and sample both `2^62` ticks, variation 0,
shifts 1 and 1. The shift `est << 1` leaves the `int64_t` range, and the new
estimate is `-2^62`, where the formula gives `2^62`. -/
theorem integer_update_rule_counterexample :
    (IntegerUpdate
      ({ toRttEstimator := ⟨1000000000, 2 ^ 62, 0, 1⟩
         m_alpha := 1 / 2, m_beta := 1 / 2, m_estimates := [], m_actuals := [] } :
        RttMeanDeviation ℚ) (2 ^ 62) 1 1).GetEstimate = -2 ^ 62 ∧
    ((2 ^ 1 - 1) * 2 ^ 62 + 2 ^ 62 : Int) / 2 ^ 1 = 2 ^ 62 := by
  constructor <;> decide

end IntegerPath

end RttMeanDeviation
/-! ## Theorems: the integer path against the EWMA formula -/

namespace RttMeanDeviation

section Refinement

variable {K : Type} [LinearOrderedField K]

/-- The floor of a quotient of integers by a positive integer is below the
exact quotient by less than one. -/
theorem ediv_close (a p : Int) (hp : 0 < p) :
    0 ≤ (a : K) / (p : K) - ((a / p : Int) : K) ∧
    (a : K) / (p : K) - ((a / p : Int) : K) < 1 := by
  have hpK : (0 : K) < (p : K) := Int.cast_pos.mpr hp
  have hdecomp : (a : K) = (p : K) * ((a / p : Int) : K) + ((a % p : Int) : K) := by
    have h := Int.ediv_add_emod a p
    have h' : ((p * (a / p) + a % p : Int) : K) = (a : K) := by rw [h]
    rw [← h']
    push_cast
    ring
  have hmod0 : (0 : K) ≤ ((a % p : Int) : K) := Int.cast_nonneg.mpr (Int.emod_nonneg a hp.ne')
  have hmod1 : ((a % p : Int) : K) < (p : K) := Int.cast_lt.mpr (Int.emod_lt_of_pos a hp)
  have hq : (a : K) / (p : K) - ((a / p : Int) : K) = ((a % p : Int) : K) / (p : K) := by
    rw [eq_div_iff hpK.ne']
    nth_rewrite 1 [hdecomp]
    field_simp
  rw [hq]
  exact ⟨div_nonneg hmod0 hpK.le, (div_lt_one hpK).mpr hmod1⟩

/-- C12, amended: for shifts `r`, `v` (in particular those in `{1,..,5}`),
every pre-update estimate and variation and every sample, as tick counts for
which none of the `int64_t` operations of `IntegerUpdate` overflows, the
estimate of `IntegerUpdate` is less than one tick away from
`estimated_rtt + alpha * (m - estimated_rtt)` evaluated exactly with
`alpha = 2^-r` (it is the floor of that value), and its variation is less than
one tick away from
`estimated_variation + beta * (|m - estimated_rtt| - estimated_variation)`
with `beta = 2^-v`. -/
theorem integer_path_close_to_ewma (s : RttMeanDeviation K) (m : Int) (r v : Nat)
    (hd : InInt64 |m - s.m_estimatedRtt|)
    (hs : InInt64 (s.m_estimatedRtt * 2 ^ r))
    (hsum : InInt64 (s.m_estimatedRtt * 2 ^ r + (m - s.m_estimatedRtt)))
    (hdv : InInt64 (|m - s.m_estimatedRtt| - s.m_estimatedVariation))
    (hvar : InInt64 (s.m_estimatedVariation * 2 ^ v))
    (hvsum : InInt64 (s.m_estimatedVariation * 2 ^ v
      + (|m - s.m_estimatedRtt| - s.m_estimatedVariation))) :
    |((IntegerUpdate s m r v).GetEstimate : K)
        - specEwmaEstimate (1 / 2 ^ r) s.m_estimatedRtt m| < 1 ∧
    ((IntegerUpdate s m r v).GetEstimate : K)
        ≤ specEwmaEstimate (1 / 2 ^ r) s.m_estimatedRtt m ∧
    |((IntegerUpdate s m r v).GetVariation : K)
        - specEwmaVariation (1 / 2 ^ v) s.m_estimatedRtt s.m_estimatedVariation m| < 1 ∧
    ((IntegerUpdate s m r v).GetVariation : K)
        ≤ specEwmaVariation (1 / 2 ^ v) s.m_estimatedRtt s.m_estimatedVariation m := by
  have hu := IntegerUpdate_of_noOverflow s m r v hd hs hsum hdv hvar hvsum
  have hpr : (0 : Int) < 2 ^ r := by positivity
  have hpv : (0 : Int) < 2 ^ v := by positivity
  have hprK : (0 : K) < 2 ^ r := by positivity
  have hpvK : (0 : K) < 2 ^ v := by positivity
  have he := ediv_close (K := K) ((2 ^ r - 1) * s.m_estimatedRtt + m) (2 ^ r) hpr
  have hv' := ediv_close (K := K)
    ((2 ^ v - 1) * s.m_estimatedVariation + |m - s.m_estimatedRtt|) (2 ^ v) hpv
  have hspecE : specEwmaEstimate (1 / 2 ^ r) s.m_estimatedRtt m
      = (((2 ^ r - 1) * s.m_estimatedRtt + m : Int) : K) / ((2 ^ r : Int) : K) := by
    unfold specEwmaEstimate
    push_cast
    field_simp
    ring
  have hspecV : specEwmaVariation (1 / 2 ^ v) s.m_estimatedRtt s.m_estimatedVariation m
      = (((2 ^ v - 1) * s.m_estimatedVariation + |m - s.m_estimatedRtt| : Int) : K)
          / ((2 ^ v : Int) : K) := by
    unfold specEwmaVariation
    push_cast
    field_simp
    ring
  have hE : ((IntegerUpdate s m r v).GetEstimate : K)
      = ((((2 ^ r - 1) * s.m_estimatedRtt + m) / 2 ^ r : Int) : K) := by
    show ((IntegerUpdate s m r v).m_estimatedRtt : K) = _
    rw [hu.1]
  have hV : ((IntegerUpdate s m r v).GetVariation : K)
      = ((((2 ^ v - 1) * s.m_estimatedVariation + |m - s.m_estimatedRtt|) / 2 ^ v : Int) : K) := by
    show ((IntegerUpdate s m r v).m_estimatedVariation : K) = _
    rw [hu.2]
  rw [hE, hV, hspecE, hspecV]
  refine ⟨?_, ?_, ?_, ?_⟩
  · rw [abs_lt]; constructor <;> linarith [he.1, he.2]
  · linarith [he.1]
  · rw [abs_lt]; constructor <;> linarith [hv'.1, hv'.2]
  · linarith [hv'.1]

/-- Witness of C12, amended: estimate 1000, variation 500, sample 1100,
shifts 3 and 2; the exact values are 1012.5 and 400. -/
theorem integer_path_close_to_ewma_witness :
    |((IntegerUpdate
        ({ toRttEstimator := ⟨1000000000, 1000, 500, 1⟩
           m_alpha := 1 / 8, m_beta := 1 / 4, m_estimates := [], m_actuals := [] } :
          RttMeanDeviation ℚ) 1100 3 2).GetEstimate : ℚ)
      - specEwmaEstimate (1 / 2 ^ 3) 1000 1100| < 1 ∧
    specEwmaEstimate (1 / 2 ^ 3 : ℚ) 1000 1100 = 2025 / 2 ∧
    specEwmaVariation (1 / 2 ^ 2 : ℚ) 1000 500 1100 = 400 :=
  ⟨(integer_path_close_to_ewma
      ({ toRttEstimator := ⟨1000000000, 1000, 500, 1⟩
         m_alpha := 1 / 8, m_beta := 1 / 4, m_estimates := [], m_actuals := [] } :
        RttMeanDeviation ℚ) 1100 3 2
      (by decide) (by decide) (by decide) (by decide) (by decide) (by decide)).1,
    by norm_num [specEwmaEstimate], by norm_num [specEwmaVariation]⟩

/-- Counterexample to C12: estimate and sample both `2^61` ticks, variation 0,
shifts 2 and 2. The EWMA formula gives `2^61`; `est << 2` leaves the
`int64_t` range and `IntegerUpdate` gives `-2^61`, which is `2^62` ticks away. -/
theorem integer_path_close_to_ewma_counterexample :
    (IntegerUpdate
      ({ toRttEstimator := ⟨1000000000, 2 ^ 61, 0, 1⟩
         m_alpha := 1 / 4, m_beta := 1 / 4, m_estimates := [], m_actuals := [] } :
        RttMeanDeviation ℚ) (2 ^ 61) 2 2).GetEstimate = -2 ^ 61 ∧
    specEwmaEstimate (1 / 2 ^ 2 : ℚ) (2 ^ 61) (2 ^ 61) = 2 ^ 61 ∧
    ¬ |((-2 ^ 61 : Int) : ℚ) - specEwmaEstimate (1 / 2 ^ 2 : ℚ) (2 ^ 61) (2 ^ 61)| < 1 := by
  refine ⟨by decide, by norm_num [specEwmaEstimate], ?_⟩
  norm_num [specEwmaEstimate, abs_lt]

end Refinement

end RttMeanDeviation

/-! ## Theorems: the choice of the update path -/

namespace RttMeanDeviation

section PathSelection

variable {K : Type} [LinearOrderedField K]

/-- A value whose reciprocal is within the tolerance of `2^k`, `1 ≤ k ≤ 5`, is
not below the tolerance. -/
theorem not_lt_TOLERANCE_of_close (x : K) (k : Nat) (hk1 : 1 ≤ k) (hk5 : k ≤ 5)
    (h : |1 / x - 2 ^ k| < TOLERANCE K) : ¬ x < TOLERANCE K := by
  unfold TOLERANCE at h ⊢
  intro hx
  have h' := abs_lt.mp h
  have hlo : (2 : K) ≤ 2 ^ k := by
    interval_cases k <;> norm_num
  have hhi : (2 : K) ^ k ≤ 32 := by
    interval_cases k <;> norm_num
  rcases le_or_lt x 0 with hneg | hpos
  · have : 1 / x ≤ 0 := one_div_nonpos.mpr hneg
    linarith [h'.1]
  · have hbig : 1 / (1 / 1000000 : K) < 1 / x := one_div_lt_one_div_of_lt hpos hx
    rw [one_div_one_div] at hbig
    linarith [h'.2]

/-- The check returns `k` for every value whose reciprocal is within the
tolerance of `2^k`, `1 ≤ k ≤ 5`. -/
theorem CheckForReciprocalPowerOfTwo_of_close (x : K) (k : Nat) (hk1 : 1 ≤ k) (hk5 : k ≤ 5)
    (h : |1 / x - 2 ^ k| < TOLERANCE K) : CheckForReciprocalPowerOfTwo x = k := by
  have hx := not_lt_TOLERANCE_of_close x k hk1 hk5 h
  unfold CheckForReciprocalPowerOfTwo
  rw [if_neg hx]
  unfold TOLERANCE at h ⊢
  generalize 1 / x = y at h ⊢
  have e1 : (2 : K) ^ 1 = 2 := by norm_num
  have e2 : (2 : K) ^ 2 = 4 := by norm_num
  have e3 : (2 : K) ^ 3 = 8 := by norm_num
  have e4 : (2 : K) ^ 4 = 16 := by norm_num
  have e5 : (2 : K) ^ 5 = 32 := by norm_num
  have far : ∀ a b : K, 1 ≤ |a - b| → |y - a| < 1 / 1000000 → ¬ |y - b| < 1 / 1000000 := by
    intro a b hab ha hb
    have h1 := abs_lt.mp ha
    have h2 := abs_lt.mp hb
    rcases le_abs'.mp hab with h3 | h3 <;> linarith [h1.1, h1.2, h2.1, h2.2]
  interval_cases k
  · rw [e1] at h
    rw [if_neg (far 2 8 (by norm_num) h), if_neg (far 2 4 (by norm_num) h),
      if_neg (far 2 32 (by norm_num) h), if_neg (far 2 16 (by norm_num) h), if_pos h]
  · rw [e2] at h
    rw [if_neg (far 4 8 (by norm_num) h), if_pos h]
  · rw [e3] at h
    rw [if_pos h]
  · rw [e4] at h
    rw [if_neg (far 16 8 (by norm_num) h), if_neg (far 16 4 (by norm_num) h),
      if_neg (far 16 32 (by norm_num) h), if_pos h]
  · rw [e5] at h
    rw [if_neg (far 32 8 (by norm_num) h), if_neg (far 32 4 (by norm_num) h), if_pos h]

/-- The check returns 0 for every value that is below the tolerance or whose
reciprocal is within the tolerance of none of `2, 4, 8, 16, 32`. -/
theorem CheckForReciprocalPowerOfTwo_of_not_close (x : K)
    (h : x < TOLERANCE K ∨ ∀ k : Nat, 1 ≤ k → k ≤ 5 → ¬ |1 / x - 2 ^ k| < TOLERANCE K) :
    CheckForReciprocalPowerOfTwo x = 0 := by
  unfold CheckForReciprocalPowerOfTwo
  rcases h with hx | hk
  · rw [if_pos hx]
  · have e1 : (2 : K) ^ 1 = 2 := by norm_num
    have e2 : (2 : K) ^ 2 = 4 := by norm_num
    have e3 : (2 : K) ^ 3 = 8 := by norm_num
    have e4 : (2 : K) ^ 4 = 16 := by norm_num
    have e5 : (2 : K) ^ 5 = 32 := by norm_num
    have h2 := hk 1 (by decide) (by decide)
    have h4 := hk 2 (by decide) (by decide)
    have h8 := hk 3 (by decide) (by decide)
    have h16 := hk 4 (by decide) (by decide)
    have h32 := hk 5 (by decide) (by decide)
    rw [e1] at h2
    rw [e2] at h4
    rw [e3] at h8
    rw [e4] at h16
    rw [e5] at h32
    by_cases hx : x < TOLERANCE K
    · rw [if_pos hx]
    · rw [if_neg hx, if_neg h8, if_neg h4, if_neg h32, if_neg h16, if_neg h2]

/-- A `Measurement` that is not the first (`m_nSamples ≠ 0`) records the
diagnostics entry, runs `IntegerUpdate` with the two shifts when both checks
are non-zero and `FloatingPointUpdate` otherwise, and increments the count. -/
theorem Measurement_of_nSamples_ne_zero (T : TimeUnits K) (s : RttMeanDeviation K) (m : Int)
    (h : s.m_nSamples ≠ 0) :
    Measurement T s m =
      if CheckForReciprocalPowerOfTwo s.m_alpha ≠ 0 ∧
          CheckForReciprocalPowerOfTwo s.m_beta ≠ 0 then
        { IntegerUpdate
            { s with
              m_estimates := s.m_estimates ++ [T.GetMilliSeconds s.m_estimatedRtt]
              m_actuals := s.m_actuals ++ [T.GetMilliSeconds m] }
            m (CheckForReciprocalPowerOfTwo s.m_alpha) (CheckForReciprocalPowerOfTwo s.m_beta)
          with m_nSamples := incr32 s.m_nSamples }
      else
        { FloatingPointUpdate T
            { s with
              m_estimates := s.m_estimates ++ [T.GetMilliSeconds s.m_estimatedRtt]
              m_actuals := s.m_actuals ++ [T.GetMilliSeconds m] }
            m
          with m_nSamples := incr32 s.m_nSamples } := by
  unfold Measurement
  by_cases hs : CheckForReciprocalPowerOfTwo s.m_alpha ≠ 0 ∧
      CheckForReciprocalPowerOfTwo s.m_beta ≠ 0
  · simp [h, hs, IntegerUpdate]
  · simp [h, hs, FloatingPointUpdate]

/-- C13: `CheckForReciprocalPowerOfTwo` returns 1, 2, 3, 4, 5 for `1/2`, `1/4`,
`1/8`, `1/16`, `1/32`, returns `k` for every value whose reciprocal is within
`1e-6` of `2^k` (`1 ≤ k ≤ 5`), and returns 0 for every other value and for
every value below `1e-6`. A `Measurement` that is not the first runs
`IntegerUpdate` with the two shifts when the check is non-zero for both gains,
and `FloatingPointUpdate` (for estimate and variation) when it is zero for
either. With `alpha = 0.125` and `beta = 0.25` it runs `IntegerUpdate` with
shifts 3 and 2; with `alpha = 0.125` and `beta = 0.3` it runs
`FloatingPointUpdate`. -/
theorem update_path_selection (T : TimeUnits K) (s : RttMeanDeviation K) (m : Int) (x : K) :
    (CheckForReciprocalPowerOfTwo (1 / 2 : K) = 1 ∧
      CheckForReciprocalPowerOfTwo (1 / 4 : K) = 2 ∧
      CheckForReciprocalPowerOfTwo (1 / 8 : K) = 3 ∧
      CheckForReciprocalPowerOfTwo (1 / 16 : K) = 4 ∧
      CheckForReciprocalPowerOfTwo (1 / 32 : K) = 5) ∧
    (∀ k : Nat, 1 ≤ k → k ≤ 5 → |1 / x - 2 ^ k| < TOLERANCE K →
      CheckForReciprocalPowerOfTwo x = k) ∧
    ((x < TOLERANCE K ∨ ∀ k : Nat, 1 ≤ k → k ≤ 5 → ¬ |1 / x - 2 ^ k| < TOLERANCE K) →
      CheckForReciprocalPowerOfTwo x = 0) ∧
    (s.m_nSamples ≠ 0 → CheckForReciprocalPowerOfTwo s.m_alpha ≠ 0 →
      CheckForReciprocalPowerOfTwo s.m_beta ≠ 0 →
      Measurement T s m =
        { IntegerUpdate
            { s with
              m_estimates := s.m_estimates ++ [T.GetMilliSeconds s.m_estimatedRtt]
              m_actuals := s.m_actuals ++ [T.GetMilliSeconds m] }
            m (CheckForReciprocalPowerOfTwo s.m_alpha) (CheckForReciprocalPowerOfTwo s.m_beta)
          with m_nSamples := incr32 s.m_nSamples }) ∧
    (s.m_nSamples ≠ 0 →
      (CheckForReciprocalPowerOfTwo s.m_alpha = 0 ∨ CheckForReciprocalPowerOfTwo s.m_beta = 0) →
      Measurement T s m =
        { FloatingPointUpdate T
            { s with
              m_estimates := s.m_estimates ++ [T.GetMilliSeconds s.m_estimatedRtt]
              m_actuals := s.m_actuals ++ [T.GetMilliSeconds m] }
            m
          with m_nSamples := incr32 s.m_nSamples }) ∧
    (s.m_nSamples ≠ 0 → s.m_alpha = 1 / 8 → s.m_beta = 1 / 4 →
      Measurement T s m =
        { IntegerUpdate
            { s with
              m_estimates := s.m_estimates ++ [T.GetMilliSeconds s.m_estimatedRtt]
              m_actuals := s.m_actuals ++ [T.GetMilliSeconds m] }
            m 3 2
          with m_nSamples := incr32 s.m_nSamples }) ∧
    (s.m_nSamples ≠ 0 → s.m_alpha = 1 / 8 → s.m_beta = 3 / 10 →
      Measurement T s m =
        { FloatingPointUpdate T
            { s with
              m_estimates := s.m_estimates ++ [T.GetMilliSeconds s.m_estimatedRtt]
              m_actuals := s.m_actuals ++ [T.GetMilliSeconds m] }
            m
          with m_nSamples := incr32 s.m_nSamples }) := by
  have c2 : CheckForReciprocalPowerOfTwo (1 / 2 : K) = 1 := by
    unfold CheckForReciprocalPowerOfTwo TOLERANCE; norm_num
  have c16 : CheckForReciprocalPowerOfTwo (1 / 16 : K) = 4 := by
    unfold CheckForReciprocalPowerOfTwo TOLERANCE; norm_num
  have c32 : CheckForReciprocalPowerOfTwo (1 / 32 : K) = 5 := by
    unfold CheckForReciprocalPowerOfTwo TOLERANCE; norm_num
  have c03 : CheckForReciprocalPowerOfTwo (3 / 10 : K) = 0 := by
    unfold CheckForReciprocalPowerOfTwo TOLERANCE
    norm_num [abs_of_pos]
  refine ⟨⟨c2, CheckForReciprocalPowerOfTwo_quarter, CheckForReciprocalPowerOfTwo_eighth,
    c16, c32⟩, ?_, CheckForReciprocalPowerOfTwo_of_not_close x, ?_, ?_, ?_, ?_⟩
  · intro k hk1 hk5 h
    exact CheckForReciprocalPowerOfTwo_of_close x k hk1 hk5 h
  · intro hn ha hb
    rw [Measurement_of_nSamples_ne_zero T s m hn, if_pos ⟨ha, hb⟩]
  · intro hn hab
    rw [Measurement_of_nSamples_ne_zero T s m hn, if_neg]
    intro hc
    rcases hab with h | h
    · exact hc.1 h
    · exact hc.2 h
  · intro hn ha hb
    rw [Measurement_of_nSamples_ne_zero T s m hn, ha, hb,
      CheckForReciprocalPowerOfTwo_eighth, CheckForReciprocalPowerOfTwo_quarter,
      if_pos ⟨by decide, by decide⟩]
  · intro hn ha hb
    rw [Measurement_of_nSamples_ne_zero T s m hn, ha, hb, c03, if_neg]
    intro hc
    exact hc.2 rfl

end PathSelection

end RttMeanDeviation

/-! ## Theorems: a constant stream through `RttMeanDeviation` -/

namespace RttMeanDeviation

section ConstantStream

variable {K : Type} [LinearOrderedField K]

/-- `Measurement` never writes the gains or the initial estimate. -/
theorem Measurement_config (T : TimeUnits K) (s : RttMeanDeviation K) (m : Int) :
    (Measurement T s m).m_alpha = s.m_alpha ∧
    (Measurement T s m).m_beta = s.m_beta ∧
    (Measurement T s m).m_initialEstimatedRtt = s.m_initialEstimatedRtt := by
  unfold Measurement
  by_cases h : s.m_nSamples = 0
  · simp [h]
  · by_cases hs : CheckForReciprocalPowerOfTwo s.m_alpha ≠ 0 ∧
        CheckForReciprocalPowerOfTwo s.m_beta ≠ 0
    · simp [h, hs, IntegerUpdate]
    · simp [h, hs, FloatingPointUpdate]

/-- Feeding one more copy of the same sample. -/
theorem foldl_replicate_succ {σ : Type} (f : σ → Int → σ) (s : σ) (m : Int) (n : Nat) :
    (List.replicate (n + 1) m).foldl f s = f ((List.replicate n m).foldl f s) m := by
  rw [List.replicate_succ', List.foldl_append]
  rfl

/-- After `n` measurements a new estimator holds the count `n` modulo `2^32`,
and its gains are the configured ones. -/
theorem foldl_replicate_nSamples (T : TimeUnits K) (initial : Int) (alpha beta : K)
    (m : Int) (n : Nat) :
    ((List.replicate n m).foldl (Measurement T) (ctor initial alpha beta)).m_nSamples
      = n % 2 ^ 32 ∧
    ((List.replicate n m).foldl (Measurement T) (ctor initial alpha beta)).m_alpha = alpha ∧
    ((List.replicate n m).foldl (Measurement T) (ctor initial alpha beta)).m_beta = beta := by
  induction n with
  | zero => exact ⟨rfl, rfl, rfl⟩
  | succ k ih =>
    rw [foldl_replicate_succ]
    have hc := Measurement_config T
      ((List.replicate k m).foldl (Measurement T) (ctor initial alpha beta)) m
    refine ⟨?_, by rw [hc.1, ih.2.1], by rw [hc.2.1, ih.2.2]⟩
    rw [Measurement_nSamples, ih.1]
    unfold incr32
    omega

/-- One more `Measurement` of the sample `m` on an estimator that already holds
it as estimate, with gains `1/8` and `1/4`, on the integer path: the estimate
stays `m` and the variation becomes the floor of three quarters of itself. -/
theorem Measurement_constant_step (T : TimeUnits K) (s : RttMeanDeviation K) (m : Int)
    (hn : s.m_nSamples ≠ 0) (ha : s.m_alpha = 1 / 8) (hb : s.m_beta = 1 / 4)
    (hm0 : 0 ≤ m) (hm : m < 2 ^ 60) (hest : s.m_estimatedRtt = m)
    (hv0 : 0 ≤ s.m_estimatedVariation) (hv1 : s.m_estimatedVariation ≤ m / 2) :
    (Measurement T s m).m_estimatedRtt = m ∧
    (Measurement T s m).m_estimatedVariation = 3 * s.m_estimatedVariation / 4 := by
  have hca : CheckForReciprocalPowerOfTwo s.m_alpha = 3 := by
    rw [ha]; exact CheckForReciprocalPowerOfTwo_eighth
  have hcb : CheckForReciprocalPowerOfTwo s.m_beta = 2 := by
    rw [hb]; exact CheckForReciprocalPowerOfTwo_quarter
  rw [Measurement_of_nSamples_ne_zero T s m hn, hca, hcb, if_pos ⟨by decide, by decide⟩]
  have hdiff : m - s.m_estimatedRtt = 0 := by rw [hest]; exact sub_self m
  have hu := IntegerUpdate_of_noOverflow
    ({ s with
        m_estimates := s.m_estimates ++ [T.GetMilliSeconds s.m_estimatedRtt]
        m_actuals := s.m_actuals ++ [T.GetMilliSeconds m] } : RttMeanDeviation K) m 3 2
    (by show InInt64 |m - s.m_estimatedRtt|
        rw [hdiff]; decide)
    (by show InInt64 (s.m_estimatedRtt * 2 ^ 3)
        rw [hest]; unfold InInt64; omega)
    (by show InInt64 (s.m_estimatedRtt * 2 ^ 3 + (m - s.m_estimatedRtt))
        rw [hdiff, hest]; unfold InInt64; omega)
    (by show InInt64 (|m - s.m_estimatedRtt| - s.m_estimatedVariation)
        rw [hdiff]; unfold InInt64; simp only [abs_zero]; omega)
    (by show InInt64 (s.m_estimatedVariation * 2 ^ 2)
        unfold InInt64; omega)
    (by show InInt64 (s.m_estimatedVariation * 2 ^ 2
          + (|m - s.m_estimatedRtt| - s.m_estimatedVariation))
        rw [hdiff]; unfold InInt64; simp only [abs_zero]; omega)
  constructor
  · show (IntegerUpdate _ m 3 2).m_estimatedRtt = m
    rw [hu.1]
    show ((2 ^ 3 - 1) * s.m_estimatedRtt + m) / 2 ^ 3 = m
    rw [hest]
    omega
  · show (IntegerUpdate _ m 3 2).m_estimatedVariation = 3 * s.m_estimatedVariation / 4
    rw [hu.2]
    show ((2 ^ 2 - 1) * s.m_estimatedVariation + |m - s.m_estimatedRtt|) / 2 ^ 2
      = 3 * s.m_estimatedVariation / 4
    rw [hdiff]
    simp only [abs_zero]
    omega

/-- The constant stream `m, m, ...` with gains `1/8` and `1/4` on a new
estimator, for `0 ≤ m < 2^60` ticks and within the first `2^32` calls: after
call `n ≥ 1` the estimate is `m`, the variation is between 0 and `m / 2`, it
is 0 or at most `m / 2 + 1 - n`, and the next call (if within the first
`2^32`) replaces it by the floor of three quarters of itself. -/
theorem constant_stream_invariant (T : TimeUnits K) (initial m : Int)
    (hm0 : 0 ≤ m) (hm : m < 2 ^ 60) (n : Nat) (hn1 : 1 ≤ n) (hn : n ≤ 2 ^ 32) :
    ((List.replicate n m).foldl (Measurement T)
      (ctor initial (1 / 8) (1 / 4))).m_estimatedRtt = m ∧
    0 ≤ ((List.replicate n m).foldl (Measurement T)
      (ctor initial (1 / 8) (1 / 4))).m_estimatedVariation ∧
    ((List.replicate n m).foldl (Measurement T)
      (ctor initial (1 / 8) (1 / 4))).m_estimatedVariation ≤ m / 2 ∧
    (((List.replicate n m).foldl (Measurement T)
        (ctor initial (1 / 8) (1 / 4))).m_estimatedVariation = 0 ∨
      ((List.replicate n m).foldl (Measurement T)
        (ctor initial (1 / 8) (1 / 4))).m_estimatedVariation + n ≤ m / 2 + 1) ∧
    (n + 1 ≤ 2 ^ 32 →
      ((List.replicate (n + 1) m).foldl (Measurement T)
        (ctor initial (1 / 8) (1 / 4))).m_estimatedVariation
      = 3 * ((List.replicate n m).foldl (Measurement T)
        (ctor initial (1 / 8) (1 / 4))).m_estimatedVariation / 4) := by
  induction n with
  | zero => omega
  | succ k ih =>
    have hstep : ∀ j : Nat, 1 ≤ j → j + 1 ≤ 2 ^ 32 →
        ((List.replicate j m).foldl (Measurement T)
          (ctor initial (1 / 8) (1 / 4))).m_estimatedRtt = m →
        0 ≤ ((List.replicate j m).foldl (Measurement T)
          (ctor initial (1 / 8) (1 / 4))).m_estimatedVariation →
        ((List.replicate j m).foldl (Measurement T)
          (ctor initial (1 / 8) (1 / 4))).m_estimatedVariation ≤ m / 2 →
        ((List.replicate (j + 1) m).foldl (Measurement T)
          (ctor initial (1 / 8) (1 / 4))).m_estimatedRtt = m ∧
        ((List.replicate (j + 1) m).foldl (Measurement T)
          (ctor initial (1 / 8) (1 / 4))).m_estimatedVariation
        = 3 * ((List.replicate j m).foldl (Measurement T)
          (ctor initial (1 / 8) (1 / 4))).m_estimatedVariation / 4 := by
      intro j hj1 hj he hv0 hv1
      have hc := foldl_replicate_nSamples T initial (1 / 8 : K) (1 / 4) m j
      rw [foldl_replicate_succ]
      apply Measurement_constant_step T _ m _ hc.2.1 hc.2.2 hm0 hm he hv0 hv1
      rw [hc.1]
      omega
    by_cases hk : k = 0
    · subst hk
      have h1 : (List.replicate (0 + 1) m).foldl (Measurement T) (ctor initial (1 / 8 : K) (1 / 4))
          = Measurement T (ctor initial (1 / 8) (1 / 4)) m := rfl
      have hseed := Measurement_of_nSamples_eq_zero T (ctor initial (1 / 8 : K) (1 / 4)) m rfl
      have he : ((List.replicate (0 + 1) m).foldl (Measurement T)
          (ctor initial (1 / 8 : K) (1 / 4))).m_estimatedRtt = m := by rw [h1, hseed]
      have hv : ((List.replicate (0 + 1) m).foldl (Measurement T)
          (ctor initial (1 / 8 : K) (1 / 4))).m_estimatedVariation = m / 2 := by
        rw [h1, hseed]
        exact Time.div_two_of_nonneg m hm0
      refine ⟨he, by rw [hv]; omega, by rw [hv], Or.inr (by rw [hv]; omega), ?_⟩
      intro h2
      exact (hstep (0 + 1) (by omega) h2 he (by rw [hv]; omega) (by rw [hv])).2
    · have ihk := ih (by omega) (by omega)
      have hnext := hstep k (by omega) hn ihk.1 ihk.2.1 ihk.2.2.1
      have hv0' : 0 ≤ ((List.replicate (k + 1) m).foldl (Measurement T)
          (ctor initial (1 / 8 : K) (1 / 4))).m_estimatedVariation := by
        rw [hnext.2]; omega
      have hv1' : ((List.replicate (k + 1) m).foldl (Measurement T)
          (ctor initial (1 / 8 : K) (1 / 4))).m_estimatedVariation ≤ m / 2 := by
        rw [hnext.2]; omega
      refine ⟨hnext.1, hv0', hv1', ?_, ?_⟩
      · rw [hnext.2]
        rcases ihk.2.2.2.1 with h0 | hle
        · left; rw [h0]; rfl
        · by_cases hz : ((List.replicate k m).foldl (Measurement T)
              (ctor initial (1 / 8 : K) (1 / 4))).m_estimatedVariation = 0
          · left; rw [hz]; rfl
          · right
            have := ihk.2.1
            push_cast
            omega
      · intro h2
        exact (hstep (k + 1) (by omega) h2 hnext.1 hv0' hv1').2

/-- Geometric decay of the variation on the constant stream: after call
`j + 1` (within the first `2^32` calls) the variation is at most
`(3/4)^j * (m / 2)`, stated without division as
`4^j * variation ≤ 3^j * (m / 2)`. -/
theorem constant_stream_geometric (T : TimeUnits K) (initial m : Int)
    (hm0 : 0 ≤ m) (hm : m < 2 ^ 60) (j : Nat) (hj : j + 1 ≤ 2 ^ 32) :
    4 ^ j * ((List.replicate (j + 1) m).foldl (Measurement T)
      (ctor initial (1 / 8) (1 / 4))).m_estimatedVariation ≤ 3 ^ j * (m / 2) := by
  induction j with
  | zero =>
    have h := constant_stream_invariant T initial m hm0 hm (0 + 1) (by omega) hj
    simp only [pow_zero, one_mul]
    exact h.2.2.1
  | succ k ih =>
    have h := constant_stream_invariant T initial m hm0 hm (k + 1) (by omega) (by omega)
    have ih' := ih (by omega)
    rw [h.2.2.2.2 hj]
    generalize ((List.replicate (k + 1) m).foldl (Measurement T)
      (ctor initial (1 / 8) (1 / 4))).m_estimatedVariation = v at ih' ⊢
    generalize m / 2 = b at ih' ⊢
    have h4 : 4 * (3 * v / 4) ≤ 3 * v := by omega
    have hp : (0 : Int) ≤ 4 ^ k := by positivity
    have h1 : 4 ^ k * (4 * (3 * v / 4)) ≤ 4 ^ k * (3 * v) := mul_le_mul_of_nonneg_left h4 hp
    have e1 : (4 : Int) ^ (k + 1) * (3 * v / 4) = 4 ^ k * (4 * (3 * v / 4)) := by
      rw [pow_succ, mul_assoc]
    have e2 : (3 : Int) ^ (k + 1) * b = 3 * (3 ^ k * b) := by
      rw [pow_succ]; ring
    have e3 : (4 : Int) ^ k * (3 * v) = 3 * (4 ^ k * v) := by ring
    rw [e1, e2]
    linarith

/-- Once the variation of the constant stream is 0 it stays 0, up to call
`2^32`. -/
theorem constant_stream_zero_persists (T : TimeUnits K) (initial m : Int)
    (hm0 : 0 ≤ m) (hm : m < 2 ^ 60) (a : Nat) (ha : 1 ≤ a)
    (h0 : ((List.replicate a m).foldl (Measurement T)
      (ctor initial (1 / 8) (1 / 4))).m_estimatedVariation = 0)
    (n : Nat) (han : a ≤ n) (hn : n ≤ 2 ^ 32) :
    ((List.replicate n m).foldl (Measurement T)
      (ctor initial (1 / 8) (1 / 4))).m_estimatedVariation = 0 := by
  induction n with
  | zero => omega
  | succ k ih =>
    by_cases hk : a = k + 1
    · rw [← hk]
      exact h0
    · have h := constant_stream_invariant T initial m hm0 hm k (by omega) (by omega)
      rw [h.2.2.2.2 hn, ih (by omega) (by omega)]
      rfl

/-- On the constant stream, when `(3/4)^j * (m / 2) < 1` the variation is 0
from call `j + 1` on, up to call `2^32`. -/
theorem constant_stream_zero_of_pow (T : TimeUnits K) (initial m : Int)
    (hm0 : 0 ≤ m) (hm : m < 2 ^ 60) (j : Nat) (hpow : 3 ^ j * (m / 2) < 4 ^ j)
    (n : Nat) (hjn : j + 1 ≤ n) (hn : n ≤ 2 ^ 32) :
    ((List.replicate n m).foldl (Measurement T)
      (ctor initial (1 / 8) (1 / 4))).m_estimatedVariation = 0 := by
  have hg := constant_stream_geometric T initial m hm0 hm j (by omega)
  have hi := constant_stream_invariant T initial m hm0 hm (j + 1) (by omega) (by omega)
  apply constant_stream_zero_persists T initial m hm0 hm (j + 1) (by omega) _ n hjn hn
  have hp : (0 : Int) < 4 ^ j := by positivity
  have hlt : 4 ^ j * ((List.replicate (j + 1) m).foldl (Measurement T)
      (ctor initial (1 / 8) (1 / 4))).m_estimatedVariation < 4 ^ j * 1 := by
    rw [mul_one]
    exact lt_of_le_of_lt hg hpow
  have hv := lt_of_mul_lt_mul_left hlt hp.le
  have hv0 := hi.2.1
  omega

/-- On the constant stream with `0 ≤ m < 2^60` the variation is 0 from call
141 on, up to call `2^32`: it is at most 7 after call 136, and the floor of
three quarters takes 7 to 5, 3, 2, 1 and 0. -/
theorem constant_stream_zero_from_141 (T : TimeUnits K) (initial m : Int)
    (hm0 : 0 ≤ m) (hm : m < 2 ^ 60) (n : Nat) (h141 : 141 ≤ n) (hn : n ≤ 2 ^ 32) :
    ((List.replicate n m).foldl (Measurement T)
      (ctor initial (1 / 8) (1 / 4))).m_estimatedVariation = 0 := by
  apply constant_stream_zero_persists T initial m hm0 hm 141 (by decide) _ n h141 hn
  have hg : 4 ^ 135 * ((List.replicate 136 m).foldl (Measurement T)
      (ctor initial (1 / 8) (1 / 4))).m_estimatedVariation ≤ 3 ^ 135 * (m / 2) :=
    constant_stream_geometric T initial m hm0 hm 135 (by decide)
  have h136 := constant_stream_invariant T initial m hm0 hm 136 (by decide) (by decide)
  have h137 := constant_stream_invariant T initial m hm0 hm 137 (by decide) (by decide)
  have h138 := constant_stream_invariant T initial m hm0 hm 138 (by decide) (by decide)
  have h139 := constant_stream_invariant T initial m hm0 hm 139 (by decide) (by decide)
  have h140 := constant_stream_invariant T initial m hm0 hm 140 (by decide) (by decide)
  have e137 : ((List.replicate 137 m).foldl (Measurement T)
      (ctor initial (1 / 8) (1 / 4))).m_estimatedVariation
      = 3 * ((List.replicate 136 m).foldl (Measurement T)
        (ctor initial (1 / 8) (1 / 4))).m_estimatedVariation / 4 := h136.2.2.2.2 (by decide)
  have e138 : ((List.replicate 138 m).foldl (Measurement T)
      (ctor initial (1 / 8) (1 / 4))).m_estimatedVariation
      = 3 * ((List.replicate 137 m).foldl (Measurement T)
        (ctor initial (1 / 8) (1 / 4))).m_estimatedVariation / 4 := h137.2.2.2.2 (by decide)
  have e139 : ((List.replicate 139 m).foldl (Measurement T)
      (ctor initial (1 / 8) (1 / 4))).m_estimatedVariation
      = 3 * ((List.replicate 138 m).foldl (Measurement T)
        (ctor initial (1 / 8) (1 / 4))).m_estimatedVariation / 4 := h138.2.2.2.2 (by decide)
  have e140 : ((List.replicate 140 m).foldl (Measurement T)
      (ctor initial (1 / 8) (1 / 4))).m_estimatedVariation
      = 3 * ((List.replicate 139 m).foldl (Measurement T)
        (ctor initial (1 / 8) (1 / 4))).m_estimatedVariation / 4 := h139.2.2.2.2 (by decide)
  have e141 : ((List.replicate 141 m).foldl (Measurement T)
      (ctor initial (1 / 8) (1 / 4))).m_estimatedVariation
      = 3 * ((List.replicate 140 m).foldl (Measurement T)
        (ctor initial (1 / 8) (1 / 4))).m_estimatedVariation / 4 := h140.2.2.2.2 (by decide)
  have hv0 := h136.2.1
  have hb : m / 2 ≤ 2 ^ 59 - 1 := by omega
  have hnum : (3 : Int) ^ 135 * (2 ^ 59 - 1) < 4 ^ 135 * 8 := by norm_num
  have hlt : 4 ^ 135 * ((List.replicate 136 m).foldl (Measurement T)
      (ctor initial (1 / 8) (1 / 4))).m_estimatedVariation < 4 ^ 135 * 8 := by
    have hp3 : (0 : Int) ≤ 3 ^ 135 := by positivity
    have := mul_le_mul_of_nonneg_left hb hp3
    linarith
  have hv := lt_of_mul_lt_mul_left hlt (by positivity : (0 : Int) ≤ 4 ^ 135)
  rw [e141, e140, e139, e138, e137]
  omega

/-- C11, amended: with `alpha = 0.125`, `beta = 0.25` and a sample `m` with
`0 ≤ m < 2^60` ticks, feeding `m` repeatedly to a new estimator keeps
`GetEstimate ()` equal to `m` after each of the first `2^32` calls, and over
these calls `GetVariation ()` is non-negative, does not increase from one call
to the next, and is 0 from call `m / 2 + 1` on, from call `j + 1` on for every
`j` with `3^j * (m / 2) < 4^j` (geometric convergence), and in any case from
call 141 on. -/
theorem constant_stream_converges (T : TimeUnits K) (initial m : Int)
    (hm0 : 0 ≤ m) (hm : m < 2 ^ 60) (n : Nat) (hn1 : 1 ≤ n) (hn : n ≤ 2 ^ 32) :
    ((List.replicate n m).foldl (Measurement T)
      (ctor initial (1 / 8) (1 / 4))).GetEstimate = m ∧
    0 ≤ ((List.replicate n m).foldl (Measurement T)
      (ctor initial (1 / 8) (1 / 4))).GetVariation ∧
    (n + 1 ≤ 2 ^ 32 →
      ((List.replicate (n + 1) m).foldl (Measurement T)
        (ctor initial (1 / 8) (1 / 4))).GetVariation
      ≤ ((List.replicate n m).foldl (Measurement T)
        (ctor initial (1 / 8) (1 / 4))).GetVariation) ∧
    (m / 2 + 1 ≤ n →
      ((List.replicate n m).foldl (Measurement T)
        (ctor initial (1 / 8) (1 / 4))).GetVariation = 0) ∧
    (∀ j : Nat, 3 ^ j * (m / 2) < 4 ^ j → j + 1 ≤ n →
      ((List.replicate n m).foldl (Measurement T)
        (ctor initial (1 / 8) (1 / 4))).GetVariation = 0) ∧
    (141 ≤ n →
      ((List.replicate n m).foldl (Measurement T)
        (ctor initial (1 / 8) (1 / 4))).GetVariation = 0) := by
  have h := constant_stream_invariant T initial m hm0 hm n hn1 hn
  refine ⟨h.1, h.2.1, ?_, ?_, ?_, ?_⟩
  · intro h2
    show ((List.replicate (n + 1) m).foldl (Measurement T)
        (ctor initial (1 / 8) (1 / 4))).m_estimatedVariation
      ≤ ((List.replicate n m).foldl (Measurement T)
        (ctor initial (1 / 8) (1 / 4))).m_estimatedVariation
    rw [h.2.2.2.2 h2]
    have := h.2.1
    omega
  · intro h2
    show ((List.replicate n m).foldl (Measurement T)
        (ctor initial (1 / 8) (1 / 4))).m_estimatedVariation = 0
    rcases h.2.2.2.1 with h0 | hle
    · exact h0
    · have := h.2.1
      omega
  · intro j hpow hjn
    exact constant_stream_zero_of_pow T initial m hm0 hm j hpow n hjn hn
  · intro h141
    exact constant_stream_zero_from_141 T initial m hm0 hm n h141 hn

/-- Witness of C11, amended. The sample `2^60 - 1` ticks fed 141 times: the
estimate is the sample and the variation is 0. The sample of 7 ticks fed five
times: `3^4 * (7 / 2) < 4^4`, and the variation, which went 3, 2, 1, 0, is 0. -/
theorem constant_stream_converges_witness :
    ((0 : Int) ≤ 2 ^ 60 - 1 ∧ (2 ^ 60 - 1 : Int) < 2 ^ 60 ∧ 1 ≤ 141 ∧ 141 ≤ 2 ^ 32) ∧
    ((List.replicate 141 (2 ^ 60 - 1)).foldl (Measurement (TimeNS ℚ))
      (ctor 1000000000 (1 / 8) (1 / 4))).GetEstimate = 2 ^ 60 - 1 ∧
    ((List.replicate 141 (2 ^ 60 - 1)).foldl (Measurement (TimeNS ℚ))
      (ctor 1000000000 (1 / 8) (1 / 4))).GetVariation = 0 ∧
    (3 : Int) ^ 4 * (7 / 2) < 4 ^ 4 ∧
    ((List.replicate 5 7).foldl (Measurement (TimeNS ℚ))
      (ctor 1000000000 (1 / 8) (1 / 4))).GetVariation = 0 :=
  ⟨⟨by decide, by decide, by decide, by decide⟩,
    (constant_stream_converges (TimeNS ℚ) 1000000000 (2 ^ 60 - 1) (by decide) (by decide) 141
      (by decide) (by decide)).1,
    (constant_stream_converges (TimeNS ℚ) 1000000000 (2 ^ 60 - 1) (by decide) (by decide) 141
      (by decide) (by decide)).2.2.2.2.2 (le_refl _),
    by decide,
    (constant_stream_converges (TimeNS ℚ) 1000000000 7 (by decide) (by decide) 5
      (by decide) (by decide)).2.2.2.2.1 4 (by decide) (le_refl _)⟩

/-- Within the first `2^32` calls of the constant stream the variation is 0
from call `m / 2 + 1` on. -/
theorem constant_stream_settles (T : TimeUnits K) (initial m : Int)
    (hm0 : 0 ≤ m) (hm : m < 2 ^ 60) (n : Nat) (hn1 : 1 ≤ n) (hn : n ≤ 2 ^ 32)
    (hbig : m / 2 + 1 ≤ n) :
    ((List.replicate n m).foldl (Measurement T)
      (ctor initial (1 / 8) (1 / 4))).GetVariation = 0 := by
  have h := constant_stream_invariant T initial m hm0 hm n hn1 hn
  show ((List.replicate n m).foldl (Measurement T)
      (ctor initial (1 / 8) (1 / 4))).m_estimatedVariation = 0
  rcases h.2.2.2.1 with h0 | hle
  · exact h0
  · have := h.2.1
    omega

/-- When the number of calls made is a multiple of `2^32` the count is back at
0, and the next call is taken for a first sample: it sets the variation to
half the sample. -/
theorem constant_stream_reseeds (T : TimeUnits K) (initial : Int) (alpha beta : K)
    (m : Int) (n : Nat) (hn : n % 2 ^ 32 = 0) :
    ((List.replicate (n + 1) m).foldl (Measurement T)
      (ctor initial alpha beta)).GetVariation = Time.div m 2 := by
  have hc := (foldl_replicate_nSamples T initial alpha beta m n).1
  rw [hn] at hc
  show ((List.replicate (n + 1) m).foldl (Measurement T)
      (ctor initial alpha beta)).m_estimatedVariation = Time.div m 2
  rw [foldl_replicate_succ, Measurement_of_nSamples_eq_zero T _ m hc]

/-- Counterexample to C11. First, the sample `2^60` ticks fed twice: the second
call shifts the estimate `2^60` left by 3 bits, out of the `int64_t` range, and
leaves the estimate `-2^60`. Second, the sample of 2 ticks: the variation is 0
after `2^32` calls, the count has then wrapped to 0, and call `2^32 + 1` is
taken for a first sample, which sets the variation to `2 / 2 = 1`. -/
theorem constant_stream_counterexample :
    (Measurement (TimeNS ℚ) (Measurement (TimeNS ℚ) (ctor 1000000000 (1 / 8) (1 / 4))
      (2 ^ 60)) (2 ^ 60)).GetEstimate = -2 ^ 60 ∧
    ((List.replicate (2 ^ 32) 2).foldl (Measurement (TimeNS ℚ))
      (ctor 1000000000 (1 / 8) (1 / 4))).GetVariation = 0 ∧
    ((List.replicate (2 ^ 32 + 1) 2).foldl (Measurement (TimeNS ℚ))
      (ctor 1000000000 (1 / 8) (1 / 4))).GetVariation = Time.div 2 2 ∧
    Time.div 2 2 = 1 :=
  ⟨by
      show (Measurement (TimeNS ℚ) (Measurement (TimeNS ℚ) (ctor 1000000000 (1 / 8) (1 / 4))
        (2 ^ 60)) (2 ^ 60)).m_estimatedRtt = -2 ^ 60
      have h1 := Measurement_of_nSamples_eq_zero (TimeNS ℚ)
        (ctor 1000000000 (1 / 8) (1 / 4)) (2 ^ 60) rfl
      have ha := CheckForReciprocalPowerOfTwo_eighth (K := ℚ)
      have hb := CheckForReciprocalPowerOfTwo_quarter (K := ℚ)
      rw [h1]
      simp only [Measurement, ctor, RttEstimator.ctor, ha, hb]
      decide,
    constant_stream_settles (TimeNS ℚ) 1000000000 2 (by decide) (by decide) (2 ^ 32)
      (by decide) (le_refl _) (by decide),
    constant_stream_reseeds (TimeNS ℚ) 1000000000 (1 / 8) (1 / 4) 2 (2 ^ 32) (by decide),
    by decide⟩

end ConstantStream

end RttMeanDeviation

/-! ## Theorems: the learning update of `RttFixedShare` -/

namespace RttFixedShare

section Learning

variable {K : Type} [LinearOrderedField K]

/-- Entry `j` of the loss vector after the loss loop. -/
theorem newLosses_getD (L : Libm K) (s : RttFixedShare K) (a : K) (j : Nat) :
    (newLosses L s a).getD j 0
      = if j < s.m_numExperts.toNat ∧ j < s.m_losses.length then
          (if s.m_experts.getD j 0 ≥ a then L.pow (s.m_experts.getD j 0 - a) 2 else 2 * a)
        else s.m_losses.getD j 0 := by
  have hbody : (fun i (losses : List K) =>
        if s.m_experts.getD i 0 ≥ a then
          losses.set i (L.pow (s.m_experts.getD i 0 - a) 2)
        else
          losses.set i (2 * a))
      = (fun i (losses : List K) => losses.set i
          ((fun i (_ : K) =>
            if s.m_experts.getD i 0 ≥ a then L.pow (s.m_experts.getD i 0 - a) 2 else 2 * a)
            i (losses.getD i 0))) := by
    funext i losses
    by_cases h : s.m_experts.getD i 0 ≥ a
    · simp only [if_pos h]
    · simp only [if_neg h]
  unfold newLosses
  rw [hbody]
  exact forLoop_set_getD
    (fun i (_ : K) =>
      if s.m_experts.getD i 0 ≥ a then L.pow (s.m_experts.getD i 0 - a) 2 else 2 * a)
    s.m_numExperts.toNat s.m_losses j

/-- The loss loop keeps the length of the loss vector. -/
theorem newLosses_length (L : Libm K) (s : RttFixedShare K) (a : K) :
    (newLosses L s a).length = s.m_losses.length := by
  have hbody : (fun i (losses : List K) =>
        if s.m_experts.getD i 0 ≥ a then
          losses.set i (L.pow (s.m_experts.getD i 0 - a) 2)
        else
          losses.set i (2 * a))
      = (fun i (losses : List K) => losses.set i
          ((fun i (_ : List K) =>
            if s.m_experts.getD i 0 ≥ a then L.pow (s.m_experts.getD i 0 - a) 2 else 2 * a)
            i losses)) := by
    funext i losses
    by_cases h : s.m_experts.getD i 0 ≥ a
    · simp only [if_pos h]
    · simp only [if_neg h]
  unfold newLosses
  rw [hbody]
  exact forLoop_set_length
    (fun i (_ : List K) =>
      if s.m_experts.getD i 0 ≥ a then L.pow (s.m_experts.getD i 0 - a) 2 else 2 * a)
    s.m_numExperts.toNat s.m_losses

/-- The weights after a learning `Measurement` on a well-formed state, with the
losses as `pow` returns them. -/
theorem Measurement_learning_weights (L : Libm K) (T : TimeUnits K) (s : RttFixedShare K)
    (m : Int) (h0 : s.m_nSamples = 0) (hwf : WellFormed s) (i : Nat)
    (hi : i < s.m_numExperts.toNat) :
    (Measurement L T s m).m_weights.getD i 0
      = (1 - s.m_alpha) * (s.m_weights.getD i 0 * L.exp (-s.m_lr *
          (if s.m_experts.getD i 0 ≥ T.ToDouble m
            then L.pow (s.m_experts.getD i 0 - T.ToDouble m) 2 else 2 * T.ToDouble m)))
        + (∑ j in Finset.range s.m_numExperts.toNat, s.m_alpha *
            (s.m_weights.getD j 0 * L.exp (-s.m_lr *
              (if s.m_experts.getD j 0 ≥ T.ToDouble m
                then L.pow (s.m_experts.getD j 0 - T.ToDouble m) 2 else 2 * T.ToDouble m))))
          / (s.m_numExperts : K) := by
  have hw1 : ∀ j, j < s.m_numExperts.toNat →
      (expUpdate L s.m_numExperts.toNat s.m_lr (newLosses L s (T.ToDouble m))
        s.m_weights).getD j 0
      = s.m_weights.getD j 0 * L.exp (-s.m_lr *
          (if s.m_experts.getD j 0 ≥ T.ToDouble m
            then L.pow (s.m_experts.getD j 0 - T.ToDouble m) 2 else 2 * T.ToDouble m)) := by
    intro j hj
    rw [expUpdate_getD, if_pos ⟨hj, lt_of_lt_of_le hj hwf.2.1⟩, newLosses_getD,
      if_pos ⟨hj, lt_of_lt_of_le hj hwf.2.2⟩]
  rw [Measurement_weights, if_neg (by omega), shareWeights_getD, expUpdate_length,
    if_pos ⟨hi, lt_of_lt_of_le hi hwf.2.1⟩, sharePool_eq, hw1 i hi]
  congr 2
  apply Finset.sum_congr rfl
  intro j hj
  rw [hw1 j (Finset.mem_range.mp hj)]

/-- C16: for every well-formed state with `m_nSamples = 0` and every sample
(`a` seconds), with `pow (x, 2) = x^2`, after `Measurement` each of the `N`
weights is `(1 - alpha) * w_i * exp (-lr * loss_i)
+ (alpha / N) * sum_j (w_j * exp (-lr * loss_j))`, where `w` is the weight
vector before the call and `loss_i` is `(experts[i] - a)^2` when
`experts[i] ≥ a` and `2 * a` otherwise; the experts vector is unchanged. -/
theorem weight_update_formula (L : Libm K) (T : TimeUnits K) (s : RttFixedShare K) (m : Int)
    (h0 : s.m_nSamples = 0) (hwf : WellFormed s) (hpow : ∀ x, L.pow x 2 = x ^ 2) :
    (∀ i, i < s.m_numExperts.toNat →
      (Measurement L T s m).m_weights.getD i 0
        = (1 - s.m_alpha) * s.m_weights.getD i 0
            * L.exp (-s.m_lr * specLoss (s.m_experts.getD i 0) (T.ToDouble m))
          + (s.m_alpha / (s.m_numExperts : K))
            * ∑ j in Finset.range s.m_numExperts.toNat,
                s.m_weights.getD j 0
                  * L.exp (-s.m_lr * specLoss (s.m_experts.getD j 0) (T.ToDouble m))) ∧
    (Measurement L T s m).m_experts = s.m_experts := by
  refine ⟨?_, (Measurement_frame L T s m).2.2.2.2.1⟩
  intro i hi
  rw [Measurement_learning_weights L T s m h0 hwf i hi]
  simp only [specLoss, hpow]
  rw [← Finset.mul_sum]
  ring

/-- Witness of C16: real arithmetic, one expert of 0.4 s with weight 1, and the
sample 0.1 s at nanosecond resolution. -/
theorem weight_update_formula_witness :
    (Measurement (⟨Real.exp, fun x y => x ^ y, fun x => |x|⟩ : Libm ℝ) (TimeNS ℝ)
      { toRttEstimator := RttEstimator.ctor 1000000000
        m_numExperts := 1
        m_alpha := 2 / 25
        m_beta := 1 / 4
        m_lr := 2
        m_experts := [2 / 5]
        m_weights := [1]
        m_losses := [0]
        m_estimates := []
        m_actuals := [] } 100000000).m_experts = [2 / 5] :=
  (weight_update_formula (⟨Real.exp, fun x y => x ^ y, fun x => |x|⟩ : Libm ℝ) (TimeNS ℝ)
    { toRttEstimator := RttEstimator.ctor 1000000000
      m_numExperts := 1
      m_alpha := 2 / 25
      m_beta := 1 / 4
      m_lr := 2
      m_experts := [2 / 5]
      m_weights := [1]
      m_losses := [0]
      m_estimates := []
      m_actuals := [] } 100000000 rfl
    ⟨by decide, by decide, by decide⟩ (fun x => Real.rpow_two x)).2

/-- The copy constructor builds a well-formed state. -/
theorem Copy_wellFormed (L : Libm K) (c : RttFixedShare K) : WellFormed (Copy L c) := by
  rw [Copy_eq]
  unfold WellFormed
  simp

/-- `Measurement` keeps a state well-formed. -/
theorem Measurement_wellFormed (L : Libm K) (T : TimeUnits K) (s : RttFixedShare K) (m : Int)
    (hwf : WellFormed s) : WellFormed (Measurement L T s m) := by
  unfold WellFormed at hwf ⊢
  have hf := Measurement_frame L T s m
  rw [hf.1, hf.2.2.2.2.1]
  refine ⟨hwf.1, ?_, ?_⟩
  · rw [Measurement_weights]
    by_cases h : s.m_nSamples > 0
    · rw [if_pos h]; exact hwf.2.1
    · rw [if_neg h, shareWeights_length, expUpdate_length]; exact hwf.2.1
  · by_cases h : s.m_nSamples > 0
    · rw [Measurement_of_nSamples_pos_reseeds L T s m h]; exact hwf.2.2
    · have hl : (Measurement L T s m).m_losses = newLosses L s (T.ToDouble m) := by
        simp [Measurement, h]
      rw [hl, newLosses_length]; exact hwf.2.2

/-- Entry `i` of the weight vector of a copy. -/
theorem Copy_weights_getD (L : Libm K) (c : RttFixedShare K) (i : Nat)
    (hi : i < c.m_numExperts.toNat) :
    (Copy L c).m_weights.getD i 0 = 1 / (c.m_numExperts : K) := by
  rw [Copy_eq]
  show (List.replicate c.m_numExperts.toNat (1 / (c.m_numExperts : K))).getD i 0 = _
  rw [List.getD_eq_getElem?_getD, List.getElem?_replicate, if_pos hi]
  rfl

/-- Entry `i` of the expert vector of a copy. -/
theorem Copy_experts_getD (L : Libm K) (c : RttFixedShare K) (i : Nat)
    (hi : i < c.m_numExperts.toNat) :
    (Copy L c).m_experts.getD i 0
      = 0 + 2 / 5 * L.pow 2 (((((i : Int) + 1 - c.m_numExperts : Int)) : K) / 4) := by
  rw [Copy_eq]
  show ((List.range c.m_numExperts.toNat).map
    (fun (j : Nat) => 0 + 2 / 5 * L.pow 2 (((((j : Int) + 1 - c.m_numExperts : Int)) : K) / 4))).getD
    i 0 = _
  rw [List.getD_eq_getElem?_getD, List.getElem?_map, List.getElem?_range hi]
  rfl

/-- The prediction is the quotient of the two finite sums. -/
theorem predictionSums_fst (s : RttFixedShare K) :
    (predictionSums s).1
      = ∑ i in Finset.range s.m_numExperts.toNat,
          s.m_weights.getD i 0 * s.m_experts.getD i 0 := by
  rw [predictionSums_eq]

/-- On a copy the prediction is the arithmetic mean of the experts. -/
theorem Copy_prediction_mean (L : Libm K) (c : RttFixedShare K) (hN : 0 < c.m_numExperts) :
    (predictionSums (Copy L c)).1 / (predictionSums (Copy L c)).2
      = (∑ i in Finset.range c.m_numExperts.toNat, (Copy L c).m_experts.getD i 0)
          / (c.m_numExperts : K) := by
  have hcN : (Copy L c).m_numExperts = c.m_numExperts := by rw [Copy_eq]
  have hNK : (0 : K) < (c.m_numExperts : K) := Int.cast_pos.mpr hN
  have hcast : ((c.m_numExperts.toNat : Nat) : K) = (c.m_numExperts : K) := by
    have h : ((c.m_numExperts.toNat : Nat) : Int) = c.m_numExperts := Int.toNat_of_nonneg hN.le
    have h' : (((c.m_numExperts.toNat : Nat) : Int) : K) = (c.m_numExperts : K) := by rw [h]
    rw [← h']
    push_cast
    rfl
  have hden : (predictionSums (Copy L c)).2 = 1 := by
    rw [predictionSums_snd, hcN,
      Finset.sum_congr rfl (fun i hi => Copy_weights_getD L c i (Finset.mem_range.mp hi)),
      Finset.sum_const, Finset.card_range, nsmul_eq_mul, hcast]
    field_simp
  have hnum : (predictionSums (Copy L c)).1
      = (∑ i in Finset.range c.m_numExperts.toNat, (Copy L c).m_experts.getD i 0)
          / (c.m_numExperts : K) := by
    rw [predictionSums_fst, hcN, Finset.sum_div]
    apply Finset.sum_congr rfl
    intro i hi
    rw [Copy_weights_getD L c i (Finset.mem_range.mp hi)]
    field_simp
  rw [hden, hnum, div_one]

/-- C17: on the learning path (`m_nSamples = 0`) `Measurement` sets the
estimate to `sum_i (weights[i] * experts[i]) / sum_i (weights[i])`, computed
from the weights held before the call and converted from seconds to a `Time`;
the new estimate is the same for every sample; and on a new estimator with at
least one expert (uniform weights) the value converted is the arithmetic mean
of the experts. -/
theorem prediction_is_weighted_mean (L : Libm K) (T : TimeUnits K) (s c : RttFixedShare K)
    (m m' : Int) (h0 : s.m_nSamples = 0) (hc0 : c.m_nSamples = 0) (hN : 0 < c.m_numExperts) :
    (Measurement L T s m).GetEstimate
      = T.FromDouble
          ((∑ i in Finset.range s.m_numExperts.toNat,
              s.m_weights.getD i 0 * s.m_experts.getD i 0)
            / (∑ i in Finset.range s.m_numExperts.toNat, s.m_weights.getD i 0)) ∧
    (Measurement L T s m).GetEstimate = (Measurement L T s m').GetEstimate ∧
    (Measurement L T (Copy L c) m).GetEstimate
      = T.FromDouble
          ((∑ i in Finset.range c.m_numExperts.toNat, (Copy L c).m_experts.getD i 0)
            / (c.m_numExperts : K)) := by
  have hl := fun x => (Measurement_of_nSamples_eq_zero_learns L T s x h0).1
  have hcopy0 : (Copy L c).m_nSamples = 0 := by rw [Copy_eq]; exact hc0
  refine ⟨?_, ?_, ?_⟩
  · show (Measurement L T s m).m_estimatedRtt = _
    rw [hl m, predictionSums_fst, predictionSums_snd]
  · show (Measurement L T s m).m_estimatedRtt = (Measurement L T s m').m_estimatedRtt
    rw [hl m, hl m']
  · show (Measurement L T (Copy L c) m).m_estimatedRtt = _
    rw [(Measurement_of_nSamples_eq_zero_learns L T (Copy L c) m hcopy0).1,
      Copy_prediction_mean L c hN]

/-- Witness of C17: real arithmetic, two experts, the samples 0.1 s and 0.2 s. -/
theorem prediction_is_weighted_mean_witness :
    (Measurement (⟨Real.exp, fun x y => x ^ y, fun x => |x|⟩ : Libm ℝ) (TimeNS ℝ)
      { toRttEstimator := RttEstimator.ctor 1000000000
        m_numExperts := 2
        m_alpha := 2 / 25
        m_beta := 1 / 4
        m_lr := 2
        m_experts := [1 / 5, 2 / 5]
        m_weights := [1 / 2, 1 / 2]
        m_losses := [0, 0]
        m_estimates := []
        m_actuals := [] } 100000000).GetEstimate
    = (Measurement (⟨Real.exp, fun x y => x ^ y, fun x => |x|⟩ : Libm ℝ) (TimeNS ℝ)
      { toRttEstimator := RttEstimator.ctor 1000000000
        m_numExperts := 2
        m_alpha := 2 / 25
        m_beta := 1 / 4
        m_lr := 2
        m_experts := [1 / 5, 2 / 5]
        m_weights := [1 / 2, 1 / 2]
        m_losses := [0, 0]
        m_estimates := []
        m_actuals := [] } 200000000).GetEstimate :=
  (prediction_is_weighted_mean (⟨Real.exp, fun x y => x ^ y, fun x => |x|⟩ : Libm ℝ) (TimeNS ℝ)
    { toRttEstimator := RttEstimator.ctor 1000000000
      m_numExperts := 2
      m_alpha := 2 / 25
      m_beta := 1 / 4
      m_lr := 2
      m_experts := [1 / 5, 2 / 5]
      m_weights := [1 / 2, 1 / 2]
      m_losses := [0, 0]
      m_estimates := []
      m_actuals := [] }
    { toRttEstimator := RttEstimator.ctor 1000000000
      m_numExperts := 2
      m_alpha := 2 / 25
      m_beta := 1 / 4
      m_lr := 2
      m_experts := []
      m_weights := []
      m_losses := []
      m_estimates := []
      m_actuals := [] }
    100000000 200000000 rfl rfl (by decide)).2.1

/-- C18: on the learning path (`m_nSamples = 0`), with `abs` the absolute
value, `Measurement` sets the variation to
`(1 - beta) * old_variation + beta * |a - old_estimate|` (seconds, converted
to a `Time`), where `a` is the sample and `old_estimate`, `old_variation` are
the estimate and variation held before the call; the estimate itself is
replaced by the weighted prediction. -/
theorem variation_update_formula (L : Libm K) (T : TimeUnits K) (s : RttFixedShare K)
    (m : Int) (h0 : s.m_nSamples = 0) (habs : ∀ x, L.abs x = |x|) :
    (Measurement L T s m).GetVariation
      = T.FromDouble ((1 - s.m_beta) * T.ToDouble s.GetVariation
          + s.m_beta * |T.ToDouble m - T.ToDouble s.GetEstimate|) ∧
    (Measurement L T s m).GetEstimate
      = T.FromDouble ((predictionSums s).1 / (predictionSums s).2) := by
  have hl := Measurement_of_nSamples_eq_zero_learns L T s m h0
  constructor
  · show (Measurement L T s m).m_estimatedVariation = _
    rw [hl.2.1, habs]
    rfl
  · exact hl.1

/-- Witness of C18: real arithmetic at nanosecond resolution, one expert, old
estimate 1 s, old variation 0, sample 0.2 s: the new variation is
`0.25 * |0.2 - 1| = 0.2` s. -/
theorem variation_update_formula_witness :
    (Measurement (⟨Real.exp, fun x y => x ^ y, fun x => |x|⟩ : Libm ℝ) (TimeNS ℝ)
      { toRttEstimator := RttEstimator.ctor 1000000000
        m_numExperts := 1
        m_alpha := 2 / 25
        m_beta := 1 / 4
        m_lr := 2
        m_experts := [2 / 5]
        m_weights := [1]
        m_losses := [0]
        m_estimates := []
        m_actuals := [] } 200000000).GetVariation = 200000000 := by
  rw [(variation_update_formula (⟨Real.exp, fun x y => x ^ y, fun x => |x|⟩ : Libm ℝ)
    (TimeNS ℝ)
    { toRttEstimator := RttEstimator.ctor 1000000000
      m_numExperts := 1
      m_alpha := 2 / 25
      m_beta := 1 / 4
      m_lr := 2
      m_experts := [2 / 5]
      m_weights := [1]
      m_losses := [0]
      m_estimates := []
      m_actuals := [] } 200000000 rfl (fun _ => rfl)).1]
  show ⌊((1 - (1 / 4 : ℝ)) * (((0 : Int) : ℝ) / 1000000000)
    + 1 / 4 * |((200000000 : Int) : ℝ) / 1000000000 - ((1000000000 : Int) : ℝ) / 1000000000|)
    * 1000000000⌋ = 200000000
  norm_num [abs_of_neg]

end Learning

end RttFixedShare

/-! ## Theorems: the sample count of `RttFixedShare` -/

namespace RttFixedShare

section SampleCount

variable {K : Type} [LinearOrderedField K]

/-- The whole state after a `Measurement` on the learning branch
(`m_nSamples = 0`). -/
theorem Measurement_of_nSamples_eq_zero_eq (L : Libm K) (T : TimeUnits K)
    (s : RttFixedShare K) (m : Int) (h : s.m_nSamples = 0) :
    Measurement L T s m =
      { s with
        m_estimatedRtt := T.FromDouble ((predictionSums s).1 / (predictionSums s).2)
        m_estimatedVariation :=
          T.FromDouble ((1 - s.m_beta) * T.ToDouble s.m_estimatedVariation
            + s.m_beta * L.abs (T.ToDouble m - T.ToDouble s.m_estimatedRtt))
        m_losses := newLosses L s (T.ToDouble m)
        m_weights :=
          shareWeights s.m_numExperts.toNat s.m_alpha
            (sharePool s.m_numExperts s.m_alpha
              (expUpdate L s.m_numExperts.toNat s.m_lr (newLosses L s (T.ToDouble m))
                s.m_weights))
            (expUpdate L s.m_numExperts.toNat s.m_lr (newLosses L s (T.ToDouble m))
              s.m_weights)
        m_estimates := s.m_estimates ++ [T.GetMilliSeconds s.m_estimatedRtt]
        m_actuals := s.m_actuals ++ [T.GetMilliSeconds m] } := by
  simp [Measurement, h]

/-- No call changes `m_nSamples`, the parameters or the experts. -/
theorem step_frame (L : Libm K) (T : TimeUnits K) (s : RttFixedShare K)
    (c : RttMeanDeviation.Call) :
    (step L T s c).m_nSamples = s.m_nSamples ∧
    (step L T s c).m_numExperts = s.m_numExperts ∧
    (step L T s c).m_experts = s.m_experts := by
  cases c with
  | measurement m =>
    have hf := Measurement_frame L T s m
    exact ⟨hf.2.2.2.2.2.2, hf.1, hf.2.2.2.2.1⟩
  | reset => exact ⟨rfl, rfl, rfl⟩

/-- Over a sequence of calls `m_nSamples` keeps its value. -/
theorem run_nSamples (L : Libm K) (T : TimeUnits K) (s : RttFixedShare K)
    (cs : List RttMeanDeviation.Call) : (run L T s cs).m_nSamples = s.m_nSamples := by
  induction cs generalizing s with
  | nil => rfl
  | cons c cs ih =>
    show (run L T (step L T s c) cs).m_nSamples = s.m_nSamples
    rw [ih, (step_frame L T s c).1]

/-- From a state with `m_nSamples = 0`, each `Measurement` of a call sequence
appends one diagnostics entry and `Reset` appends none. -/
theorem run_actuals_length (L : Libm K) (T : TimeUnits K) (s : RttFixedShare K)
    (cs : List RttMeanDeviation.Call) (h0 : s.m_nSamples = 0) :
    (run L T s cs).m_actuals.length
      = s.m_actuals.length + RttMeanDeviation.measurementCount cs := by
  induction cs generalizing s with
  | nil => simp [run, RttMeanDeviation.measurementCount]
  | cons c cs ih =>
    show (run L T (step L T s c) cs).m_actuals.length = _
    rw [ih (step L T s c) (by rw [(step_frame L T s c).1, h0])]
    cases c with
    | measurement m =>
      have hl := (Measurement_of_nSamples_eq_zero_learns L T s m h0).2.2.2
      show (Measurement L T s m).m_actuals.length + _ = _
      rw [hl]
      simp [RttMeanDeviation.measurementCount, List.countP_cons,
        RttMeanDeviation.Call.isMeasurement]
      omega
    | reset =>
      show s.m_actuals.length + _ = _
      simp [RttMeanDeviation.measurementCount, List.countP_cons,
        RttMeanDeviation.Call.isMeasurement]

/-- C20: on a default-constructed Fixed-Share estimator, after every finite
sequence of `Measurement` and `Reset` calls `GetNSamples ()` is 0; the next
`Measurement` therefore does not take the reseed branch: it performs the whole
learning update (prediction, losses, exponential update, sharing, variation),
appends one entry to each diagnostics vector and leaves the count at 0. The
diagnostics hold one entry for each `Measurement` made. -/
theorem sample_count_stays_zero (L : Libm K) (T : TimeUnits K) (initial : Int)
    (cs : List RttMeanDeviation.Call) (m : Int) :
    (run L T (ctor L initial) cs).GetNSamples = 0 ∧
    (run L T (ctor L initial) cs).m_actuals.length = RttMeanDeviation.measurementCount cs ∧
    (Measurement L T (run L T (ctor L initial) cs) m).GetNSamples = 0 ∧
    Measurement L T (run L T (ctor L initial) cs) m =
      { run L T (ctor L initial) cs with
        m_estimatedRtt := T.FromDouble ((predictionSums (run L T (ctor L initial) cs)).1
          / (predictionSums (run L T (ctor L initial) cs)).2)
        m_estimatedVariation :=
          T.FromDouble ((1 - (run L T (ctor L initial) cs).m_beta)
              * T.ToDouble (run L T (ctor L initial) cs).m_estimatedVariation
            + (run L T (ctor L initial) cs).m_beta
              * L.abs (T.ToDouble m - T.ToDouble (run L T (ctor L initial) cs).m_estimatedRtt))
        m_losses := newLosses L (run L T (ctor L initial) cs) (T.ToDouble m)
        m_weights :=
          shareWeights (run L T (ctor L initial) cs).m_numExperts.toNat
            (run L T (ctor L initial) cs).m_alpha
            (sharePool (run L T (ctor L initial) cs).m_numExperts
              (run L T (ctor L initial) cs).m_alpha
              (expUpdate L (run L T (ctor L initial) cs).m_numExperts.toNat
                (run L T (ctor L initial) cs).m_lr
                (newLosses L (run L T (ctor L initial) cs) (T.ToDouble m))
                (run L T (ctor L initial) cs).m_weights))
            (expUpdate L (run L T (ctor L initial) cs).m_numExperts.toNat
              (run L T (ctor L initial) cs).m_lr
              (newLosses L (run L T (ctor L initial) cs) (T.ToDouble m))
              (run L T (ctor L initial) cs).m_weights)
        m_estimates := (run L T (ctor L initial) cs).m_estimates
          ++ [T.GetMilliSeconds (run L T (ctor L initial) cs).m_estimatedRtt]
        m_actuals := (run L T (ctor L initial) cs).m_actuals ++ [T.GetMilliSeconds m] } := by
  have hc0 : (ctor L initial).m_nSamples = 0 := by rw [ctor_eq]; rfl
  have hca : (ctor L initial).m_actuals = [] := by rw [ctor_eq]
  have h0 : (run L T (ctor L initial) cs).m_nSamples = 0 := by rw [run_nSamples, hc0]
  refine ⟨h0, ?_, ?_, Measurement_of_nSamples_eq_zero_eq L T _ m h0⟩
  · rw [run_actuals_length L T _ cs hc0, hca]
    simp
  · show (Measurement L T (run L T (ctor L initial) cs) m).m_nSamples = 0
    rw [(Measurement_frame L T _ m).2.2.2.2.2.2, h0]

end SampleCount

end RttFixedShare

/-! ## Theorems: the second `Measurement` of `RttFixedShare` -/

namespace RttFixedShare

section SecondMeasurement

variable {K : Type} [LinearOrderedField K]

end SecondMeasurement

end RttFixedShare

/-! ## Theorems: signs and bounds on the integer path of `RttMeanDeviation` -/

namespace RttMeanDeviation

section IntegerUpdateBounds

variable {K : Type}

/-- `IntegerUpdate` on non-negative tick counts below `2^58`, with shifts of at
most 5 bits: the new estimate lies between the old estimate and the sample,
and the new variation is again non-negative and below `2^58`. -/
theorem IntegerUpdate_bounds (s : RttMeanDeviation K) (m : Int) (r v : Nat)
    (hr : r ≤ 5) (hv : v ≤ 5)
    (he0 : 0 ≤ s.m_estimatedRtt) (he1 : s.m_estimatedRtt < 2 ^ 58)
    (hv0 : 0 ≤ s.m_estimatedVariation) (hv1 : s.m_estimatedVariation < 2 ^ 58)
    (hm0 : 0 ≤ m) (hm1 : m < 2 ^ 58) :
    min s.m_estimatedRtt m ≤ (IntegerUpdate s m r v).m_estimatedRtt ∧
    (IntegerUpdate s m r v).m_estimatedRtt ≤ max s.m_estimatedRtt m ∧
    0 ≤ (IntegerUpdate s m r v).m_estimatedVariation ∧
    (IntegerUpdate s m r v).m_estimatedVariation < 2 ^ 58 := by
  have ha0 := abs_nonneg (m - s.m_estimatedRtt)
  have ha1 : |m - s.m_estimatedRtt| < 2 ^ 58 := by
    rw [abs_lt]; constructor <;> omega
  have hu := IntegerUpdate_of_noOverflow s m r v
    (by unfold InInt64; omega)
    (by unfold InInt64; interval_cases r <;> omega)
    (by unfold InInt64; interval_cases r <;> omega)
    (by unfold InInt64; omega)
    (by unfold InInt64; interval_cases v <;> omega)
    (by unfold InInt64; interval_cases v <;> omega)
  rw [hu.1, hu.2]
  have hmin1 := min_le_left s.m_estimatedRtt m
  have hmin2 := min_le_right s.m_estimatedRtt m
  have hmax1 := le_max_left s.m_estimatedRtt m
  have hmax2 := le_max_right s.m_estimatedRtt m
  refine ⟨?_, ?_, ?_, ?_⟩
  · interval_cases r <;> omega
  · interval_cases r <;> omega
  · interval_cases v <;> omega
  · interval_cases v <;> omega

end IntegerUpdateBounds

section IntegerBounds

variable {K : Type} [LinearOrderedField K]

/-- The check returns a shift of at most 5 bits. -/
theorem CheckForReciprocalPowerOfTwo_le_five (x : K) : CheckForReciprocalPowerOfTwo x ≤ 5 := by
  unfold CheckForReciprocalPowerOfTwo
  split_ifs <;> decide

/-- One call keeps the estimate and the variation non-negative and below
`2^58`, on the integer path, when the initial estimate and the sample are. -/
theorem step_bounds (T : TimeUnits K) (s : RttMeanDeviation K) (c : Call)
    (ha : CheckForReciprocalPowerOfTwo s.m_alpha ≠ 0)
    (hb : CheckForReciprocalPowerOfTwo s.m_beta ≠ 0)
    (hi0 : 0 ≤ s.m_initialEstimatedRtt) (hi1 : s.m_initialEstimatedRtt < 2 ^ 58)
    (he0 : 0 ≤ s.m_estimatedRtt) (he1 : s.m_estimatedRtt < 2 ^ 58)
    (hv0 : 0 ≤ s.m_estimatedVariation) (hv1 : s.m_estimatedVariation < 2 ^ 58)
    (hc : ∀ m, c = Call.measurement m → 0 ≤ m ∧ m < 2 ^ 58) :
    (step T s c).m_alpha = s.m_alpha ∧ (step T s c).m_beta = s.m_beta ∧
    (step T s c).m_initialEstimatedRtt = s.m_initialEstimatedRtt ∧
    0 ≤ (step T s c).m_estimatedRtt ∧ (step T s c).m_estimatedRtt < 2 ^ 58 ∧
    0 ≤ (step T s c).m_estimatedVariation ∧ (step T s c).m_estimatedVariation < 2 ^ 58 := by
  cases c with
  | reset =>
    refine ⟨rfl, rfl, rfl, ?_, ?_, ?_, ?_⟩
    · exact hi0
    · exact hi1
    · show (0 : Int) ≤ 0
      decide
    · show (0 : Int) < 2 ^ 58
      decide
  | measurement m =>
    have hm := hc m rfl
    have hcfg := Measurement_config T s m
    refine ⟨hcfg.1, hcfg.2.1, hcfg.2.2, ?_⟩
    show 0 ≤ (Measurement T s m).m_estimatedRtt ∧ (Measurement T s m).m_estimatedRtt < 2 ^ 58 ∧
      0 ≤ (Measurement T s m).m_estimatedVariation ∧
      (Measurement T s m).m_estimatedVariation < 2 ^ 58
    by_cases hn : s.m_nSamples = 0
    · rw [Measurement_of_nSamples_eq_zero T s m hn]
      have hd := Time.div_two_of_nonneg m hm.1
      refine ⟨hm.1, hm.2, ?_, ?_⟩
      · show 0 ≤ Time.div m 2
        rw [hd]; omega
      · show Time.div m 2 < 2 ^ 58
        rw [hd]; omega
    · rw [Measurement_of_nSamples_ne_zero T s m hn, if_pos ⟨ha, hb⟩]
      have hbd := IntegerUpdate_bounds
        ({ s with
            m_estimates := s.m_estimates ++ [T.GetMilliSeconds s.m_estimatedRtt]
            m_actuals := s.m_actuals ++ [T.GetMilliSeconds m] } : RttMeanDeviation K) m
        (CheckForReciprocalPowerOfTwo s.m_alpha) (CheckForReciprocalPowerOfTwo s.m_beta)
        (CheckForReciprocalPowerOfTwo_le_five _) (CheckForReciprocalPowerOfTwo_le_five _)
        he0 he1 hv0 hv1 hm.1 hm.2
      have hmin := le_min he0 hm.1
      have hmax := max_lt he1 hm.2
      exact ⟨le_trans hmin hbd.1, lt_of_le_of_lt hbd.2.1 hmax, hbd.2.2.1, hbd.2.2.2⟩

/-- Over a sequence of calls whose samples are non-negative and below `2^58`,
on the integer path, the estimate and the variation stay non-negative and
below `2^58` and the configuration stays the same. -/
theorem run_bounds (T : TimeUnits K) (cs : List Call) (s : RttMeanDeviation K)
    (ha : CheckForReciprocalPowerOfTwo s.m_alpha ≠ 0)
    (hb : CheckForReciprocalPowerOfTwo s.m_beta ≠ 0)
    (hi0 : 0 ≤ s.m_initialEstimatedRtt) (hi1 : s.m_initialEstimatedRtt < 2 ^ 58)
    (he0 : 0 ≤ s.m_estimatedRtt) (he1 : s.m_estimatedRtt < 2 ^ 58)
    (hv0 : 0 ≤ s.m_estimatedVariation) (hv1 : s.m_estimatedVariation < 2 ^ 58)
    (hcs : ∀ m, Call.measurement m ∈ cs → 0 ≤ m ∧ m < 2 ^ 58) :
    (run T s cs).m_alpha = s.m_alpha ∧ (run T s cs).m_beta = s.m_beta ∧
    0 ≤ (run T s cs).m_estimatedRtt ∧ (run T s cs).m_estimatedRtt < 2 ^ 58 ∧
    0 ≤ (run T s cs).m_estimatedVariation ∧ (run T s cs).m_estimatedVariation < 2 ^ 58 := by
  induction cs generalizing s with
  | nil => exact ⟨rfl, rfl, he0, he1, hv0, hv1⟩
  | cons c cs ih =>
    have hst := step_bounds T s c ha hb hi0 hi1 he0 he1 hv0 hv1
      (fun m hm => hcs m (by rw [hm]; exact List.mem_cons_self _ _))
    have := ih (step T s c) (by rw [hst.1]; exact ha) (by rw [hst.2.1]; exact hb)
      (by rw [hst.2.2.1]; exact hi0) (by rw [hst.2.2.1]; exact hi1)
      hst.2.2.2.1 hst.2.2.2.2.1 hst.2.2.2.2.2.1 hst.2.2.2.2.2.2
      (fun m hm => hcs m (List.mem_cons_of_mem _ hm))
    rw [hst.1, hst.2.1] at this
    exact this

/-- C22, amended: for a Mean-Deviation estimator on the integer path (both
gains pass the power-of-two check), if the initial estimate and every sample
are non-negative and below `2^58` ticks, then after every sequence of
`Measurement` and `Reset` calls the estimate and the variation, the two values
that `IntegerUpdate` shifts left, are non-negative (and below `2^58`), and a
further `Measurement` that is not a first sample leaves the new estimate
between the previous estimate and the sample. -/
theorem integer_path_nonneg (T : TimeUnits K) (initial : Int) (alpha beta : K)
    (cs : List Call) (m : Int)
    (ha : CheckForReciprocalPowerOfTwo alpha ≠ 0) (hb : CheckForReciprocalPowerOfTwo beta ≠ 0)
    (hi0 : 0 ≤ initial) (hi1 : initial < 2 ^ 58)
    (hcs : ∀ x, Call.measurement x ∈ cs → 0 ≤ x ∧ x < 2 ^ 58)
    (hm0 : 0 ≤ m) (hm1 : m < 2 ^ 58) :
    0 ≤ (run T (ctor initial alpha beta) cs).GetEstimate ∧
    (run T (ctor initial alpha beta) cs).GetEstimate < 2 ^ 58 ∧
    0 ≤ (run T (ctor initial alpha beta) cs).GetVariation ∧
    (run T (ctor initial alpha beta) cs).GetVariation < 2 ^ 58 ∧
    ((run T (ctor initial alpha beta) cs).m_nSamples ≠ 0 →
      min (run T (ctor initial alpha beta) cs).GetEstimate m
        ≤ (Measurement T (run T (ctor initial alpha beta) cs) m).GetEstimate ∧
      (Measurement T (run T (ctor initial alpha beta) cs) m).GetEstimate
        ≤ max (run T (ctor initial alpha beta) cs).GetEstimate m) := by
  have hz : (0 : Int) < 2 ^ 58 := by decide
  have hrun := run_bounds T cs (ctor initial alpha beta) ha hb hi0 hi1 hi0 hi1
    (le_refl 0) hz hcs
  refine ⟨hrun.2.2.1, hrun.2.2.2.1, hrun.2.2.2.2.1, hrun.2.2.2.2.2, ?_⟩
  intro hn
  have ha' : CheckForReciprocalPowerOfTwo (run T (ctor initial alpha beta) cs).m_alpha ≠ 0 := by
    rw [hrun.1]; exact ha
  have hb' : CheckForReciprocalPowerOfTwo (run T (ctor initial alpha beta) cs).m_beta ≠ 0 := by
    rw [hrun.2.1]; exact hb
  have hbd := IntegerUpdate_bounds
    ({ run T (ctor initial alpha beta) cs with
        m_estimates := (run T (ctor initial alpha beta) cs).m_estimates
          ++ [T.GetMilliSeconds (run T (ctor initial alpha beta) cs).m_estimatedRtt]
        m_actuals := (run T (ctor initial alpha beta) cs).m_actuals
          ++ [T.GetMilliSeconds m] } : RttMeanDeviation K) m
    (CheckForReciprocalPowerOfTwo (run T (ctor initial alpha beta) cs).m_alpha)
    (CheckForReciprocalPowerOfTwo (run T (ctor initial alpha beta) cs).m_beta)
    (CheckForReciprocalPowerOfTwo_le_five _) (CheckForReciprocalPowerOfTwo_le_five _)
    hrun.2.2.1 hrun.2.2.2.1 hrun.2.2.2.2.1 hrun.2.2.2.2.2 hm0 hm1
  rw [Measurement_of_nSamples_ne_zero T _ m hn, if_pos ⟨ha', hb'⟩]
  exact ⟨hbd.1, hbd.2.1⟩

/-- Witness of C22, amended: gains `1/8` and `1/4`, initial estimate 1 s, the
calls `Measurement (0.1 s)`, `Reset`, `Measurement (0.2 s)`, and a further
sample of 0.3 s. -/
theorem integer_path_nonneg_witness :
    CheckForReciprocalPowerOfTwo (1 / 8 : ℚ) ≠ 0 ∧ CheckForReciprocalPowerOfTwo (1 / 4 : ℚ) ≠ 0 ∧
    0 ≤ (run (TimeNS ℚ) (ctor 1000000000 (1 / 8) (1 / 4))
      [Call.measurement 100000000, Call.reset, Call.measurement 200000000]).GetEstimate ∧
    0 ≤ (run (TimeNS ℚ) (ctor 1000000000 (1 / 8) (1 / 4))
      [Call.measurement 100000000, Call.reset, Call.measurement 200000000]).GetVariation :=
  ⟨by rw [CheckForReciprocalPowerOfTwo_eighth]; decide,
    by rw [CheckForReciprocalPowerOfTwo_quarter]; decide,
    (integer_path_nonneg (TimeNS ℚ) 1000000000 (1 / 8) (1 / 4)
      [Call.measurement 100000000, Call.reset, Call.measurement 200000000] 300000000
      (by rw [CheckForReciprocalPowerOfTwo_eighth]; decide)
      (by rw [CheckForReciprocalPowerOfTwo_quarter]; decide)
      (by decide) (by decide)
      (by
        intro x hx
        simp only [List.mem_cons, Call.measurement.injEq, List.mem_singleton,
          reduceCtorEq, false_or, List.not_mem_nil, or_false] at hx
        rcases hx with h | h <;> rw [h] <;> decide)
      (by decide) (by decide)).1,
    (integer_path_nonneg (TimeNS ℚ) 1000000000 (1 / 8) (1 / 4)
      [Call.measurement 100000000, Call.reset, Call.measurement 200000000] 300000000
      (by rw [CheckForReciprocalPowerOfTwo_eighth]; decide)
      (by rw [CheckForReciprocalPowerOfTwo_quarter]; decide)
      (by decide) (by decide)
      (by
        intro x hx
        simp only [List.mem_cons, Call.measurement.injEq, List.mem_singleton,
          reduceCtorEq, false_or, List.not_mem_nil, or_false] at hx
        rcases hx with h | h <;> rw [h] <;> decide)
      (by decide) (by decide)).2.2.1⟩

/-- Counterexample to C22: gains `1/8` and `1/4` (the integer path), initial
estimate 1 s, and the non-negative sample `2^60 + 2^59` ticks fed twice. The
second call shifts the estimate left by 3 bits, out of the `int64_t` range:
the new estimate is `-2^59`, negative and below both the previous estimate and
the sample. -/
theorem integer_path_nonneg_counterexample :
    (run (TimeNS ℚ) (ctor 1000000000 (1 / 8) (1 / 4))
      [Call.measurement (2 ^ 60 + 2 ^ 59)]).GetEstimate = 2 ^ 60 + 2 ^ 59 ∧
    (run (TimeNS ℚ) (ctor 1000000000 (1 / 8) (1 / 4))
      [Call.measurement (2 ^ 60 + 2 ^ 59), Call.measurement (2 ^ 60 + 2 ^ 59)]).GetEstimate
      = -2 ^ 59 := by
  have h1 := Measurement_of_nSamples_eq_zero (TimeNS ℚ)
    (ctor 1000000000 (1 / 8) (1 / 4)) (2 ^ 60 + 2 ^ 59) rfl
  have ha := CheckForReciprocalPowerOfTwo_eighth (K := ℚ)
  have hb := CheckForReciprocalPowerOfTwo_quarter (K := ℚ)
  constructor
  · show (Measurement (TimeNS ℚ) (ctor 1000000000 (1 / 8) (1 / 4))
      (2 ^ 60 + 2 ^ 59)).m_estimatedRtt = 2 ^ 60 + 2 ^ 59
    rw [h1]
  · show (Measurement (TimeNS ℚ) (Measurement (TimeNS ℚ) (ctor 1000000000 (1 / 8) (1 / 4))
      (2 ^ 60 + 2 ^ 59)) (2 ^ 60 + 2 ^ 59)).m_estimatedRtt = -2 ^ 59
    rw [h1]
    simp only [Measurement, ctor, RttEstimator.ctor, ha, hb]
    decide

end IntegerBounds

end RttMeanDeviation

/-! ## Theorems: the total weight of `RttFixedShare` -/

namespace RttFixedShare

section TotalWeight

variable {K : Type} [LinearOrderedField K]

/-- The number of loop iterations, as a field element, is the number of
experts when that is positive. -/
theorem toNat_cast_of_pos (N : Int) (hN : 0 < N) : ((N.toNat : Nat) : K) = (N : K) := by
  have h : ((N.toNat : Nat) : Int) = N := Int.toNat_of_nonneg hN.le
  have h2 : (((N.toNat : Nat) : Int) : K) = (N : K) := by rw [h]
  rw [← h2]
  push_cast
  rfl

/-- The sharing step conserves the total of the first `N` weights. -/
theorem shareWeights_total (N : Int) (alpha : K) (w : List K) (hN : 0 < N)
    (hlen : N.toNat ≤ w.length) :
    ∑ i in Finset.range N.toNat, (shareWeights N.toNat alpha (sharePool N alpha w) w).getD i 0
      = ∑ i in Finset.range N.toNat, w.getD i 0 := by
  have hNK : (N : K) ≠ 0 := ne_of_gt (Int.cast_pos.mpr hN)
  have hterm : ∀ i ∈ Finset.range N.toNat,
      (shareWeights N.toNat alpha (sharePool N alpha w) w).getD i 0
        = (1 - alpha) * w.getD i 0 + sharePool N alpha w := by
    intro i hi
    have hi' := Finset.mem_range.mp hi
    rw [shareWeights_getD, if_pos ⟨hi', lt_of_lt_of_le hi' hlen⟩]
  rw [Finset.sum_congr rfl hterm, Finset.sum_add_distrib, ← Finset.mul_sum, Finset.sum_const,
    Finset.card_range, nsmul_eq_mul, toNat_cast_of_pos N hN, sharePool_eq, ← Finset.mul_sum]
  field_simp
  ring

/-- The total of the first `m_numExperts` weights after a learning
`Measurement` is their total right after the exponential update. -/
theorem Measurement_total_eq (L : Libm K) (T : TimeUnits K) (s : RttFixedShare K) (m : Int)
    (h0 : s.m_nSamples = 0) (hwf : WellFormed s) (hN : 0 < s.m_numExperts) :
    (predictionSums (Measurement L T s m)).2
      = ∑ i in Finset.range s.m_numExperts.toNat,
          (expUpdate L s.m_numExperts.toNat s.m_lr (newLosses L s (T.ToDouble m))
            s.m_weights).getD i 0 := by
  rw [predictionSums_snd, (Measurement_frame L T s m).1, Measurement_weights,
    if_neg (by omega)]
  exact shareWeights_total s.m_numExperts s.m_alpha _ hN
    (by rw [expUpdate_length]; exact hwf.2.1)

/-- With non-negative weights, a non-negative learning rate, a non-negative
sample, `exp x ≤ 1` for `x ≤ 0` and `pow (x, 2) ≥ 0`, a learning `Measurement`
does not increase the total weight. -/
theorem Measurement_total_le (L : Libm K) (T : TimeUnits K) (s : RttFixedShare K) (m : Int)
    (h0 : s.m_nSamples = 0) (hwf : WellFormed s) (hN : 0 < s.m_numExperts)
    (hw : ∀ i, i < s.m_numExperts.toNat → 0 ≤ s.m_weights.getD i 0)
    (hlr : 0 ≤ s.m_lr) (ha : 0 ≤ T.ToDouble m)
    (hexp : ∀ x, x ≤ 0 → L.exp x ≤ 1) (hpow : ∀ x, 0 ≤ L.pow x 2) :
    (predictionSums (Measurement L T s m)).2 ≤ (predictionSums s).2 := by
  rw [Measurement_total_eq L T s m h0 hwf hN, predictionSums_snd]
  apply Finset.sum_le_sum
  intro i hi
  have hi' := Finset.mem_range.mp hi
  rw [expUpdate_getD, if_pos ⟨hi', lt_of_lt_of_le hi' hwf.2.1⟩, newLosses_getD,
    if_pos ⟨hi', lt_of_lt_of_le hi' hwf.2.2⟩]
  have hloss : 0 ≤ (if s.m_experts.getD i 0 ≥ T.ToDouble m
      then L.pow (s.m_experts.getD i 0 - T.ToDouble m) 2 else 2 * T.ToDouble m) := by
    by_cases hc : s.m_experts.getD i 0 ≥ T.ToDouble m
    · rw [if_pos hc]; exact hpow _
    · rw [if_neg hc]; linarith
  have hE := hexp (-s.m_lr * (if s.m_experts.getD i 0 ≥ T.ToDouble m
      then L.pow (s.m_experts.getD i 0 - T.ToDouble m) 2 else 2 * T.ToDouble m))
    (by
      have := mul_nonneg hlr hloss
      linarith)
  calc s.m_weights.getD i 0 * L.exp (-s.m_lr * (if s.m_experts.getD i 0 ≥ T.ToDouble m
          then L.pow (s.m_experts.getD i 0 - T.ToDouble m) 2 else 2 * T.ToDouble m))
      ≤ s.m_weights.getD i 0 * 1 := mul_le_mul_of_nonneg_left hE (hw i hi')
    _ = s.m_weights.getD i 0 := mul_one _

/-- Over a sequence of `Measurement` calls the parameters, the count and
well-formedness are kept. -/
theorem foldl_Measurement_frame (L : Libm K) (T : TimeUnits K) (ms : List Int)
    (s : RttFixedShare K) (hwf : WellFormed s) :
    (ms.foldl (Measurement L T) s).m_numExperts = s.m_numExperts ∧
    (ms.foldl (Measurement L T) s).m_alpha = s.m_alpha ∧
    (ms.foldl (Measurement L T) s).m_lr = s.m_lr ∧
    (ms.foldl (Measurement L T) s).m_nSamples = s.m_nSamples ∧
    (ms.foldl (Measurement L T) s).m_experts = s.m_experts ∧
    WellFormed (ms.foldl (Measurement L T) s) := by
  induction ms generalizing s with
  | nil => exact ⟨rfl, rfl, rfl, rfl, rfl, hwf⟩
  | cons m ms ih =>
    have hf := Measurement_frame L T s m
    have := ih (Measurement L T s m) (Measurement_wellFormed L T s m hwf)
    show (ms.foldl (Measurement L T) (Measurement L T s m)).m_numExperts = s.m_numExperts ∧ _
    rw [hf.1, hf.2.1, hf.2.2.2.1, hf.2.2.2.2.2.2, hf.2.2.2.2.1] at this
    exact this

/-- C21: the sharing step conserves the total weight: for `N > 0` and any
`alpha`, the sum of the `N` weights after sharing is their sum right after the
exponential update. Hence, on a new estimator (`alpha` in `[0, 1]`,
non-negative learning rate, `exp` positive and at most 1 on non-positive
arguments, `pow (x, 2) ≥ 0`), after any sequence of `Measurement` calls a
further learning `Measurement` of a non-negative sample leaves a total weight
that is the total right after its exponential update and is at most the total
before the call. -/
theorem total_weight_nonincreasing (L : Libm K) (T : TimeUnits K) (c : RttFixedShare K)
    (ms : List Int) (m : Int)
    (hc0 : c.m_nSamples = 0) (hN : 0 < c.m_numExperts)
    (ha0 : 0 ≤ c.m_alpha) (ha1 : c.m_alpha ≤ 1) (hlr : 0 ≤ c.m_lr)
    (hm : 0 ≤ T.ToDouble m)
    (hexp0 : ∀ x, 0 < L.exp x) (hexp1 : ∀ x, x ≤ 0 → L.exp x ≤ 1)
    (hpow : ∀ x, 0 ≤ L.pow x 2) :
    (∀ (N : Int) (alpha : K) (w : List K), 0 < N → N.toNat ≤ w.length →
      ∑ i in Finset.range N.toNat,
          (shareWeights N.toNat alpha (sharePool N alpha w) w).getD i 0
        = ∑ i in Finset.range N.toNat, w.getD i 0) ∧
    (predictionSums (Measurement L T (ms.foldl (Measurement L T) (Copy L c)) m)).2
      = ∑ i in Finset.range c.m_numExperts.toNat,
          (expUpdate L c.m_numExperts.toNat c.m_lr
            (newLosses L (ms.foldl (Measurement L T) (Copy L c)) (T.ToDouble m))
            (ms.foldl (Measurement L T) (Copy L c)).m_weights).getD i 0 ∧
    (predictionSums (Measurement L T (ms.foldl (Measurement L T) (Copy L c)) m)).2
      ≤ (predictionSums (ms.foldl (Measurement L T) (Copy L c))).2 := by
  have hcopy := Copy_eq L c
  have hcN : (Copy L c).m_numExperts = c.m_numExperts := by rw [hcopy]
  have hcA : (Copy L c).m_alpha = c.m_alpha := by rw [hcopy]
  have hcL : (Copy L c).m_lr = c.m_lr := by rw [hcopy]
  have hcS : (Copy L c).m_nSamples = 0 := by rw [hcopy]; exact hc0
  have hfr := foldl_Measurement_frame L T ms (Copy L c) (Copy_wellFormed L c)
  rw [hcN, hcA, hcL, hcS] at hfr
  have hNK : (0 : K) < (c.m_numExperts : K) := Int.cast_pos.mpr hN
  have hpos := foldl_Measurement_weights_pos L T hexp0 ms (Copy L c)
    (by rw [hcN]; exact hN) (by rw [hcA]; exact ha0) (by rw [hcA]; exact ha1)
    (by
      intro i hi
      rw [hcN] at hi
      rw [Copy_weights_getD L c i hi]
      exact one_div_pos.mpr hNK)
  rw [hcN] at hpos
  have hN' : 0 < (ms.foldl (Measurement L T) (Copy L c)).m_numExperts := by
    rw [hfr.1]; exact hN
  refine ⟨fun N alpha w hN0 hlen => shareWeights_total N alpha w hN0 hlen, ?_, ?_⟩
  · rw [Measurement_total_eq L T _ m hfr.2.2.2.1 hfr.2.2.2.2.2 hN', hfr.1, hfr.2.2.1]
  · exact Measurement_total_le L T _ m hfr.2.2.2.1 hfr.2.2.2.2.2 hN'
      (by
        intro i hi
        rw [hfr.1] at hi
        exact (hpos.2 i hi).le)
      (by rw [hfr.2.2.1]; exact hlr) hm hexp1 hpow

/-- Witness of C21: real arithmetic at nanosecond resolution, two experts,
`alpha = 0.08`, learning rate 2, after the sample 0.1 s a further 0.12 s. -/
theorem total_weight_nonincreasing_witness :
    (predictionSums (Measurement (⟨Real.exp, fun x y => x ^ y, fun x => |x|⟩ : Libm ℝ)
      (TimeNS ℝ)
      (List.foldl (Measurement (⟨Real.exp, fun x y => x ^ y, fun x => |x|⟩ : Libm ℝ) (TimeNS ℝ))
        (Copy (⟨Real.exp, fun x y => x ^ y, fun x => |x|⟩ : Libm ℝ)
          { toRttEstimator := RttEstimator.ctor 1000000000
            m_numExperts := 2
            m_alpha := 2 / 25
            m_beta := 1 / 4
            m_lr := 2
            m_experts := []
            m_weights := []
            m_losses := []
            m_estimates := []
            m_actuals := [] })
        [100000000])
      120000000)).2
    ≤ (predictionSums
      (List.foldl (Measurement (⟨Real.exp, fun x y => x ^ y, fun x => |x|⟩ : Libm ℝ) (TimeNS ℝ))
        (Copy (⟨Real.exp, fun x y => x ^ y, fun x => |x|⟩ : Libm ℝ)
          { toRttEstimator := RttEstimator.ctor 1000000000
            m_numExperts := 2
            m_alpha := 2 / 25
            m_beta := 1 / 4
            m_lr := 2
            m_experts := []
            m_weights := []
            m_losses := []
            m_estimates := []
            m_actuals := [] })
        [100000000])).2 :=
  (total_weight_nonincreasing (⟨Real.exp, fun x y => x ^ y, fun x => |x|⟩ : Libm ℝ) (TimeNS ℝ)
    { toRttEstimator := RttEstimator.ctor 1000000000
      m_numExperts := 2
      m_alpha := 2 / 25
      m_beta := 1 / 4
      m_lr := 2
      m_experts := []
      m_weights := []
      m_losses := []
      m_estimates := []
      m_actuals := [] }
    [100000000] 120000000 rfl (by decide) (by norm_num) (by norm_num) (by norm_num)
    (by show (0 : ℝ) ≤ ((120000000 : Int) : ℝ) / 1000000000; norm_num)
    (fun x => Real.exp_pos x) (fun x hx => Real.exp_le_one_iff.mpr hx)
    (fun x => by
      show (0 : ℝ) ≤ x ^ (2 : ℝ)
      rw [Real.rpow_two]
      exact sq_nonneg x)).2.2

end TotalWeight

end RttFixedShare

/-! ## Theorems: the expert that matches a constant stream -/

namespace RttFixedShare

section BestExpert

variable {K : Type} [LinearOrderedField K]

/-- One learning `Measurement` of a sample equal to expert `k`: when expert `k`
holds a weight at least as large as every other before the call, it does so
after the call; and strictly larger than that of every expert with a different
value when `alpha < 1`, the learning rate is positive and the sample is
positive. -/
theorem learning_step_dominance (L : Libm K) (T : TimeUnits K) (s : RttFixedShare K) (m : Int)
    (k : Nat) (hL : L.Exact) (h0 : s.m_nSamples = 0) (hwf : WellFormed s)
    (ha1 : s.m_alpha ≤ 1) (hlr : 0 ≤ s.m_lr)
    (hk : k < s.m_numExperts.toNat) (hek : s.m_experts.getD k 0 = T.ToDouble m)
    (ha : 0 ≤ T.ToDouble m)
    (hpos : ∀ i, i < s.m_numExperts.toNat → 0 < s.m_weights.getD i 0)
    (hdom : ∀ i, i < s.m_numExperts.toNat → s.m_weights.getD i 0 ≤ s.m_weights.getD k 0) :
    (∀ i, i < s.m_numExperts.toNat →
      (Measurement L T s m).m_weights.getD i 0 ≤ (Measurement L T s m).m_weights.getD k 0) ∧
    (s.m_alpha < 1 → 0 < s.m_lr → 0 < T.ToDouble m →
      ∀ i, i < s.m_numExperts.toNat → s.m_experts.getD i 0 ≠ T.ToDouble m →
      (Measurement L T s m).m_weights.getD i 0 < (Measurement L T s m).m_weights.getD k 0) := by
  have hEk : L.exp (-s.m_lr * (if s.m_experts.getD k 0 ≥ T.ToDouble m
      then L.pow (s.m_experts.getD k 0 - T.ToDouble m) 2 else 2 * T.ToDouble m)) = 1 := by
    rw [hek, if_pos (le_refl _), sub_self, hL.pow_sq]
    have hz : -s.m_lr * (0 : K) ^ 2 = 0 := by ring
    rw [hz, hL.exp_zero]
  have hloss : ∀ i, 0 ≤ (if s.m_experts.getD i 0 ≥ T.ToDouble m
      then L.pow (s.m_experts.getD i 0 - T.ToDouble m) 2 else 2 * T.ToDouble m) := by
    intro i
    by_cases hc : s.m_experts.getD i 0 ≥ T.ToDouble m
    · rw [if_pos hc, hL.pow_sq]; exact sq_nonneg _
    · rw [if_neg hc]; linarith
  have hexp_le : ∀ x : K, x ≤ 0 → L.exp x ≤ 1 := by
    intro x hx
    rcases lt_or_eq_of_le hx with h | h
    · exact (hL.exp_lt_one x h).le
    · rw [h, hL.exp_zero]
  have hE : ∀ i, L.exp (-s.m_lr * (if s.m_experts.getD i 0 ≥ T.ToDouble m
      then L.pow (s.m_experts.getD i 0 - T.ToDouble m) 2 else 2 * T.ToDouble m)) ≤ 1 := by
    intro i
    apply hexp_le
    have := mul_nonneg hlr (hloss i)
    linarith
  constructor
  · intro i hi
    rw [Measurement_learning_weights L T s m h0 hwf i hi,
      Measurement_learning_weights L T s m h0 hwf k hk, hEk, mul_one]
    have h1 : s.m_weights.getD i 0 * L.exp (-s.m_lr * (if s.m_experts.getD i 0 ≥ T.ToDouble m
        then L.pow (s.m_experts.getD i 0 - T.ToDouble m) 2 else 2 * T.ToDouble m))
        ≤ s.m_weights.getD k 0 :=
      calc s.m_weights.getD i 0 * L.exp (-s.m_lr * (if s.m_experts.getD i 0 ≥ T.ToDouble m
            then L.pow (s.m_experts.getD i 0 - T.ToDouble m) 2 else 2 * T.ToDouble m))
          ≤ s.m_weights.getD i 0 * 1 := mul_le_mul_of_nonneg_left (hE i) (hpos i hi).le
        _ = s.m_weights.getD i 0 := mul_one _
        _ ≤ s.m_weights.getD k 0 := hdom i hi
    have h2 := mul_le_mul_of_nonneg_left h1 (sub_nonneg.mpr ha1)
    linarith
  · intro hlt hlrpos hapos i hi hne
    rw [Measurement_learning_weights L T s m h0 hwf i hi,
      Measurement_learning_weights L T s m h0 hwf k hk, hEk, mul_one]
    have hlosspos : 0 < (if s.m_experts.getD i 0 ≥ T.ToDouble m
        then L.pow (s.m_experts.getD i 0 - T.ToDouble m) 2 else 2 * T.ToDouble m) := by
      by_cases hc : s.m_experts.getD i 0 ≥ T.ToDouble m
      · rw [if_pos hc, hL.pow_sq]
        exact lt_of_le_of_ne (sq_nonneg _) (Ne.symm (pow_ne_zero 2 (sub_ne_zero.mpr hne)))
      · rw [if_neg hc]; linarith
    have hElt : L.exp (-s.m_lr * (if s.m_experts.getD i 0 ≥ T.ToDouble m
        then L.pow (s.m_experts.getD i 0 - T.ToDouble m) 2 else 2 * T.ToDouble m)) < 1 := by
      apply hL.exp_lt_one
      have := mul_pos hlrpos hlosspos
      linarith
    have h1 : s.m_weights.getD i 0 * L.exp (-s.m_lr * (if s.m_experts.getD i 0 ≥ T.ToDouble m
        then L.pow (s.m_experts.getD i 0 - T.ToDouble m) 2 else 2 * T.ToDouble m))
        < s.m_weights.getD k 0 :=
      calc s.m_weights.getD i 0 * L.exp (-s.m_lr * (if s.m_experts.getD i 0 ≥ T.ToDouble m
            then L.pow (s.m_experts.getD i 0 - T.ToDouble m) 2 else 2 * T.ToDouble m))
          < s.m_weights.getD i 0 * 1 := mul_lt_mul_of_pos_left hElt (hpos i hi)
        _ = s.m_weights.getD i 0 := mul_one _
        _ ≤ s.m_weights.getD k 0 := hdom i hi
    have h2 := mul_lt_mul_of_pos_left h1 (sub_pos.mpr hlt)
    linarith

/-- The states of a constant stream on a new estimator: the count stays 0, the
state stays well-formed, the parameters and the experts are those of the new
estimator, and the weights stay positive. -/
theorem constant_stream_state (L : Libm K) (T : TimeUnits K) (c : RttFixedShare K) (m : Int)
    (n : Nat) (hL : L.Exact) (hc0 : c.m_nSamples = 0) (hN : 0 < c.m_numExperts)
    (ha0 : 0 ≤ c.m_alpha) (ha1 : c.m_alpha ≤ 1) :
    ((List.replicate n m).foldl (Measurement L T) (Copy L c)).m_nSamples = 0 ∧
    WellFormed ((List.replicate n m).foldl (Measurement L T) (Copy L c)) ∧
    ((List.replicate n m).foldl (Measurement L T) (Copy L c)).m_numExperts = c.m_numExperts ∧
    ((List.replicate n m).foldl (Measurement L T) (Copy L c)).m_alpha = c.m_alpha ∧
    ((List.replicate n m).foldl (Measurement L T) (Copy L c)).m_lr = c.m_lr ∧
    ((List.replicate n m).foldl (Measurement L T) (Copy L c)).m_experts
      = (Copy L c).m_experts ∧
    (∀ i, i < c.m_numExperts.toNat →
      0 < ((List.replicate n m).foldl (Measurement L T) (Copy L c)).m_weights.getD i 0) := by
  have hcopy := Copy_eq L c
  have hcN : (Copy L c).m_numExperts = c.m_numExperts := by rw [hcopy]
  have hcA : (Copy L c).m_alpha = c.m_alpha := by rw [hcopy]
  have hcL : (Copy L c).m_lr = c.m_lr := by rw [hcopy]
  have hcS : (Copy L c).m_nSamples = 0 := by rw [hcopy]; exact hc0
  have hNK : (0 : K) < (c.m_numExperts : K) := Int.cast_pos.mpr hN
  have hfr := foldl_Measurement_frame L T (List.replicate n m) (Copy L c) (Copy_wellFormed L c)
  have hpos := foldl_Measurement_weights_pos L T hL.exp_pos (List.replicate n m) (Copy L c)
    (by rw [hcN]; exact hN) (by rw [hcA]; exact ha0) (by rw [hcA]; exact ha1)
    (by
      intro i hi
      rw [hcN] at hi
      rw [Copy_weights_getD L c i hi]
      exact one_div_pos.mpr hNK)
  rw [hcN] at hpos
  rw [hcN, hcA, hcL, hcS] at hfr
  exact ⟨hfr.2.2.2.1, hfr.2.2.2.2.2, hfr.1, hfr.2.1, hfr.2.2.1, hfr.2.2.2.2.1, hpos.2⟩

/-- The experts of a new estimator are positive and pairwise different. -/
theorem Copy_experts_pos_injective (L : Libm K) (c : RttFixedShare K) (hL : L.Exact)
    (i k : Nat) (hi : i < c.m_numExperts.toNat) (hk : k < c.m_numExperts.toNat) :
    0 < (Copy L c).m_experts.getD k 0 ∧
    (i ≠ k → (Copy L c).m_experts.getD i 0 ≠ (Copy L c).m_experts.getD k 0) := by
  rw [Copy_experts_getD L c i hi, Copy_experts_getD L c k hk]
  constructor
  · have := hL.pow_two_pos (((((k : Int) + 1 - c.m_numExperts : Int)) : K) / 4)
    linarith
  · intro hne
    have hlt : ∀ a b : Nat, a < b →
        (0 : K) + 2 / 5 * L.pow 2 (((((a : Int) + 1 - c.m_numExperts : Int)) : K) / 4)
          < 0 + 2 / 5 * L.pow 2 (((((b : Int) + 1 - c.m_numExperts : Int)) : K) / 4) := by
      intro a b hab
      have h1 : ((a : Int) + 1 - c.m_numExperts : Int) < ((b : Int) + 1 - c.m_numExperts : Int) := by
        omega
      have h2 : ((((a : Int) + 1 - c.m_numExperts : Int)) : K)
          < ((((b : Int) + 1 - c.m_numExperts : Int)) : K) := by exact_mod_cast h1
      have h3 := hL.pow_two_lt (((((a : Int) + 1 - c.m_numExperts : Int)) : K) / 4)
        (((((b : Int) + 1 - c.m_numExperts : Int)) : K) / 4) (by linarith)
      linarith
    rcases Nat.lt_or_gt_of_ne hne with h | h
    · exact ne_of_lt (hlt i k h)
    · exact ne_of_gt (hlt k i h)

/-- On a constant stream equal to expert `k`, after any number of calls expert
`k` holds a weight at least as large as every other. -/
theorem constant_stream_dominance (L : Libm K) (T : TimeUnits K) (c : RttFixedShare K)
    (m : Int) (k n : Nat) (hL : L.Exact) (hc0 : c.m_nSamples = 0) (hN : 0 < c.m_numExperts)
    (ha0 : 0 ≤ c.m_alpha) (ha1 : c.m_alpha ≤ 1) (hlr : 0 ≤ c.m_lr)
    (hk : k < c.m_numExperts.toNat) (hm : T.ToDouble m = (Copy L c).m_experts.getD k 0) :
    ∀ i, i < c.m_numExperts.toNat →
      ((List.replicate n m).foldl (Measurement L T) (Copy L c)).m_weights.getD i 0
        ≤ ((List.replicate n m).foldl (Measurement L T) (Copy L c)).m_weights.getD k 0 := by
  induction n with
  | zero =>
    intro i hi
    show (Copy L c).m_weights.getD i 0 ≤ (Copy L c).m_weights.getD k 0
    rw [Copy_weights_getD L c i hi, Copy_weights_getD L c k hk]
  | succ j ih =>
    have hst := constant_stream_state L T c m j hL hc0 hN ha0 ha1
    have hapos := (Copy_experts_pos_injective L c hL k k hk hk).1
    rw [RttMeanDeviation.foldl_replicate_succ]
    have hstep := (learning_step_dominance L T
      ((List.replicate j m).foldl (Measurement L T) (Copy L c)) m k hL hst.1 hst.2.1
      (by rw [hst.2.2.2.1]; exact ha1) (by rw [hst.2.2.2.2.1]; exact hlr)
      (by rw [hst.2.2.1]; exact hk) (by rw [hst.2.2.2.2.2.1, hm])
      (by rw [hm]; exact hapos.le)
      (by rw [hst.2.2.1]; exact hst.2.2.2.2.2.2)
      (by rw [hst.2.2.1]; exact ih)).1
    rw [hst.2.2.1] at hstep
    exact hstep

/-- C19: on a new estimator (`alpha` in `[0, 1]`, positive learning rate, at
least one expert, exact `exp` and `pow`), for a constant stream whose value is
exactly expert `k`, after every number `n ≥ 1` of `Measurement` calls (each a
learning update) the weight of expert `k` is at least the weight of every
other expert, and strictly greater when `alpha < 1`. -/
theorem best_expert_keeps_highest_weight (L : Libm K) (T : TimeUnits K) (c : RttFixedShare K)
    (m : Int) (k n : Nat) (hL : L.Exact) (hc0 : c.m_nSamples = 0) (hN : 0 < c.m_numExperts)
    (ha0 : 0 ≤ c.m_alpha) (ha1 : c.m_alpha ≤ 1) (hlr : 0 < c.m_lr)
    (hk : k < c.m_numExperts.toNat) (hm : T.ToDouble m = (Copy L c).m_experts.getD k 0)
    (hn : 1 ≤ n) :
    (∀ i, i < c.m_numExperts.toNat →
      ((List.replicate n m).foldl (Measurement L T) (Copy L c)).m_weights.getD i 0
        ≤ ((List.replicate n m).foldl (Measurement L T) (Copy L c)).m_weights.getD k 0) ∧
    (c.m_alpha < 1 → ∀ i, i < c.m_numExperts.toNat → i ≠ k →
      ((List.replicate n m).foldl (Measurement L T) (Copy L c)).m_weights.getD i 0
        < ((List.replicate n m).foldl (Measurement L T) (Copy L c)).m_weights.getD k 0) := by
  refine ⟨constant_stream_dominance L T c m k n hL hc0 hN ha0 ha1 hlr.le hk hm, ?_⟩
  intro hlt i hi hne
  obtain ⟨j, rfl⟩ : ∃ j, n = j + 1 := ⟨n - 1, by omega⟩
  have hst := constant_stream_state L T c m j hL hc0 hN ha0 ha1
  have hdom := constant_stream_dominance L T c m k j hL hc0 hN ha0 ha1 hlr.le hk hm
  have hexp := Copy_experts_pos_injective L c hL i k hi hk
  rw [RttMeanDeviation.foldl_replicate_succ]
  exact (learning_step_dominance L T
    ((List.replicate j m).foldl (Measurement L T) (Copy L c)) m k hL hst.1 hst.2.1
    (by rw [hst.2.2.2.1]; exact ha1) (by rw [hst.2.2.2.2.1]; exact hlr.le)
    (by rw [hst.2.2.1]; exact hk) (by rw [hst.2.2.2.2.2.1, hm])
    (by rw [hm]; exact hexp.1.le)
    (by rw [hst.2.2.1]; exact hst.2.2.2.2.2.2)
    (by rw [hst.2.2.1]; exact hdom)).2
    (by rw [hst.2.2.2.1]; exact hlt) (by rw [hst.2.2.2.2.1]; exact hlr)
    (by rw [hm]; exact hexp.1) i (by rw [hst.2.2.1]; exact hi)
    (by rw [hst.2.2.2.2.2.1, hm]; exact hexp.2 hne)

/-- The real exponential, the real power and the absolute value are exact. -/
theorem real_libm_exact :
    Libm.Exact (⟨Real.exp, fun x y => x ^ y, fun x => |x|⟩ : Libm ℝ) where
  exp_pos := fun x => Real.exp_pos x
  exp_zero := Real.exp_zero
  exp_lt_one := fun _ hx => Real.exp_lt_one_iff.mpr hx
  pow_sq := fun x => Real.rpow_two x
  pow_two_pos := fun y => Real.rpow_pos_of_pos (by norm_num) y
  pow_two_lt := fun _ _ h => Real.rpow_lt_rpow_of_exponent_lt (by norm_num) h
  abs_eq := fun _ => rfl

/-- Witness of C19: real arithmetic at nanosecond resolution, two experts
(0.4 * 2^(-1/4) s and 0.4 s), `alpha = 0.08`, learning rate 2, and the sample
0.4 s, the value of expert 1, fed three times: expert 1 then holds strictly
more weight than expert 0. -/
theorem best_expert_keeps_highest_weight_witness :
    ((List.replicate 3 400000000).foldl
      (Measurement (⟨Real.exp, fun x y => x ^ y, fun x => |x|⟩ : Libm ℝ) (TimeNS ℝ))
      (Copy (⟨Real.exp, fun x y => x ^ y, fun x => |x|⟩ : Libm ℝ)
        { toRttEstimator := RttEstimator.ctor 1000000000
          m_numExperts := 2
          m_alpha := 2 / 25
          m_beta := 1 / 4
          m_lr := 2
          m_experts := []
          m_weights := []
          m_losses := []
          m_estimates := []
          m_actuals := [] })).m_weights.getD 0 0
    < ((List.replicate 3 400000000).foldl
      (Measurement (⟨Real.exp, fun x y => x ^ y, fun x => |x|⟩ : Libm ℝ) (TimeNS ℝ))
      (Copy (⟨Real.exp, fun x y => x ^ y, fun x => |x|⟩ : Libm ℝ)
        { toRttEstimator := RttEstimator.ctor 1000000000
          m_numExperts := 2
          m_alpha := 2 / 25
          m_beta := 1 / 4
          m_lr := 2
          m_experts := []
          m_weights := []
          m_losses := []
          m_estimates := []
          m_actuals := [] })).m_weights.getD 1 0 :=
  (best_expert_keeps_highest_weight (⟨Real.exp, fun x y => x ^ y, fun x => |x|⟩ : Libm ℝ)
    (TimeNS ℝ)
    { toRttEstimator := RttEstimator.ctor 1000000000
      m_numExperts := 2
      m_alpha := 2 / 25
      m_beta := 1 / 4
      m_lr := 2
      m_experts := []
      m_weights := []
      m_losses := []
      m_estimates := []
      m_actuals := [] }
    400000000 1 3 real_libm_exact rfl (by decide) (by norm_num) (by norm_num) (by norm_num)
    (by decide)
    (by
      rw [Copy_experts_getD _ _ 1 (by decide)]
      show ((400000000 : Int) : ℝ) / 1000000000
        = 0 + 2 / 5 * (2 : ℝ) ^ (((((1 : Nat) : Int) + 1 - 2 : Int) : ℝ) / 4)
      norm_num)
    (by decide)).2 (by norm_num) 0 (by decide) (by decide)

end BestExpert

end RttFixedShare

end ns3
